import Mathlib

/-! # DenoiseIt: the frame pipeline of `main.c`

A shallow embedding of the main loop of `src/main.c` (lines 158-247) and of the
input validation that precedes it (lines 115-156).

Conventions of the embedding.

* Samples are rationals (`ℚ`): the C `float` arithmetic is taken exactly.
* A C array is a map from index to value (`Nat → ℚ`); an in-place store is
  `Function.update`.
* `sf_count_t` / `int` counters that the code keeps non-negative are `Nat`;
  each subtraction on them is guarded in the source by the branch it sits in
  (`write_frames = input_frames - current_frame` under
  `current_frame < input_frames`, `rnnoise_frame_size - write_frames` under
  `current_frame + rnnoise_frame_size > input_frames`).  These counters stay
  at or below `input_frames + rnnoise_frame_size`.
* The prefeed budget `prefeed_frames_left` is a signed 64-bit counter that the
  code lets go negative: it is an `Int`.  `init` is given the value line 171
  has stored in it and `entry` computes that value from the option value: the
  conversion of line 171 from `float` is `to_sf_count`, and the decrement of
  line 232 wraps (`wrap64`).  An out-of-range conversion and a signed overflow
  are undefined in C; the embedding follows x86-64, where the conversion
  instruction gives the least 64-bit value and the subtraction wraps.
* The two libraries the program drives are parameters: the RNNoise engine is a
  state-transition function, libsndfile is a read position over the input
  samples and an append-only output.
-/

namespace DenoiseIt

/-! ## Data model -/

/-- The run-time constants of one program run together with the two external
collaborators (RNNoise and the files behind libsndfile). -/
structure Env (σ : Type) where
  /-- Result of `rnnoise_get_frame_size()` (line 113). -/
  rnnoise_frame_size : Nat
  /-- Value of `input_info.channels` (line 159). -/
  channels : Nat
  /-- Result of `sf_seek(input_file, 0, SEEK_END)` (line 141): the length of the
  input in sample-frames. -/
  input_frames : Nat
  /-- Value of `amplify_factor` (lines 42, 70). -/
  amplify_factor : ℚ
  /-- The interleaved samples of the input file. -/
  input_data : Nat → ℚ
  /-- Result of `rnnoise_create(rnnoise_model)`: the fresh engine state
  (line 162). -/
  rnnoise_create : σ
  /-- Effect of `rnnoise_process_frame(ds, out, in)`: new engine state and the frame
  written to `out` (line 211). -/
  rnnoise_process_frame : σ → (Nat → ℚ) → σ × (Nat → ℚ)
  /-- Return value of the `k`-th call of `sf_writef_float` when asked to write
  `n` frames (line 226). -/
  sf_writef_float : Nat → Nat → Int

/-- The record `struct channel_state` (lines 19-23). -/
structure channel_state (σ : Type) where
  ds : σ
  input : Nat → ℚ
  output : Nat → ℚ

/-- One call of `sf_readf_float` as the run logs it: the phase of the
iteration, the source sample-frame the window starts at, and the number of
sample-frames read. -/
structure WindowRead where
  prefeeding : Bool
  pos : Nat
  frames : Nat
deriving DecidableEq, Repr

/-- One call of `sf_writef_float` as the run logs it: the offset into
`full_frame` (in samples), the number of sample-frames requested, and the
source sample-frame at which the window in `full_frame` was read. -/
structure WriteOp where
  write_from : Nat
  write_frames : Nat
  window_pos : Nat
deriving DecidableEq, Repr

/-- The variables of `main` that are live across iterations of the main loop,
the two files, and the logs of the library calls made so far. -/
structure LoopState (σ : Type) where
  current_frame : Nat
  is_prefeeding : Bool
  prefeed_frames_left : Int
  /-- Read position of `input_file`, in sample-frames. -/
  input_pos : Nat
  full_frame : Nat → ℚ
  state : Nat → channel_state σ
  /-- Samples written to `output_file` so far. -/
  output_file : List ℚ
  /-- Set when the short-write branch has executed `return -1` (line 229). -/
  failed : Bool
  /-- Log of the `sf_readf_float` calls. -/
  windows : List WindowRead
  /-- Log of the `sf_writef_float` calls. -/
  writes : List WriteOp

/-! ## Machine integers -/

/-- The value a signed 64-bit counter holds after an arithmetic result `x`:
`x` reduced modulo `2 ^ 64` into `[-2 ^ 63, 2 ^ 63)`, as two's complement
arithmetic leaves it. -/
def wrap64 (x : Int) : Int :=
  (x + 2 ^ 63) % 2 ^ 64 - 2 ^ 63

/-- The least value of `sf_count_t`. -/
def SF_COUNT_MIN : Int := -(2 ^ 63)

/-- The conversion of a `float` value to `sf_count_t` (line 171): the value
truncated toward zero when that fits in 64 bits; otherwise the least 64-bit
value, which is what the conversion instruction of x86-64 stores for a value
out of range. -/
def to_sf_count (x : ℚ) : Int :=
  if SF_COUNT_MIN ≤ Int.tdiv x.num x.den ∧ Int.tdiv x.num x.den < 2 ^ 63
  then Int.tdiv x.num x.den else SF_COUNT_MIN

/-! ## libsndfile -/

/-- The call `sf_seek(input_file, -back, SEEK_END)`: the new read position.  A
seek to before the start of the file fails and leaves the position as it
was. -/
def sf_seek_end {σ : Type} (e : Env σ) (back : Nat) (pos : Nat) : Nat :=
  if back ≤ e.input_frames then e.input_frames - back else pos

/-- The number of sample-frames `sf_readf_float` delivers when asked for
`frames` at read position `pos`: as many as are left in the file. -/
def sf_read_count {σ : Type} (e : Env σ) (pos : Nat) (frames : Nat) : Nat :=
  min frames (e.input_frames - pos)

/-- The buffer after `sf_readf_float(input_file, buf, frames)` at read position
`pos`: the delivered samples are stored from index 0, the rest of the buffer
is left alone. -/
def sf_readf_float {σ : Type} (e : Env σ) (pos : Nat) (buf : Nat → ℚ) (frames : Nat) :
    Nat → ℚ :=
  fun j => if j < sf_read_count e pos frames * e.channels
    then e.input_data (pos * e.channels + j) else buf j

/-- The samples `sf_writef_float(output_file, buf + write_from, frames)`
appends to the output when `frames` sample-frames are written. -/
def written_samples {σ : Type} (e : Env σ) (buf : Nat → ℚ) (write_from : Nat)
    (frames : Nat) : List ℚ :=
  (List.range (frames * e.channels)).map (fun j => buf (write_from + j))

/-! ## The loops -/

/-- The loop `for (int i = 0; i < n; i++) a = f i a`. -/
def forLoop {α : Type} (f : Nat → α → α) : Nat → α → α
  | 0, a => a
  | n + 1, a => f n (forLoop f n a)

/-- Lines 205-209: the split loop for channel `ch`, storing into
`state[ch].input`. -/
def split_channel {σ : Type} (e : Env σ) (full_frame : Nat → ℚ) (ch : Nat)
    (input : Nat → ℚ) : Nat → ℚ :=
  forLoop (fun sample inp =>
    Function.update inp sample
      (full_frame (ch + sample * e.channels) * 32768 * e.amplify_factor))
    e.rnnoise_frame_size input

/-- Lines 216-218: the merge loop for channel `ch`, storing into
`full_frame`. -/
def merge_channel {σ : Type} (e : Env σ) (output : Nat → ℚ) (ch : Nat)
    (full_frame : Nat → ℚ) : Nat → ℚ :=
  forLoop (fun sample ff =>
    Function.update ff (ch + sample * e.channels) (output sample / 32768))
    e.rnnoise_frame_size full_frame

/-- The call `bzero(buf, rnnoise_frame_size * sizeof(float))` (line 212). -/
def bzero {σ : Type} (e : Env σ) (buf : Nat → ℚ) : Nat → ℚ :=
  fun j => if j < e.rnnoise_frame_size then 0 else buf j

/-- The buffer `state[ch].input` as it is passed to `rnnoise_process_frame`
at line 211, when the iteration of the channel loop for `ch` starts with
`full_frame` and `state` as in `p`. -/
def engine_input {σ : Type} (e : Env σ) (ch : Nat)
    (p : (Nat → ℚ) × (Nat → channel_state σ)) : Nat → ℚ :=
  split_channel e p.1 ch (p.2 ch).input

/-- The frame `rnnoise_process_frame` produces at line 211 for channel `ch`. -/
def engine_output {σ : Type} (e : Env σ) (ch : Nat)
    (p : (Nat → ℚ) × (Nat → channel_state σ)) : Nat → ℚ :=
  (e.rnnoise_process_frame (p.2 ch).ds (engine_input e ch p)).2

/-- Lines 205-219: the body of the channel loop for channel `ch`, acting on
`full_frame` and the array `state`. -/
def process_channel {σ : Type} (e : Env σ) (is_prefeeding : Bool) (ch : Nat)
    (p : (Nat → ℚ) × (Nat → channel_state σ)) : (Nat → ℚ) × (Nat → channel_state σ) :=
  let st := p.2 ch
  let input := engine_input e ch p
  let r := e.rnnoise_process_frame st.ds input
  let output : Nat → ℚ := fun j => if j < e.rnnoise_frame_size then r.2 j else st.output j
  let st1 : channel_state σ := { ds := r.1, input := bzero e input, output := output }
  (if is_prefeeding then p.1 else merge_channel e output ch p.1,
   Function.update p.2 ch st1)

/-- Lines 204-221: the channel loop. -/
def channel_loop {σ : Type} (e : Env σ) (is_prefeeding : Bool)
    (p : (Nat → ℚ) × (Nat → channel_state σ)) : (Nat → ℚ) × (Nat → channel_state σ) :=
  forLoop (process_channel e is_prefeeding) e.channels p

/-- Line 184: the test for the tail window. -/
def is_tail {σ : Type} (e : Env σ) (s : LoopState σ) : Bool :=
  decide (s.current_frame + e.rnnoise_frame_size > e.input_frames)

/-- Lines 182, 188: `write_frames` of the iteration. -/
def write_frames {σ : Type} (e : Env σ) (s : LoopState σ) : Nat :=
  if is_tail e s then e.input_frames - s.current_frame else e.rnnoise_frame_size

/-- Lines 181, 193: `write_from` of the iteration. -/
def write_from {σ : Type} (e : Env σ) (s : LoopState σ) : Nat :=
  if is_tail e s then (e.rnnoise_frame_size - write_frames e s) * e.channels else 0

/-- Line 196: the read position from which the window of the iteration is
read. -/
def read_pos {σ : Type} (e : Env σ) (s : LoopState σ) : Nat :=
  if is_tail e s then sf_seek_end e e.rnnoise_frame_size s.input_pos else s.input_pos

/-- The buffer `full_frame` and the array `state` at the moment the channel
loop of the iteration entered in state `s` reaches channel `ch`: the window has
been read (line 199) and channels `0 .. ch-1` have been processed. -/
def channel_entry {σ : Type} (e : Env σ) (s : LoopState σ) (ch : Nat) :
    (Nat → ℚ) × (Nat → channel_state σ) :=
  forLoop (process_channel e s.is_prefeeding) ch
    (sf_readf_float e (read_pos e s) s.full_frame e.rnnoise_frame_size, s.state)

/-- Lines 181-246: one execution of the body of the main loop. -/
def body {σ : Type} (e : Env σ) (s : LoopState σ) : LoopState σ :=
  let wf := write_frames e s
  let wfrom := write_from e s
  let pos := read_pos e s
  let cnt := sf_read_count e pos e.rnnoise_frame_size
  let p := channel_loop e s.is_prefeeding
    (sf_readf_float e pos s.full_frame e.rnnoise_frame_size, s.state)
  let s1 : LoopState σ :=
    { s with
      input_pos := pos + cnt
      full_frame := p.1
      state := p.2
      windows := s.windows ++ [{ prefeeding := s.is_prefeeding, pos := pos, frames := cnt }] }
  if s.is_prefeeding = false then
    let ret := e.sf_writef_float s.writes.length wf
    let s2 : LoopState σ :=
      { s1 with
        writes := s.writes ++ [{ write_from := wfrom, write_frames := wf, window_pos := pos }]
        output_file := s.output_file ++
          written_samples e p.1 wfrom (min wf ret.toNat) }
    if ret ≠ (wf : Int) then { s2 with failed := true }
    else { s2 with current_frame := s.current_frame + wf }
  else
    let left := wrap64 (s.prefeed_frames_left - (wf : Int))
    if left ≤ 0 then
      { s1 with
        is_prefeeding := false
        prefeed_frames_left := 0
        current_frame := 0
        input_pos := 0 }
    else
      { s1 with
        prefeed_frames_left := left
        current_frame := s.current_frame + wf }

/-- Line 180 and the `return` of line 229: the loop goes round once more. -/
def loop_cond {σ : Type} (e : Env σ) (s : LoopState σ) : Bool :=
  !s.failed && decide (s.current_frame < e.input_frames)

/-- Lines 180-247: the main loop, run for at most `fuel` iterations; `none`
when the fuel does not suffice. -/
def main_loop {σ : Type} (e : Env σ) : Nat → LoopState σ → Option (LoopState σ)
  | 0, _ => none
  | fuel + 1, s => if loop_cond e s then main_loop e fuel (body e s) else some s

/-- Lines 158-179: the state in which the main loop is entered.
`prefeed_on` is `prefeed_seconds > 0.0f` (line 170) and `prefeed_frames` is the
64-bit value that line 171 stores in `prefeed_frames_left`; lines 174-177 cap
it to the stream length. -/
def init {σ : Type} (e : Env σ) (prefeed_on : Bool) (prefeed_frames : Int) :
    LoopState σ :=
  { current_frame := 0
    is_prefeeding := prefeed_on
    prefeed_frames_left :=
      if prefeed_frames > (e.input_frames : Int) then (e.input_frames : Int)
      else prefeed_frames
    input_pos := 0
    full_frame := fun _ => 0
    state := fun _ => { ds := e.rnnoise_create, input := fun _ => 0, output := fun _ => 0 }
    output_file := []
    failed := false
    windows := []
    writes := [] }

/-- Lines 158-247: the main loop run from its entry state. -/
def run {σ : Type} (e : Env σ) (prefeed_on : Bool) (prefeed_frames : Int) (fuel : Nat) :
    Option (LoopState σ) :=
  main_loop e fuel (init e prefeed_on prefeed_frames)

/-- Line 171: the value stored in `prefeed_frames_left` for the option value
`prefeed_seconds`, at the sample rate the input has once line 127 has let it
pass. -/
def prefeed_budget (prefeed_seconds : ℚ) : Int :=
  to_sf_count (prefeed_seconds * 48000)

/-- Lines 158-179 for the option value `prefeed_seconds` (lines 43, 80): the
state in which the main loop is entered. -/
def entry {σ : Type} (e : Env σ) (prefeed_seconds : ℚ) : LoopState σ :=
  init e (decide (0 < prefeed_seconds)) (prefeed_budget prefeed_seconds)

/-- Lines 158-247 for the option value `prefeed_seconds`. -/
def main_run {σ : Type} (e : Env σ) (prefeed_seconds : ℚ) (fuel : Nat) :
    Option (LoopState σ) :=
  main_loop e fuel (entry e prefeed_seconds)

/-! ## Closed forms used in the statements -/

/-- The prefeed settings under which the prefeed phase runs as designed: when
prefeed is on, the value that line 171 stores in the 64-bit counter is a
budget `P ≥ 0`, as it is whenever the conversion of line 171 is in range, and
the stream length is an `sf_count_t`. -/
def budget_in_range {σ : Type} (e : Env σ) (prefeed_on : Bool) (prefeed_frames : Int) :
    Prop :=
  prefeed_on = true →
    0 ≤ prefeed_frames ∧ prefeed_frames < 2 ^ 63 ∧ (e.input_frames : Int) < 2 ^ 63

/-- The quotient `a / b` rounded up. -/
def ceil_div (a b : Nat) : Nat := (a + b - 1) / b

/-- The source sample-frame at which the window of an iteration starts when
the cursor is `c`: the cursor itself, or `input_frames - rnnoise_frame_size`
for the tail window. -/
def window_at {σ : Type} (e : Env σ) (c : Nat) : Nat :=
  if c + e.rnnoise_frame_size ≤ e.input_frames then c
  else e.input_frames - e.rnnoise_frame_size

/-- The write issued by a normal iteration when the cursor is `c`. -/
def write_op_at {σ : Type} (e : Env σ) (c : Nat) : WriteOp :=
  { write_from :=
      (e.rnnoise_frame_size - min e.rnnoise_frame_size (e.input_frames - c)) * e.channels
    write_frames := min e.rnnoise_frame_size (e.input_frames - c)
    window_pos := window_at e c }

/-- The number of iterations of one pass over the whole stream. -/
def normal_iterations {σ : Type} (e : Env σ) : Nat :=
  ceil_div e.input_frames e.rnnoise_frame_size

/-- A bound on the number of iterations left at a loop head: those of the
pass in progress and, while prefeeding, those of the normal pass that may
follow. -/
def iterations_left {σ : Type} (e : Env σ) (s : LoopState σ) : Nat :=
  (if s.is_prefeeding then normal_iterations e + 1 else 0)
    + ceil_div (e.input_frames - s.current_frame) e.rnnoise_frame_size

/-- The number of iterations of the prefeed phase for a budget of
`prefeed_frames` sample-frames held by the counter. -/
def prefeed_iterations {σ : Type} (e : Env σ) (prefeed_frames : Int) : Nat :=
  max 1 (ceil_div (min prefeed_frames (e.input_frames : Int)).toNat e.rnnoise_frame_size)

/-- The number of iterations spent prefeeding: none when prefeed is off. -/
def prefeed_count {σ : Type} (e : Env σ) (prefeed_on : Bool) (prefeed_frames : Int) : Nat :=
  if prefeed_on then prefeed_iterations e prefeed_frames else 0

/-- The windows read by the first `n` iterations of a pass in the given
phase. -/
def pass_windows {σ : Type} (e : Env σ) (prefeeding : Bool) (n : Nat) : List WindowRead :=
  (List.range n).map (fun k =>
    { prefeeding := prefeeding
      pos := window_at e (k * e.rnnoise_frame_size)
      frames := e.rnnoise_frame_size })

/-- The writes issued by the first `n` iterations of the normal pass. -/
def pass_writes {σ : Type} (e : Env σ) (n : Nat) : List WriteOp :=
  (List.range n).map (fun k => write_op_at e (k * e.rnnoise_frame_size))

/-- The source sample-frames of the frames a write takes from `full_frame`, in
the order written: the buffer frame `write_from / channels + j` holds source
frame `window_pos + write_from / channels + j`. -/
def source_frames {σ : Type} (e : Env σ) (w : WriteOp) : List Nat :=
  (List.range w.write_frames).map (fun j => w.window_pos + w.write_from / e.channels + j)

/-- The mono frame of channel `i` cut from the window that starts at source
sample-frame `pos`: sample `s` is the source sample of channel `i` in
sample-frame `pos + s`, scaled by `32768` and by the amplification factor. -/
def mono_frame {σ : Type} (e : Env σ) (pos i : Nat) : Nat → ℚ :=
  fun s => if s < e.rnnoise_frame_size
    then e.input_data (pos * e.channels + (i + s * e.channels)) * 32768 * e.amplify_factor
    else 0

/-- The engine state obtained from the freshly created one by processing, in
order, the frames of channel `i` in the listed windows. -/
def engine_fold {σ : Type} (e : Env σ) (i : Nat) (ws : List WindowRead) : σ :=
  ws.foldl (fun st w => (e.rnnoise_process_frame st (mono_frame e w.pos i)).1)
    e.rnnoise_create

/-- The sample a run that completes writes at position `j` of the output, when
the windows `before` have been read before the normal pass starts.  Position
`j` is channel `j % N` of source sample-frame `k = j / N`; that frame is
written by iteration `k / F` of the normal pass, whose window starts at
`pos`; the sample is what the engine of that channel, in the state it has
after the windows read so far, returns for the mono frame of that window, at
the slot `k - pos` that holds source frame `k`, divided by `32768`. -/
def denoised_sample {σ : Type} (e : Env σ) (before : List WindowRead) (j : Nat) : ℚ :=
  (e.rnnoise_process_frame
    (engine_fold e (j % e.channels)
      (before ++ pass_windows e false (j / e.channels / e.rnnoise_frame_size)))
    (mono_frame e
      (window_at e (j / e.channels / e.rnnoise_frame_size * e.rnnoise_frame_size))
      (j % e.channels))).2
    (j / e.channels
      - window_at e (j / e.channels / e.rnnoise_frame_size * e.rnnoise_frame_size))
    / 32768

/-- All writes return the number of frames requested. -/
def writes_succeed {σ : Type} (e : Env σ) : Prop :=
  ∀ k n : Nat, e.sf_writef_float k n = (n : Int)

/-- A loop head from which a normal pass over the whole stream starts:
cursor and read position at zero, nothing written yet. -/
structure NormalStart {σ : Type} (s : LoopState σ) : Prop where
  phase : s.is_prefeeding = false
  ok : s.failed = false
  cursor : s.current_frame = 0
  pos : s.input_pos = 0
  writes : s.writes = []
  output : s.output_file = []

/-- The loop head reached `j` iterations into the normal pass started at
`s0`. -/
structure NormalHead {σ : Type} (e : Env σ) (s0 s : LoopState σ) (j : Nat) : Prop where
  phase : s.is_prefeeding = false
  ok : s.failed = false
  cursor : s.current_frame = min (j * e.rnnoise_frame_size) e.input_frames
  pos : s.input_pos = s.current_frame
  budget : s.prefeed_frames_left = s0.prefeed_frames_left
  writes : s.writes = pass_writes e j
  windows : s.windows = s0.windows ++ pass_windows e false j

/-- The loop head reached `j` iterations into the prefeed phase when the
counter starts with a budget of `prefeed_frames` sample-frames. -/
structure PrefeedHead {σ : Type} (e : Env σ) (prefeed_frames : Int) (s : LoopState σ)
    (j : Nat) : Prop where
  phase : s.is_prefeeding = true
  ok : s.failed = false
  cursor : s.current_frame = j * e.rnnoise_frame_size
  inside : s.current_frame < e.input_frames
  pos : s.input_pos = s.current_frame
  budget : s.prefeed_frames_left =
    min prefeed_frames (e.input_frames : Int) - ((j * e.rnnoise_frame_size : Nat) : Int)
  writes : s.writes = []
  output : s.output_file = []
  windows : s.windows = pass_windows e true j

/-- The loop head reached after `j` iterations when the counter starts at
`SF_COUNT_MIN`, the value stored when the conversion of line 171 is out of
range: still prefeeding, nothing written, and the counter, wrapped to
`2^63 - current_frame` by the first decrement, above zero from then on. -/
structure OverflowHead {σ : Type} (e : Env σ) (s : LoopState σ) (j : Nat) : Prop where
  phase : s.is_prefeeding = true
  ok : s.failed = false
  cursor : s.current_frame = min (j * e.rnnoise_frame_size) e.input_frames
  pos : s.input_pos = s.current_frame
  budget : s.prefeed_frames_left = wrap64 (SF_COUNT_MIN - (s.current_frame : Int))
  writes : s.writes = []
  output : s.output_file = []
  windows : s.windows = pass_windows e true j

/-- What every loop head knows about the engines: the input staging buffers
are all zero, and each channel's engine state is the fold of the engine over
that channel's frames in the windows read so far. -/
structure DataInv {σ : Type} (e : Env σ) (s : LoopState σ) : Prop where
  staging : ∀ i, (s.state i).input = fun _ => 0
  engine : ∀ i, i < e.channels → (s.state i).ds = engine_fold e i s.windows

/-- An engine that hands back the frame it is given. -/
def identity_engine {σ : Type} (e : Env σ) : Prop :=
  ∀ (st : σ) (x : Nat → ℚ) (s : Nat), s < e.rnnoise_frame_size →
    (e.rnnoise_process_frame st x).2 s = x s

/-- An engine that answers a zero frame with a zero frame, whatever its
state. -/
def zero_engine {σ : Type} (e : Env σ) : Prop :=
  ∀ (st : σ) (x : Nat → ℚ), (∀ s, s < e.rnnoise_frame_size → x s = 0) →
    ∀ s, s < e.rnnoise_frame_size → (e.rnnoise_process_frame st x).2 s = 0

/-- An input stream whose samples are all zero. -/
def silent_input {σ : Type} (e : Env σ) : Prop :=
  ∀ j, e.input_data j = 0

/-- The exit code of `main` once the loop is left: `return -1` of line 229
after a short write, `return 0` of line 267 otherwise. -/
def exit_code {σ : Type} (s : LoopState σ) : Int :=
  if s.failed then -1 else 0

/-- The `j`-th loop head of a run: the state in which the loop condition is
tested for the `j`-th time after entry. -/
def loop_head {σ : Type} (e : Env σ) (prefeed_on : Bool) (prefeed_frames : Int) (j : Nat) :
    LoopState σ :=
  (body e)^[j] (init e prefeed_on prefeed_frames)

/-- The states in which a run tests the loop condition: the entry state, and
the state after each iteration entered with the condition true. -/
inductive LoopHead {σ : Type} (e : Env σ) (prefeed_on : Bool) (prefeed_frames : Int) :
    LoopState σ → Prop where
  | entry : LoopHead e prefeed_on prefeed_frames (init e prefeed_on prefeed_frames)
  | next (s : LoopState σ) : LoopHead e prefeed_on prefeed_frames s →
      loop_cond e s = true → LoopHead e prefeed_on prefeed_frames (body e s)

/-- The same run-time constants and collaborators, with an output on which
every write returns the number of frames requested. -/
def with_good_writes {σ : Type} (e : Env σ) : Env σ :=
  { e with sf_writef_float := fun _ n => (n : Int) }

/-! ## Option parsing (lines 42-43, 69-87) -/

/-- The value of `ERANGE` in `errno.h`. -/
def ERANGE : Int := 34

/-- The part of `strtof` the C standard leaves to the implementation and to
the text converted: the value of a subject sequence, and whether that value is
outside the range of `float`. -/
structure Strtof where
  value : String → ℚ
  out_of_range : String → Bool

/-- The white-space characters of `isspace` in the C locale. -/
def c_isspace (c : Char) : Bool :=
  c.toNat = 32 || (9 ≤ c.toNat && c.toNat ≤ 13)

/-- Whether `cs` starts with the lower-case word `w`, letter case ignored. -/
def starts_with_word (cs w : List Char) : Bool :=
  (cs.take w.length).map Char.toLower == w

/-- Whether the C standard finds a non-empty subject sequence in `arg`, that
is, whether `strtof` can perform a conversion: after optional white space and
an optional sign the text must start with a digit, with a radix character
followed by a digit, or with `inf` or `nan` in any letter case. -/
def has_subject (arg : String) : Bool :=
  let cs := arg.data.dropWhile c_isspace
  let cs := match cs with
    | '+' :: t => t
    | '-' :: t => t
    | _ => cs
  (match cs with
    | c :: _ => c.isDigit
    | [] => false) ||
  (match cs with
    | '.' :: d :: _ => d.isDigit
    | _ => false) ||
  starts_with_word cs ['i', 'n', 'f'] || starts_with_word cs ['n', 'a', 'n']

/-- The call `strtof(arg, NULL)` as the C standard describes it, with `errno`
as found on entry: the value returned and `errno` afterwards.  When no
conversion can be performed zero is returned and `errno` is left alone; a
value out of range sets `errno` to `ERANGE`. -/
def strtof (m : Strtof) (arg : String) (errno : Int) : ℚ × Int :=
  if has_subject arg then
    (m.value arg, if m.out_of_range arg then ERANGE else errno)
  else (0, errno)

/-- The variables of `main` that option parsing sets, and `errno`. -/
structure Options where
  amplify_factor : ℚ
  prefeed_seconds : ℚ
  errno : Int

/-- Lines 42-43: the defaults, with `errno` zero at program start. -/
def default_options : Options :=
  { amplify_factor := 1, prefeed_seconds := 0, errno := 0 }

/-- Lines 69-77, the case of `--amplify`: `Except.error code` is
`return code`. -/
def option_amplify (m : Strtof) (optarg : String) (o : Options) : Except Int Options :=
  let r := strtof m optarg o.errno
  if r.2 ≠ 0 then Except.error (-1)
  else Except.ok { o with amplify_factor := r.1, errno := r.2 }

/-- Lines 79-87, the case of `--prefeed`: `Except.error code` is
`return code`. -/
def option_prefeed (m : Strtof) (optarg : String) (o : Options) : Except Int Options :=
  let r := strtof m optarg o.errno
  if r.2 ≠ 0 then Except.error (-1)
  else Except.ok { o with prefeed_seconds := r.1, errno := r.2 }

/-! ## Start-up: opening and validating the input (lines 115-156) -/

/-- The constant `RNNOISE_SAMPLE_RATE` (line 10). -/
def RNNOISE_SAMPLE_RATE : Int := 48000

/-- The fields of libsndfile's `SF_INFO` that the program reads. -/
structure SF_INFO where
  samplerate : Int
  channels : Int
  seekable : Int
deriving DecidableEq, Repr

/-- What the libsndfile calls of the start-up code return. -/
structure Files where
  /-- Result of `sf_open(input_path, SFM_READ, &input_info)` (line 116): `none` for
  `NULL`, otherwise the `input_info` it has filled in. -/
  input_open : Option SF_INFO
  /-- Result of `sf_format_check(&input_info)` (line 135). -/
  sf_format_check : Int
  /-- Result of `sf_seek(input_file, 0, SEEK_END)` (line 141). -/
  seek_end : Int
  /-- Whether `sf_open(output_path, SFM_WRITE, &output_info)` is not `NULL`
  (line 152). -/
  output_open : Bool

/-- How the start-up code ends: with `return code`, having or not having
called `sf_open` on the output path, or by going on to the main loop with the
output open and `input_frames` as given. -/
inductive Startup where
  | exit (code : Int) (output_open_called : Bool)
  | enter_loop (input_frames : Int)
deriving DecidableEq, Repr

/-- Lines 115-156, for the engine frame size of line 113. -/
def startup (rnnoise_frame_size : Int) (f : Files) : Startup :=
  match f.input_open with
  | none => Startup.exit (-1) false
  | some input_info =>
    if input_info.seekable = 0 then Startup.exit (-1) false
    else if input_info.samplerate ≠ RNNOISE_SAMPLE_RATE then Startup.exit (-1) false
    else if f.sf_format_check = 0 then Startup.exit (-1) false
    else if f.seek_end < rnnoise_frame_size then Startup.exit (-1) false
    else if f.output_open = false then Startup.exit (-1) true
    else Startup.enter_loop f.seek_end

/-! ## Scenarios -/

/-- A valid one-channel input of 1000 sample-frames at 48000 Hz, and an output
path that can be opened. -/
def good_files : Files :=
  { input_open := some { samplerate := 48000, channels := 1, seekable := 1 }
    sf_format_check := 1
    seek_end := 1000
    output_open := true }

/-- The same valid input, with an output path that cannot be opened. -/
def unwritable_output : Files :=
  { good_files with output_open := false }

/-- The same input at 44100 Hz. -/
def wrong_rate : Files :=
  { good_files with
    input_open := some { samplerate := 44100, channels := 1, seekable := 1 } }

/-- The scenario of the specification: one channel, 1000 sample-frames, engine
frame size 480, amplification 1.  The engine counts the frames it has
processed and hands each frame back. -/
def scenario : Env Nat :=
  { rnnoise_frame_size := 480
    channels := 1
    input_frames := 1000
    amplify_factor := 1
    input_data := fun j => (j : ℚ) / 1000
    rnnoise_create := 0
    rnnoise_process_frame := fun st x => (st + 1, x)
    sf_writef_float := fun _ n => (n : Int) }

/-- A small stereo stream: two channels, 8 sample-frames, engine frame size 3,
amplification 2, with the same counting engine. -/
def stereo : Env Nat :=
  { rnnoise_frame_size := 3
    channels := 2
    input_frames := 8
    amplify_factor := 2
    input_data := fun j => (j : ℚ) + 1
    rnnoise_create := 0
    rnnoise_process_frame := fun st x => (st + 1, x)
    sf_writef_float := fun _ n => (n : Int) }

/-- A silent stereo stream: the stereo stream with all samples zero and
amplification 3. -/
def silence : Env Nat :=
  { stereo with amplify_factor := 3, input_data := fun _ => 0 }

/-- The scenario of the specification on a full disk: the second write
returns 100 frames instead of the 480 requested. -/
def short_write : Env Nat :=
  { scenario with sf_writef_float := fun k n => if k = 1 then 100 else (n : Int) }

end DenoiseIt

namespace DenoiseIt

/-! ## Buffers: the split and merge loops -/

theorem forLoop_update_other (idx : Nat → Nat) (val : Nat → ℚ) (n : Nat) (g : Nat → ℚ)
    (j : Nat) (hj : ∀ s, s < n → j ≠ idx s) :
    forLoop (fun i f => Function.update f (idx i) (val i)) n g j = g j := by
  induction n with
  | zero => rfl
  | succ n ih =>
    simp only [forLoop, Function.update_apply]
    rw [if_neg (hj n (by omega))]
    exact ih (fun s hs => hj s (by omega))

theorem forLoop_update_at (idx : Nat → Nat) (val : Nat → ℚ)
    (hinj : ∀ a b, idx a = idx b → a = b) (n : Nat) (g : Nat → ℚ)
    (s : Nat) (hs : s < n) :
    forLoop (fun i f => Function.update f (idx i) (val i)) n g (idx s) = val s := by
  induction n with
  | zero => omega
  | succ n ih =>
    simp only [forLoop, Function.update_apply]
    by_cases h : s = n
    · subst h; simp
    · rw [if_neg (fun hc => h (hinj _ _ hc))]
      exact ih (by omega)

section buffers

variable {σ : Type} (e : Env σ)

theorem split_channel_apply (ff : Nat → ℚ) (ch : Nat) (inp : Nat → ℚ) (s : Nat) :
    split_channel e ff ch inp s =
      if s < e.rnnoise_frame_size then ff (ch + s * e.channels) * 32768 * e.amplify_factor
      else inp s := by
  unfold split_channel
  by_cases h : s < e.rnnoise_frame_size
  · rw [if_pos h]
    exact forLoop_update_at (fun i => i)
      (fun i => ff (ch + i * e.channels) * 32768 * e.amplify_factor)
      (fun _ _ h => h) _ inp s h
  · rw [if_neg h]
    exact forLoop_update_other (fun i => i)
      (fun i => ff (ch + i * e.channels) * 32768 * e.amplify_factor) _ inp s
      (fun t ht => by show s ≠ t; omega)

theorem merge_channel_at (hN : 0 < e.channels) (out ff : Nat → ℚ) (ch s : Nat)
    (hs : s < e.rnnoise_frame_size) :
    merge_channel e out ch ff (ch + s * e.channels) = out s / 32768 := by
  unfold merge_channel
  refine forLoop_update_at (fun i => ch + i * e.channels) (fun i => out i / 32768)
    ?_ _ ff s hs
  intro a b hab
  have : a * e.channels = b * e.channels := by
    simp only at hab; omega
  exact Nat.eq_of_mul_eq_mul_right hN this

theorem merge_channel_other (out ff : Nat → ℚ) (ch j : Nat)
    (hj : ∀ s, s < e.rnnoise_frame_size → j ≠ ch + s * e.channels) :
    merge_channel e out ch ff j = ff j := by
  unfold merge_channel
  exact forLoop_update_other (fun i => ch + i * e.channels) (fun i => out i / 32768)
    _ ff j hj

/-- Two interleaved positions agree only when channel and sample agree. -/
theorem interleave_inj {N i j s t : Nat} (hi : i < N) (hj : j < N)
    (h : i + s * N = j + t * N) : i = j ∧ s = t := by
  have h1 : (i + s * N) % N = (j + t * N) % N := by rw [h]
  rw [Nat.add_mul_mod_self_right, Nat.add_mul_mod_self_right,
    Nat.mod_eq_of_lt hi, Nat.mod_eq_of_lt hj] at h1
  subst h1
  have h2 : s * N = t * N := by omega
  exact ⟨rfl, Nat.eq_of_mul_eq_mul_right (by omega) h2⟩

end buffers

end DenoiseIt

namespace DenoiseIt

/-! ## The channel loop -/

section channels

variable {σ : Type} (e : Env σ)

/-- The record stored in `state[ch]` by the iteration of the channel loop for
`ch` (lines 211-212). -/
theorem process_channel_snd (pf : Bool) (ch : Nat)
    (p : (Nat → ℚ) × (Nat → channel_state σ)) :
    (process_channel e pf ch p).2 = Function.update p.2 ch
      { ds := (e.rnnoise_process_frame (p.2 ch).ds (engine_input e ch p)).1
        input := bzero e (engine_input e ch p)
        output := fun j => if j < e.rnnoise_frame_size then engine_output e ch p j
          else (p.2 ch).output j } := rfl

theorem process_channel_fst (pf : Bool) (ch : Nat)
    (p : (Nat → ℚ) × (Nat → channel_state σ)) :
    (process_channel e pf ch p).1 =
      if pf then p.1 else merge_channel e
        (fun j => if j < e.rnnoise_frame_size then engine_output e ch p j
          else (p.2 ch).output j) ch p.1 := rfl

/-- Channels not yet reached by the channel loop still have their records. -/
theorem channel_prefix_state (pf : Bool) (p : (Nat → ℚ) × (Nat → channel_state σ))
    (k i : Nat) (hki : k ≤ i) :
    (forLoop (process_channel e pf) k p).2 i = p.2 i := by
  induction k with
  | zero => rfl
  | succ k ih =>
    simp only [forLoop, process_channel_snd]
    rw [Function.update_noteq (by omega)]
    exact ih (by omega)

/-- Channels not yet reached by the channel loop still have their samples in
`full_frame`. -/
theorem channel_prefix_frame (pf : Bool) (p : (Nat → ℚ) × (Nat → channel_state σ))
    (k i s : Nat) (hki : k ≤ i) (hi : i < e.channels) :
    (forLoop (process_channel e pf) k p).1 (i + s * e.channels) =
      p.1 (i + s * e.channels) := by
  induction k with
  | zero => rfl
  | succ k ih =>
    simp only [forLoop, process_channel_fst]
    cases pf with
    | true => simpa using ih (by omega)
    | false =>
      simp only [Bool.false_eq_true, if_false]
      rw [merge_channel_other]
      · exact ih (by omega)
      · intro t _ hc
        have := (interleave_inj hi (by omega) hc).1
        omega

/-- The frame handed to the engine of channel `i` does not depend on the
channels processed before it. -/
theorem engine_input_fresh (pf : Bool) (p : (Nat → ℚ) × (Nat → channel_state σ))
    (i : Nat) (hi : i < e.channels) :
    engine_input e i (forLoop (process_channel e pf) i p) = engine_input e i p := by
  funext s
  simp only [engine_input, split_channel_apply]
  rw [channel_prefix_frame e pf p i i s (le_refl _) hi,
    channel_prefix_state e pf p i i (le_refl _)]

theorem engine_output_fresh (pf : Bool) (p : (Nat → ℚ) × (Nat → channel_state σ))
    (i : Nat) (hi : i < e.channels) :
    engine_output e i (forLoop (process_channel e pf) i p) = engine_output e i p := by
  simp only [engine_output]
  rw [engine_input_fresh e pf p i hi, channel_prefix_state e pf p i i (le_refl _)]

/-- After `k` rounds of the channel loop, the record of each channel `i < k`
is the one its own round computes from the window as read. -/
theorem channel_done_state (pf : Bool) (p : (Nat → ℚ) × (Nat → channel_state σ))
    (k i : Nat) (hk : k ≤ e.channels) (hik : i < k) :
    (forLoop (process_channel e pf) k p).2 i = (process_channel e pf i p).2 i := by
  induction k with
  | zero => omega
  | succ k ih =>
    simp only [forLoop]
    by_cases h : i = k
    · subst h
      simp only [process_channel_snd, Function.update_same]
      rw [engine_input_fresh e pf p i (by omega), engine_output_fresh e pf p i (by omega),
        channel_prefix_state e pf p i i (le_refl _)]
    · rw [process_channel_snd, Function.update_noteq h]
      rw [ih (by omega) (by omega)]

/-- In the prefeed phase the channel loop leaves `full_frame` as read. -/
theorem channel_frame_prefeed (p : (Nat → ℚ) × (Nat → channel_state σ)) (k : Nat) :
    (forLoop (process_channel e true) k p).1 = p.1 := by
  induction k with
  | zero => rfl
  | succ k ih => simpa [forLoop, process_channel_fst] using ih

/-- In the normal phase, after `k` rounds of the channel loop the slots of each
channel `i < k` hold that channel's engine output, scaled back. -/
theorem channel_done_frame (p : (Nat → ℚ) × (Nat → channel_state σ))
    (k i s : Nat) (hk : k ≤ e.channels) (hik : i < k) (hs : s < e.rnnoise_frame_size) :
    (forLoop (process_channel e false) k p).1 (i + s * e.channels) =
      engine_output e i p s / 32768 := by
  induction k with
  | zero => omega
  | succ k ih =>
    simp only [forLoop, process_channel_fst, Bool.false_eq_true, if_false]
    by_cases h : i = k
    · subst h
      rw [merge_channel_at e (by omega) _ _ i s hs, if_pos hs,
        engine_output_fresh e false p i (by omega)]
    · rw [merge_channel_other]
      · exact ih (by omega) (by omega)
      · intro t _ hc
        exact h (interleave_inj (by omega) (by omega) hc).1

end channels

end DenoiseIt

namespace DenoiseIt

/-! ## One iteration of the main loop -/

section step

variable {σ : Type} (e : Env σ)

/-- The iteration of the main loop in the normal phase when the write
succeeds. -/
theorem body_normal (s : LoopState σ) (hp : s.is_prefeeding = false)
    (hw : e.sf_writef_float s.writes.length (write_frames e s) = (write_frames e s : Int)) :
    body e s =
      { current_frame := s.current_frame + write_frames e s
        is_prefeeding := false
        prefeed_frames_left := s.prefeed_frames_left
        input_pos := read_pos e s + sf_read_count e (read_pos e s) e.rnnoise_frame_size
        full_frame := (channel_loop e false
          (sf_readf_float e (read_pos e s) s.full_frame e.rnnoise_frame_size, s.state)).1
        state := (channel_loop e false
          (sf_readf_float e (read_pos e s) s.full_frame e.rnnoise_frame_size, s.state)).2
        output_file := s.output_file ++ written_samples e (channel_loop e false
          (sf_readf_float e (read_pos e s) s.full_frame e.rnnoise_frame_size, s.state)).1
            (write_from e s) (write_frames e s)
        failed := s.failed
        windows := s.windows ++ [⟨false, read_pos e s,
            sf_read_count e (read_pos e s) e.rnnoise_frame_size⟩]
        writes := s.writes ++ [⟨write_from e s, write_frames e s, read_pos e s⟩] } := by
  simp [body, hp, hw]

/-- The iteration of the main loop in the prefeed phase. -/
theorem body_prefeed (s : LoopState σ) (hp : s.is_prefeeding = true) :
    body e s =
      { current_frame :=
          if wrap64 (s.prefeed_frames_left - (write_frames e s : Int)) ≤ 0 then 0
          else s.current_frame + write_frames e s
        is_prefeeding :=
          if wrap64 (s.prefeed_frames_left - (write_frames e s : Int)) ≤ 0 then false else true
        prefeed_frames_left :=
          if wrap64 (s.prefeed_frames_left - (write_frames e s : Int)) ≤ 0 then 0
          else wrap64 (s.prefeed_frames_left - (write_frames e s : Int))
        input_pos :=
          if wrap64 (s.prefeed_frames_left - (write_frames e s : Int)) ≤ 0 then 0
          else read_pos e s + sf_read_count e (read_pos e s) e.rnnoise_frame_size
        full_frame := sf_readf_float e (read_pos e s) s.full_frame e.rnnoise_frame_size
        state := (channel_loop e true
          (sf_readf_float e (read_pos e s) s.full_frame e.rnnoise_frame_size, s.state)).2
        output_file := s.output_file
        failed := s.failed
        windows := s.windows ++ [⟨true, read_pos e s,
            sf_read_count e (read_pos e s) e.rnnoise_frame_size⟩]
        writes := s.writes } := by
  have hff : (channel_loop e true
      (sf_readf_float e (read_pos e s) s.full_frame e.rnnoise_frame_size, s.state)).1
      = sf_readf_float e (read_pos e s) s.full_frame e.rnnoise_frame_size :=
    channel_frame_prefeed e _ _
  by_cases h : wrap64 (s.prefeed_frames_left - (write_frames e s : Int)) ≤ 0
  · simp [body, hp, h, hff]
  · simp [body, hp, h, hff]

end step

end DenoiseIt

namespace DenoiseIt

/-! ## The schedule of one iteration -/

theorem lt_ceil_div_iff {F : Nat} (hF : 0 < F) (j L : Nat) :
    j < ceil_div L F ↔ j * F < L := by
  unfold ceil_div
  rw [Nat.lt_iff_add_one_le, Nat.le_div_iff_mul_le hF, Nat.succ_mul]
  omega

section schedule

variable {σ : Type} (e : Env σ)

/-- The quantities of an iteration entered with read position and cursor both
at `c`, before the end of a stream that holds at least one engine frame. -/
theorem schedule_at (s : LoopState σ) (hL : e.rnnoise_frame_size ≤ e.input_frames)
    (hpos : s.input_pos = s.current_frame) (hc : s.current_frame < e.input_frames) :
    read_pos e s = window_at e s.current_frame ∧
    sf_read_count e (read_pos e s) e.rnnoise_frame_size = e.rnnoise_frame_size ∧
    write_frames e s = min e.rnnoise_frame_size (e.input_frames - s.current_frame) ∧
    write_from e s = (write_op_at e s.current_frame).write_from := by
  by_cases ht : s.current_frame + e.rnnoise_frame_size ≤ e.input_frames
  · have h1 : is_tail e s = false := by simp [is_tail]; omega
    have hr : read_pos e s = s.current_frame := by simp [read_pos, h1, hpos]
    have hwf : write_frames e s = e.rnnoise_frame_size := by simp [write_frames, h1]
    have hm : min e.rnnoise_frame_size (e.input_frames - s.current_frame)
        = e.rnnoise_frame_size := by omega
    refine ⟨by rw [hr, window_at, if_pos ht], ?_, by rw [hwf, hm], ?_⟩
    · rw [hr, sf_read_count]; omega
    · simp [write_from, h1, write_op_at, hm]
  · have h1 : is_tail e s = true := by simp [is_tail]; omega
    have hr : read_pos e s = e.input_frames - e.rnnoise_frame_size := by
      simp [read_pos, h1, sf_seek_end, hL]
    have hwf : write_frames e s = e.input_frames - s.current_frame := by
      simp [write_frames, h1]
    have hm : min e.rnnoise_frame_size (e.input_frames - s.current_frame)
        = e.input_frames - s.current_frame := by omega
    refine ⟨by rw [hr, window_at, if_neg ht], ?_, by rw [hwf, hm], ?_⟩
    · rw [hr, sf_read_count]; omega
    · simp [write_from, h1, write_op_at, hm, hwf]

end schedule

end DenoiseIt

namespace DenoiseIt

/-! ## The two passes, iteration by iteration -/

section passes

variable {σ : Type} (e : Env σ)

theorem pass_writes_succ (n : Nat) :
    pass_writes e (n + 1) = pass_writes e n ++ [write_op_at e (n * e.rnnoise_frame_size)] := by
  simp [pass_writes, List.range_succ]

theorem pass_windows_succ (pf : Bool) (n : Nat) :
    pass_windows e pf (n + 1) = pass_windows e pf n ++
      [⟨pf, window_at e (n * e.rnnoise_frame_size), e.rnnoise_frame_size⟩] := by
  simp [pass_windows, List.range_succ]

/-- The normal pass: the loop head after `j` iterations, for every `j` up to
the number of iterations of the pass. -/
theorem normal_head (hF : 0 < e.rnnoise_frame_size)
    (hL : e.rnnoise_frame_size ≤ e.input_frames) (hw : writes_succeed e)
    (s0 : LoopState σ) (h0 : NormalStart s0) (j : Nat) (hj : j ≤ normal_iterations e) :
    NormalHead e s0 ((body e)^[j] s0) j := by
  induction j with
  | zero =>
    exact ⟨h0.phase, h0.ok, by simp [h0.cursor], by simp [h0.cursor, h0.pos], rfl,
      by simp [h0.writes, pass_writes], by simp [pass_windows]⟩
  | succ j ih =>
    have ih := ih (by omega)
    have hlt : j * e.rnnoise_frame_size < e.input_frames :=
      (lt_ceil_div_iff hF j _).1 (by unfold normal_iterations at hj; omega)
    have hcur : ((body e)^[j] s0).current_frame = j * e.rnnoise_frame_size := by
      rw [ih.cursor]; omega
    obtain ⟨hr, hcnt, hwf, hfrom⟩ := schedule_at e _ hL ih.pos (by rw [hcur]; exact hlt)
    rw [hcur] at hr hwf hfrom
    rw [hr] at hcnt
    rw [Function.iterate_succ_apply', body_normal e _ ih.phase (hw _ _)]
    refine ⟨rfl, ih.ok, ?_, ?_, ih.budget, ?_, ?_⟩
    · simp only [hwf, hcur, Nat.succ_mul]; omega
    · simp only [hr, hcnt, hwf, hcur]
      unfold window_at; split_ifs <;> omega
    · simp only [ih.writes, pass_writes_succ, hfrom, hwf, hr]
      rfl
    · simp only [ih.windows, pass_windows_succ, hr, hcnt, List.append_assoc]

end passes

end DenoiseIt

namespace DenoiseIt

/-- A value in the 64-bit range is left as it is by the wrap-around. -/
theorem wrap64_eq (x : Int) (h1 : -(2 ^ 63) ≤ x) (h2 : x < 2 ^ 63) : wrap64 x = x := by
  unfold wrap64; omega

section prefeed

variable {σ : Type} (e : Env σ)

/-- With prefeed off every budget is in range: it is never looked at. -/
theorem budget_off (P : Int) : budget_in_range e false P :=
  fun h => Bool.noConfusion h

/-- With prefeed on, a budget that is not negative is in range for a stream
whose length is an `sf_count_t`. -/
theorem budget_on (P : Int) (hP : 0 ≤ P) (hP64 : P < 2 ^ 63)
    (hL64 : (e.input_frames : Int) < 2 ^ 63) : budget_in_range e true P :=
  fun _ => ⟨hP, hP64, hL64⟩

/-- The prefeed phase: the loop head after `j` iterations, for every `j` below
the number of prefeed iterations. -/
theorem prefeed_head (hF : 0 < e.rnnoise_frame_size)
    (hL : e.rnnoise_frame_size ≤ e.input_frames) (P : Int) (hP : 0 ≤ P)
    (hL64 : (e.input_frames : Int) < 2 ^ 63) (j : Nat)
    (hj : j < prefeed_iterations e P) :
    PrefeedHead e P ((body e)^[j] (init e true P)) j := by
  induction j with
  | zero =>
    refine ⟨rfl, rfl, by simp [init], by simp [init]; omega, rfl, ?_, rfl, rfl, rfl⟩
    simp only [init, Function.iterate_zero, id_eq]
    split_ifs <;> omega
  | succ j ih =>
    have ih := ih (by omega)
    have hlt : (j + 1) * e.rnnoise_frame_size
        < (min P (e.input_frames : Int)).toNat := by
      apply (lt_ceil_div_iff hF _ _).1
      unfold prefeed_iterations at hj
      omega
    rw [Nat.succ_mul] at hlt
    obtain ⟨hr, hcnt, hwf, -⟩ := schedule_at e _ hL ih.pos ih.inside
    rw [ih.cursor] at hr hwf
    rw [hr] at hcnt
    have hwF : write_frames e ((body e)^[j] (init e true P)) = e.rnnoise_frame_size := by
      rw [hwf]; omega
    have hw64 : wrap64 (((body e)^[j] (init e true P)).prefeed_frames_left
        - (write_frames e ((body e)^[j] (init e true P)) : Int))
        = ((body e)^[j] (init e true P)).prefeed_frames_left
          - (write_frames e ((body e)^[j] (init e true P)) : Int) := by
      apply wrap64_eq <;> rw [ih.budget, hwF] <;> omega
    have hgo : ¬ (((body e)^[j] (init e true P)).prefeed_frames_left
        - (write_frames e ((body e)^[j] (init e true P)) : Int) ≤ 0) := by
      rw [ih.budget, hwF]; omega
    rw [Function.iterate_succ_apply', body_prefeed e _ ih.phase]
    simp only [hw64, if_neg hgo]
    refine ⟨rfl, ih.ok, ?_, ?_, ?_, ?_, ih.writes, ih.output, ?_⟩
    · simp only [ih.cursor, hwF, Nat.succ_mul]
    · simp only [ih.cursor, hwF]; omega
    · simp only [hr, hcnt, ih.cursor, hwF]
      unfold window_at; split_ifs <;> omega
    · simp only [ih.budget, hwF, Nat.succ_mul]; omega
    · simp only [ih.windows, pass_windows_succ, hr, hcnt]

/-- The last prefeed iteration rewinds: the loop head after all prefeed
iterations is the start of a normal pass, with nothing written and the
prefeed windows logged. -/
theorem prefeed_done (hF : 0 < e.rnnoise_frame_size)
    (hL : e.rnnoise_frame_size ≤ e.input_frames) (P : Int) (hP : 0 ≤ P)
    (hL64 : (e.input_frames : Int) < 2 ^ 63) :
    NormalStart ((body e)^[prefeed_iterations e P] (init e true P)) ∧
    ((body e)^[prefeed_iterations e P] (init e true P)).windows =
      pass_windows e true (prefeed_iterations e P) ∧
    ((body e)^[prefeed_iterations e P] (init e true P)).prefeed_frames_left = 0 := by
  obtain ⟨j, hK⟩ : ∃ j, prefeed_iterations e P = j + 1 :=
    ⟨prefeed_iterations e P - 1, by unfold prefeed_iterations; omega⟩
  have ih := prefeed_head e hF hL P hP hL64 j (by omega)
  have hge : (min P (e.input_frames : Int)).toNat ≤ (j + 1) * e.rnnoise_frame_size := by
    have h1 : ¬ (j + 1 < ceil_div (min P (e.input_frames : Int)).toNat
        e.rnnoise_frame_size) := by
      unfold prefeed_iterations at hK; omega
    rw [lt_ceil_div_iff hF] at h1
    omega
  rw [Nat.succ_mul] at hge
  obtain ⟨hr, hcnt, hwf, -⟩ := schedule_at e _ hL ih.pos ih.inside
  rw [ih.cursor] at hr hwf
  rw [hr] at hcnt
  have hin := ih.inside
  rw [ih.cursor] at hin
  have hw64 : wrap64 (((body e)^[j] (init e true P)).prefeed_frames_left
      - (write_frames e ((body e)^[j] (init e true P)) : Int))
      = ((body e)^[j] (init e true P)).prefeed_frames_left
        - (write_frames e ((body e)^[j] (init e true P)) : Int) := by
    apply wrap64_eq <;> rw [ih.budget, hwf] <;> omega
  have hstop : ((body e)^[j] (init e true P)).prefeed_frames_left
      - (write_frames e ((body e)^[j] (init e true P)) : Int) ≤ 0 := by
    rw [ih.budget, hwf]; omega
  rw [hK, Function.iterate_succ_apply', body_prefeed e _ ih.phase]
  simp only [hw64, if_pos hstop]
  refine ⟨⟨rfl, ih.ok, rfl, rfl, ih.writes, ih.output⟩, ?_, trivial⟩
  simp only [ih.windows, pass_windows_succ, hr, hcnt]

end prefeed

end DenoiseIt

namespace DenoiseIt

/-! ## The whole run -/

section wholerun

variable {σ : Type} (e : Env σ)

/-- A loop that goes round exactly `T` times returns the `T`-th iterate of its
body, given more than `T` units of fuel. -/
theorem main_loop_iterate (T : Nat) (s : LoopState σ)
    (h1 : ∀ j, j < T → loop_cond e ((body e)^[j] s) = true)
    (h2 : loop_cond e ((body e)^[T] s) = false) (fuel : Nat) (hf : T < fuel) :
    main_loop e fuel s = some ((body e)^[T] s) := by
  induction T generalizing s fuel with
  | zero =>
    obtain ⟨f, rfl⟩ : ∃ f, fuel = f + 1 := ⟨fuel - 1, by omega⟩
    simp only [Function.iterate_zero, id_eq] at h2
    simp [main_loop, h2]
  | succ T ih =>
    obtain ⟨f, rfl⟩ : ∃ f, fuel = f + 1 := ⟨fuel - 1, by omega⟩
    have h0 : loop_cond e s = true := h1 0 (by omega)
    simp only [main_loop, h0, if_true, Function.iterate_succ_apply]
    exact ih (body e s) (fun j hj => by
      rw [← Function.iterate_succ_apply]; exact h1 (j + 1) (by omega))
      (by rw [← Function.iterate_succ_apply]; exact h2) f (by omega)

/-- The loop head at which the normal pass starts: the entry state when
prefeed is off, the head after the rewind when it is on. -/
theorem normal_start (hF : 0 < e.rnnoise_frame_size)
    (hL : e.rnnoise_frame_size ≤ e.input_frames) (pf : Bool) (P : Int)
    (hB : budget_in_range e pf P) :
    NormalStart ((body e)^[prefeed_count e pf P] (init e pf P)) ∧
    ((body e)^[prefeed_count e pf P] (init e pf P)).windows =
      pass_windows e true (prefeed_count e pf P) := by
  cases pf with
  | false => exact ⟨⟨rfl, rfl, rfl, rfl, rfl, rfl⟩, rfl⟩
  | true =>
    have h := prefeed_done e hF hL P (hB rfl).1 (hB rfl).2.2
    exact ⟨h.1, h.2.1⟩

/-- The loop head `j` iterations into the normal pass of a run. -/
theorem run_normal_head (hF : 0 < e.rnnoise_frame_size)
    (hL : e.rnnoise_frame_size ≤ e.input_frames) (hw : writes_succeed e)
    (pf : Bool) (P : Int)
    (hB : budget_in_range e pf P) (j : Nat) (hj : j ≤ normal_iterations e) :
    NormalHead e ((body e)^[prefeed_count e pf P] (init e pf P))
      ((body e)^[prefeed_count e pf P + j] (init e pf P)) j := by
  rw [Nat.add_comm, Function.iterate_add_apply]
  exact normal_head e hF hL hw _ (normal_start e hF hL pf P hB).1 j hj

/-- The loop goes round at every head before the last. -/
theorem run_loop_cond (hF : 0 < e.rnnoise_frame_size)
    (hL : e.rnnoise_frame_size ≤ e.input_frames) (hw : writes_succeed e)
    (pf : Bool) (P : Int)
    (hB : budget_in_range e pf P) (j : Nat)
    (hj : j < prefeed_count e pf P + normal_iterations e) :
    loop_cond e ((body e)^[j] (init e pf P)) = true := by
  by_cases hjk : j < prefeed_count e pf P
  · cases pf with
    | false => simp [prefeed_count] at hjk
    | true =>
      have h := prefeed_head e hF hL P (hB rfl).1 (hB rfl).2.2 j (by simpa [prefeed_count] using hjk)
      simp [loop_cond, h.ok, h.inside]
  · obtain ⟨i, rfl⟩ : ∃ i, j = prefeed_count e pf P + i :=
      ⟨j - prefeed_count e pf P, by omega⟩
    have h := run_normal_head e hF hL hw pf P hB i (by omega)
    have hlt : i * e.rnnoise_frame_size < e.input_frames :=
      (lt_ceil_div_iff hF i _).1 (by unfold normal_iterations at hj; omega)
    simp only [loop_cond, h.ok, h.cursor, Bool.not_false, Bool.true_and, decide_eq_true_eq]
    omega

/-- The state in which the loop is left. -/
theorem run_last_head (hF : 0 < e.rnnoise_frame_size)
    (hL : e.rnnoise_frame_size ≤ e.input_frames) (hw : writes_succeed e)
    (pf : Bool) (P : Int)
    (hB : budget_in_range e pf P) :
    ((body e)^[prefeed_count e pf P + normal_iterations e] (init e pf P)).current_frame
      = e.input_frames := by
  have h := run_normal_head e hF hL hw pf P hB (normal_iterations e) (le_refl _)
  have hge : ¬ (normal_iterations e * e.rnnoise_frame_size < e.input_frames) := by
    rw [← lt_ceil_div_iff hF]; unfold normal_iterations; omega
  rw [h.cursor]; omega

/-- With enough fuel the run returns the loop head after all prefeed and all
normal iterations. -/
theorem run_eq (hF : 0 < e.rnnoise_frame_size)
    (hL : e.rnnoise_frame_size ≤ e.input_frames) (hw : writes_succeed e)
    (pf : Bool) (P : Int)
    (hB : budget_in_range e pf P) (fuel : Nat)
    (hfuel : prefeed_count e pf P + normal_iterations e < fuel) :
    run e pf P fuel =
      some ((body e)^[prefeed_count e pf P + normal_iterations e] (init e pf P)) := by
  unfold run
  refine main_loop_iterate e _ _ (fun j hj => run_loop_cond e hF hL hw pf P hB j hj) ?_ fuel hfuel
  have h := run_normal_head e hF hL hw pf P hB (normal_iterations e) (le_refl _)
  simp [loop_cond, run_last_head e hF hL hw pf P hB]

end wholerun

end DenoiseIt

namespace DenoiseIt

/-! ## The schedules in closed form -/

theorem ceil_div_eq {F : Nat} (hF : 0 < F) (q r : Nat) (hr : r < F) :
    ceil_div (q * F + r) F = if r = 0 then q else q + 1 := by
  unfold ceil_div
  split_ifs with h
  · subst h
    have : q * F + 0 + F - 1 = (F - 1) + q * F := by omega
    rw [this, Nat.add_mul_div_right _ _ hF, Nat.div_eq_of_lt (by omega)]
    omega
  · have : q * F + r + F - 1 = (r - 1) + (q + 1) * F := by
      rw [Nat.succ_mul]; omega
    rw [this, Nat.add_mul_div_right _ _ hF, Nat.div_eq_of_lt (by omega)]
    omega

section closed

variable {σ : Type} (e : Env σ)

/-- The number of iterations of a pass, from quotient and remainder. -/
theorem normal_iterations_eq (hF : 0 < e.rnnoise_frame_size) :
    normal_iterations e = e.input_frames / e.rnnoise_frame_size +
      (if e.input_frames % e.rnnoise_frame_size = 0 then 0 else 1) := by
  unfold normal_iterations
  have h := ceil_div_eq hF (e.input_frames / e.rnnoise_frame_size)
    (e.input_frames % e.rnnoise_frame_size) (Nat.mod_lt _ hF)
  rw [Nat.div_add_mod'] at h
  rw [h]
  split_ifs <;> rfl

/-- The write of a full window. -/
theorem write_op_at_full (c : Nat) (hc : c + e.rnnoise_frame_size ≤ e.input_frames) :
    write_op_at e c = ⟨0, e.rnnoise_frame_size, c⟩ := by
  have hm : min e.rnnoise_frame_size (e.input_frames - c) = e.rnnoise_frame_size := by omega
  simp [write_op_at, window_at, hm, hc]

/-- The write of the tail window. -/
theorem write_op_at_tail (c : Nat) (hc : e.input_frames < c + e.rnnoise_frame_size)
    (hcL : c ≤ e.input_frames) :
    write_op_at e c = ⟨(e.rnnoise_frame_size - (e.input_frames - c)) * e.channels,
      e.input_frames - c, e.input_frames - e.rnnoise_frame_size⟩ := by
  have hm : min e.rnnoise_frame_size (e.input_frames - c) = e.input_frames - c := by omega
  have hn : ¬ (c + e.rnnoise_frame_size ≤ e.input_frames) := by omega
  simp [write_op_at, window_at, hm, hn]

/-- The writes of a whole normal pass: one full window per whole engine frame
of the stream, then the tail window when a remainder is left. -/
theorem pass_writes_closed (hF : 0 < e.rnnoise_frame_size) :
    pass_writes e (normal_iterations e) =
      (List.range (e.input_frames / e.rnnoise_frame_size)).map
        (fun k => (⟨0, e.rnnoise_frame_size, k * e.rnnoise_frame_size⟩ : WriteOp)) ++
      (if e.input_frames % e.rnnoise_frame_size = 0 then []
       else [⟨(e.rnnoise_frame_size - e.input_frames % e.rnnoise_frame_size) * e.channels,
          e.input_frames % e.rnnoise_frame_size,
          e.input_frames - e.rnnoise_frame_size⟩]) := by
  have hdm : e.input_frames / e.rnnoise_frame_size * e.rnnoise_frame_size
      + e.input_frames % e.rnnoise_frame_size = e.input_frames := Nat.div_add_mod' _ _
  have hmod : e.input_frames % e.rnnoise_frame_size < e.rnnoise_frame_size :=
    Nat.mod_lt _ hF
  have hfull : (List.range (e.input_frames / e.rnnoise_frame_size)).map
      (fun k => write_op_at e (k * e.rnnoise_frame_size)) =
      (List.range (e.input_frames / e.rnnoise_frame_size)).map
        (fun k => (⟨0, e.rnnoise_frame_size, k * e.rnnoise_frame_size⟩ : WriteOp)) := by
    apply List.map_congr_left
    intro k hk
    rw [List.mem_range] at hk
    apply write_op_at_full
    have : (k + 1) * e.rnnoise_frame_size
        ≤ e.input_frames / e.rnnoise_frame_size * e.rnnoise_frame_size :=
      Nat.mul_le_mul_right _ hk
    rw [Nat.succ_mul] at this
    omega
  rw [normal_iterations_eq e hF]
  split_ifs with h
  · simp only [Nat.add_zero, List.append_nil]
    exact hfull
  · rw [pass_writes_succ, ← hfull]
    congr 1
    rw [write_op_at_tail e _ (by omega) (by omega)]
    congr 2
    · congr 1; omega
    · omega

/-- The source frames of the first `j` writes of a normal pass are the first
frames of the stream, in order. -/
theorem pass_writes_cover (hF : 0 < e.rnnoise_frame_size)
    (hL : e.rnnoise_frame_size ≤ e.input_frames) (hN : 1 ≤ e.channels) (j : Nat)
    (hj : j ≤ normal_iterations e) :
    (pass_writes e j).flatMap (source_frames e) =
      List.range (min (j * e.rnnoise_frame_size) e.input_frames) := by
  induction j with
  | zero => simp [pass_writes]
  | succ j ih =>
    have hlt : j * e.rnnoise_frame_size < e.input_frames :=
      (lt_ceil_div_iff hF j _).1 (by unfold normal_iterations at hj; omega)
    rw [pass_writes_succ, List.flatMap_append, ih (by omega)]
    have hsrc : source_frames e (write_op_at e (j * e.rnnoise_frame_size)) =
        (List.range (min e.rnnoise_frame_size
          (e.input_frames - j * e.rnnoise_frame_size))).map
          (fun t => j * e.rnnoise_frame_size + t) := by
      simp only [source_frames, write_op_at, Nat.mul_div_cancel _ hN]
      apply List.map_congr_left
      intro t _
      unfold window_at
      split_ifs <;> omega
    simp only [List.flatMap_cons, List.flatMap_nil, List.append_nil, hsrc]
    have h1 : min (j * e.rnnoise_frame_size) e.input_frames = j * e.rnnoise_frame_size := by
      omega
    have h2 : min ((j + 1) * e.rnnoise_frame_size) e.input_frames =
        j * e.rnnoise_frame_size
          + min e.rnnoise_frame_size (e.input_frames - j * e.rnnoise_frame_size) := by
      rw [Nat.succ_mul]; omega
    rw [h1, h2, List.range_add]

end closed

end DenoiseIt

namespace DenoiseIt

/-! ## What the engines see and what is written -/

section data

variable {σ : Type} (e : Env σ)

theorem body_state (s : LoopState σ) :
    (body e s).state = (channel_loop e s.is_prefeeding
      (sf_readf_float e (read_pos e s) s.full_frame e.rnnoise_frame_size, s.state)).2 := by
  unfold body
  simp only
  split_ifs <;> rfl

theorem body_full_frame (s : LoopState σ) :
    (body e s).full_frame = (channel_loop e s.is_prefeeding
      (sf_readf_float e (read_pos e s) s.full_frame e.rnnoise_frame_size, s.state)).1 := by
  unfold body
  simp only
  split_ifs <;> rfl

theorem body_windows (s : LoopState σ) :
    (body e s).windows = s.windows ++ [⟨s.is_prefeeding, read_pos e s,
      sf_read_count e (read_pos e s) e.rnnoise_frame_size⟩] := by
  unfold body
  simp only
  split_ifs <;> rfl

/-- A full read stores the source samples of the window. -/
theorem sf_readf_float_full (pos : Nat) (buf : Nat → ℚ) (j : Nat)
    (hcnt : sf_read_count e pos e.rnnoise_frame_size = e.rnnoise_frame_size)
    (hj : j < e.rnnoise_frame_size * e.channels) :
    sf_readf_float e pos buf e.rnnoise_frame_size j = e.input_data (pos * e.channels + j) := by
  simp [sf_readf_float, hcnt, hj]

/-- Position `i + s * N` lies inside the buffer of `F * N` samples. -/
theorem interleave_lt {N F i s : Nat} (hi : i < N) (hs : s < F) : i + s * N < F * N := by
  have h1 : (s + 1) * N ≤ F * N := Nat.mul_le_mul_right _ hs
  rw [Nat.succ_mul] at h1
  omega

/-- With the staging buffer zeroed and the window read in full at `pos`, the
frame handed to the engine of channel `i` is the mono frame of that channel. -/
theorem engine_input_mono (pos : Nat) (buf : Nat → ℚ) (st : Nat → channel_state σ)
    (i : Nat) (hi : i < e.channels)
    (hcnt : sf_read_count e pos e.rnnoise_frame_size = e.rnnoise_frame_size)
    (hz : (st i).input = fun _ => 0) :
    engine_input e i (sf_readf_float e pos buf e.rnnoise_frame_size, st) =
      mono_frame e pos i := by
  funext s
  simp only [engine_input, split_channel_apply, mono_frame, hz]
  split_ifs with hs
  · rw [sf_readf_float_full e pos buf _ hcnt (interleave_lt hi hs)]
  · rfl

/-- One iteration keeps the staging buffers zero and extends each engine's
fold by the window it has just read. -/
theorem body_data (hL : e.rnnoise_frame_size ≤ e.input_frames) (s : LoopState σ)
    (hpos : s.input_pos = s.current_frame) (hc : s.current_frame < e.input_frames)
    (h : DataInv e s) : DataInv e (body e s) := by
  obtain ⟨-, hcnt, -, -⟩ := schedule_at e s hL hpos hc
  constructor
  · intro i
    rw [body_state]
    by_cases hi : i < e.channels
    · unfold channel_loop
      rw [channel_done_state e _ _ _ i (le_refl _) hi, process_channel_snd,
        Function.update_same]
      funext j
      simp only [bzero, engine_input, split_channel_apply, h.staging i]
      split_ifs <;> rfl
    · unfold channel_loop
      rw [channel_prefix_state e _ _ _ i (by omega)]
      exact h.staging i
  · intro i hi
    rw [body_state, body_windows]
    unfold channel_loop
    rw [channel_done_state e _ _ _ i (le_refl _) hi, process_channel_snd,
      Function.update_same]
    simp only [engine_fold, List.foldl_append, List.foldl_cons, List.foldl_nil]
    rw [engine_input_mono e _ _ _ i hi hcnt (h.staging i), h.engine i hi]
    rfl

/-- The entry state of the loop satisfies the data invariant. -/
theorem init_data (pf : Bool) (P : Int) : DataInv e (init e pf P) :=
  ⟨fun _ => rfl, fun _ _ => rfl⟩

/-- Every loop head before the last has cursor and read position together,
inside the stream. -/
theorem run_head_inside (hF : 0 < e.rnnoise_frame_size)
    (hL : e.rnnoise_frame_size ≤ e.input_frames) (hw : writes_succeed e)
    (pf : Bool) (P : Int)
    (hB : budget_in_range e pf P) (j : Nat)
    (hj : j < prefeed_count e pf P + normal_iterations e) :
    ((body e)^[j] (init e pf P)).input_pos = ((body e)^[j] (init e pf P)).current_frame ∧
    ((body e)^[j] (init e pf P)).current_frame < e.input_frames := by
  by_cases hjk : j < prefeed_count e pf P
  · cases pf with
    | false => simp [prefeed_count] at hjk
    | true =>
      have h := prefeed_head e hF hL P (hB rfl).1 (hB rfl).2.2 j (by simpa [prefeed_count] using hjk)
      exact ⟨h.pos, h.inside⟩
  · obtain ⟨i, rfl⟩ : ∃ i, j = prefeed_count e pf P + i :=
      ⟨j - prefeed_count e pf P, by omega⟩
    have h := run_normal_head e hF hL hw pf P hB i (by omega)
    have hlt : i * e.rnnoise_frame_size < e.input_frames :=
      (lt_ceil_div_iff hF i _).1 (by unfold normal_iterations at hj; omega)
    refine ⟨h.pos, ?_⟩
    rw [h.cursor]; omega

/-- The data invariant holds at every loop head of a run. -/
theorem run_data (hF : 0 < e.rnnoise_frame_size)
    (hL : e.rnnoise_frame_size ≤ e.input_frames) (hw : writes_succeed e)
    (pf : Bool) (P : Int)
    (hB : budget_in_range e pf P) (j : Nat)
    (hj : j ≤ prefeed_count e pf P + normal_iterations e) :
    DataInv e ((body e)^[j] (init e pf P)) := by
  induction j with
  | zero => exact init_data e pf P
  | succ j ih =>
    obtain ⟨hp, hc⟩ := run_head_inside e hF hL hw pf P hB j (by omega)
    rw [Function.iterate_succ_apply']
    exact body_data e hL _ hp hc (ih (by omega))

/-- With an identity engine, a normal iteration leaves in every slot of
`full_frame` the source sample of the window, times the amplification
factor. -/
theorem frame_identity (hid : identity_engine e) (pos : Nat) (buf : Nat → ℚ)
    (st : Nat → channel_state σ) (hN : 1 ≤ e.channels)
    (hcnt : sf_read_count e pos e.rnnoise_frame_size = e.rnnoise_frame_size)
    (j : Nat) (hj : j < e.rnnoise_frame_size * e.channels) :
    (channel_loop e false (sf_readf_float e pos buf e.rnnoise_frame_size, st)).1 j =
      e.amplify_factor * e.input_data (pos * e.channels + j) := by
  have hi : j % e.channels < e.channels := Nat.mod_lt _ (by omega)
  have hs : j / e.channels < e.rnnoise_frame_size :=
    Nat.div_lt_of_lt_mul (by rw [Nat.mul_comm]; exact hj)
  have hdec : j % e.channels + j / e.channels * e.channels = j := by
    rw [Nat.add_comm]; exact Nat.div_add_mod' _ _
  have h := channel_done_frame e (sf_readf_float e pos buf e.rnnoise_frame_size, st)
    e.channels (j % e.channels) (j / e.channels) (le_refl _) hi hs
  rw [hdec] at h
  unfold channel_loop
  rw [h, engine_output, hid _ _ _ hs, engine_input, split_channel_apply, if_pos hs, hdec]
  show sf_readf_float e pos buf e.rnnoise_frame_size j * 32768 * e.amplify_factor / 32768 = _
  rw [sf_readf_float_full e pos buf j hcnt hj]
  ring

end data

end DenoiseIt

namespace DenoiseIt

section output

variable {σ : Type} (e : Env σ)

/-- With an identity engine, the samples written by the first `j` iterations
of a normal pass are the first source samples, each times the amplification
factor. -/
theorem normal_output (hF : 0 < e.rnnoise_frame_size)
    (hL : e.rnnoise_frame_size ≤ e.input_frames) (hN : 1 ≤ e.channels)
    (hw : writes_succeed e) (hid : identity_engine e)
    (s0 : LoopState σ) (h0 : NormalStart s0) (j : Nat) (hj : j ≤ normal_iterations e) :
    ((body e)^[j] s0).output_file =
      (List.range (min (j * e.rnnoise_frame_size) e.input_frames * e.channels)).map
        (fun t => e.amplify_factor * e.input_data t) := by
  induction j with
  | zero => simp [h0.output]
  | succ j ih =>
    have hd := normal_head e hF hL hw s0 h0 j (by omega)
    have hlt : j * e.rnnoise_frame_size < e.input_frames :=
      (lt_ceil_div_iff hF j _).1 (by unfold normal_iterations at hj; omega)
    have hcur : ((body e)^[j] s0).current_frame = j * e.rnnoise_frame_size := by
      rw [hd.cursor]; omega
    obtain ⟨hr, hcnt, hwf, hfrom⟩ := schedule_at e _ hL hd.pos (by rw [hcur]; exact hlt)
    rw [hcur] at hr hwf hfrom
    rw [hr] at hcnt
    have e1 : (e.rnnoise_frame_size
          - min e.rnnoise_frame_size (e.input_frames - j * e.rnnoise_frame_size)) * e.channels
        + min e.rnnoise_frame_size (e.input_frames - j * e.rnnoise_frame_size) * e.channels
        = e.rnnoise_frame_size * e.channels := by
      rw [← Nat.add_mul]; congr 1; omega
    have e2 : window_at e (j * e.rnnoise_frame_size) * e.channels
        + (e.rnnoise_frame_size
          - min e.rnnoise_frame_size (e.input_frames - j * e.rnnoise_frame_size)) * e.channels
        = j * e.rnnoise_frame_size * e.channels := by
      rw [← Nat.add_mul]; congr 1
      unfold window_at; split_ifs <;> omega
    have e3 : min ((j + 1) * e.rnnoise_frame_size) e.input_frames * e.channels
        = min (j * e.rnnoise_frame_size) e.input_frames * e.channels
          + min e.rnnoise_frame_size (e.input_frames - j * e.rnnoise_frame_size)
            * e.channels := by
      rw [← Nat.add_mul]; congr 1
      rw [Nat.succ_mul]; omega
    have e4 : min (j * e.rnnoise_frame_size) e.input_frames = j * e.rnnoise_frame_size := by
      omega
    rw [Function.iterate_succ_apply', body_normal e _ hd.phase (hw _ _)]
    simp only [ih (by omega), hr, hwf, hfrom, e3, List.range_add, List.map_append,
      List.map_map]
    congr 1
    unfold written_samples
    apply List.map_congr_left
    intro t ht
    rw [List.mem_range] at ht
    simp only [write_op_at, Function.comp_apply]
    rw [frame_identity e hid _ _ _ hN hcnt _ (by omega), ← Nat.add_assoc, e2, e4]

end output

end DenoiseIt

namespace DenoiseIt

section final

variable {σ : Type} (e : Env σ)

/-- The cursor after the last iteration of a pass is the stream length. -/
theorem min_last (hF : 0 < e.rnnoise_frame_size) :
    min (normal_iterations e * e.rnnoise_frame_size) e.input_frames = e.input_frames := by
  have hge : ¬ (normal_iterations e * e.rnnoise_frame_size < e.input_frames) := by
    rw [← lt_ceil_div_iff hF]; unfold normal_iterations; omega
  omega

/-- The number of samples written by the first `j` iterations of a normal
pass. -/
theorem normal_output_length (hF : 0 < e.rnnoise_frame_size)
    (hL : e.rnnoise_frame_size ≤ e.input_frames) (hw : writes_succeed e)
    (s0 : LoopState σ) (h0 : NormalStart s0) (j : Nat) (hj : j ≤ normal_iterations e) :
    ((body e)^[j] s0).output_file.length =
      min (j * e.rnnoise_frame_size) e.input_frames * e.channels := by
  induction j with
  | zero => simp [h0.output]
  | succ j ih =>
    have hd := normal_head e hF hL hw s0 h0 j (by omega)
    have hlt : j * e.rnnoise_frame_size < e.input_frames :=
      (lt_ceil_div_iff hF j _).1 (by unfold normal_iterations at hj; omega)
    have hcur : ((body e)^[j] s0).current_frame = j * e.rnnoise_frame_size := by
      rw [hd.cursor]; omega
    obtain ⟨-, -, hwf, -⟩ := schedule_at e _ hL hd.pos (by rw [hcur]; exact hlt)
    rw [hcur] at hwf
    rw [Function.iterate_succ_apply', body_normal e _ hd.phase (hw _ _)]
    simp only [List.length_append, ih (by omega), written_samples, List.length_map,
      List.length_range, hwf]
    rw [← Nat.add_mul]; congr 1
    rw [Nat.succ_mul]; omega

/-- The output after the first `j` iterations of a normal pass, write by
write: the `k`-th write takes its frames from `full_frame` as iteration `k`
has left it. -/
theorem normal_output_chunks (hF : 0 < e.rnnoise_frame_size)
    (hL : e.rnnoise_frame_size ≤ e.input_frames) (hw : writes_succeed e)
    (s0 : LoopState σ) (h0 : NormalStart s0) (j : Nat) (hj : j ≤ normal_iterations e) :
    ((body e)^[j] s0).output_file =
      (List.range j).flatMap (fun k =>
        written_samples e ((body e)^[k + 1] s0).full_frame
          (write_op_at e (k * e.rnnoise_frame_size)).write_from
          (write_op_at e (k * e.rnnoise_frame_size)).write_frames) := by
  induction j with
  | zero => simp [h0.output]
  | succ j ih =>
    have hd := normal_head e hF hL hw s0 h0 j (by omega)
    have hlt : j * e.rnnoise_frame_size < e.input_frames :=
      (lt_ceil_div_iff hF j _).1 (by unfold normal_iterations at hj; omega)
    have hcur : ((body e)^[j] s0).current_frame = j * e.rnnoise_frame_size := by
      rw [hd.cursor]; omega
    obtain ⟨-, -, hwf, hfrom⟩ := schedule_at e _ hL hd.pos (by rw [hcur]; exact hlt)
    rw [hcur] at hwf hfrom
    have hff := body_full_frame e ((body e)^[j] s0)
    rw [hd.phase, ← Function.iterate_succ_apply' (body e) j s0] at hff
    rw [List.range_succ, List.flatMap_append, ← ih (by omega)]
    simp only [List.flatMap_cons, List.flatMap_nil, List.append_nil]
    rw [hff, Function.iterate_succ_apply', body_normal e _ hd.phase (hw _ _), hwf, hfrom]
    rfl

/-- The state in which a run leaves the loop. -/
theorem run_final (hF : 0 < e.rnnoise_frame_size)
    (hL : e.rnnoise_frame_size ≤ e.input_frames) (hw : writes_succeed e)
    (pf : Bool) (P : Int)
    (hB : budget_in_range e pf P) (fuel : Nat)
    (hfuel : prefeed_count e pf P + normal_iterations e < fuel) :
    ∃ s, run e pf P fuel = some s ∧
      s = (body e)^[prefeed_count e pf P + normal_iterations e] (init e pf P) ∧
      s.is_prefeeding = false ∧ s.failed = false ∧
      s.current_frame = e.input_frames ∧ s.input_pos = e.input_frames ∧
      s.writes = pass_writes e (normal_iterations e) ∧
      s.windows = pass_windows e true (prefeed_count e pf P)
        ++ pass_windows e false (normal_iterations e) ∧
      s.output_file.length = e.input_frames * e.channels := by
  have h := run_normal_head e hF hL hw pf P hB (normal_iterations e) (le_refl _)
  have hc := run_last_head e hF hL hw pf P hB
  refine ⟨_, run_eq e hF hL hw pf P hB fuel hfuel, rfl, h.phase, h.ok, hc, ?_, h.writes, ?_, ?_⟩
  · rw [h.pos, hc]
  · rw [h.windows, (normal_start e hF hL pf P hB).2]
  · rw [Nat.add_comm, Function.iterate_add_apply,
      normal_output_length e hF hL hw _ (normal_start e hF hL pf P hB).1 _ (le_refl _),
      min_last e hF]

/-- What a normal iteration leaves in slot `idx` of `full_frame`, when the
engines are in the states the windows read so far have put them in: the output
of the engine of channel `idx % N` for the mono frame of the window just read,
at sample `idx / N`, divided by `32768`. -/
theorem body_denoised (s : LoopState σ) (hp : s.is_prefeeding = false) (hd : DataInv e s)
    (hcnt : sf_read_count e (read_pos e s) e.rnnoise_frame_size = e.rnnoise_frame_size)
    (idx : Nat) (hidx : idx < e.rnnoise_frame_size * e.channels) :
    (body e s).full_frame idx =
      (e.rnnoise_process_frame (engine_fold e (idx % e.channels) s.windows)
        (mono_frame e (read_pos e s) (idx % e.channels))).2 (idx / e.channels) / 32768 := by
  have hN : 0 < e.channels := by
    rcases Nat.eq_zero_or_pos e.channels with h | h
    · rw [h] at hidx; omega
    · exact h
  have hi : idx % e.channels < e.channels := Nat.mod_lt _ hN
  have hs : idx / e.channels < e.rnnoise_frame_size :=
    Nat.div_lt_of_lt_mul (by rw [Nat.mul_comm]; exact hidx)
  have hdec : idx % e.channels + idx / e.channels * e.channels = idx := by
    rw [Nat.add_comm]; exact Nat.div_add_mod' _ _
  have h := body_full_frame e s
  rw [hp] at h
  rw [h]
  unfold channel_loop
  have h2 := channel_done_frame e
    (sf_readf_float e (read_pos e s) s.full_frame e.rnnoise_frame_size, s.state)
    e.channels (idx % e.channels) (idx / e.channels) (le_refl _) hi hs
  rw [hdec] at h2
  rw [h2, engine_output, engine_input_mono e _ _ _ _ hi hcnt (hd.staging _)]
  show (e.rnnoise_process_frame (s.state (idx % e.channels)).ds _).2 _ / 32768 = _
  rw [hd.engine _ hi]

/-- The samples written by the first `j` iterations of a normal pass, one by
one: each is the engine output for the source frame at its position. -/
theorem normal_output_denoised (hF : 0 < e.rnnoise_frame_size)
    (hL : e.rnnoise_frame_size ≤ e.input_frames) (hw : writes_succeed e)
    (s0 : LoopState σ) (h0 : NormalStart s0)
    (hdata : ∀ k : Nat, k ≤ normal_iterations e → DataInv e ((body e)^[k] s0))
    (j : Nat) (hj : j ≤ normal_iterations e) :
    ((body e)^[j] s0).output_file =
      (List.range (min (j * e.rnnoise_frame_size) e.input_frames * e.channels)).map
        (denoised_sample e s0.windows) := by
  induction j with
  | zero => simp [h0.output]
  | succ j ih =>
    have hd := normal_head e hF hL hw s0 h0 j (by omega)
    have hlt : j * e.rnnoise_frame_size < e.input_frames :=
      (lt_ceil_div_iff hF j _).1 (by unfold normal_iterations at hj; omega)
    have hcur : ((body e)^[j] s0).current_frame = j * e.rnnoise_frame_size := by
      rw [hd.cursor]; omega
    obtain ⟨hr, hcnt, hwf, hfrom⟩ := schedule_at e _ hL hd.pos (by rw [hcur]; exact hlt)
    have hcnt0 := hcnt
    rw [hcur] at hr hwf hfrom
    have e1 : (e.rnnoise_frame_size
          - min e.rnnoise_frame_size (e.input_frames - j * e.rnnoise_frame_size)) * e.channels
        + min e.rnnoise_frame_size (e.input_frames - j * e.rnnoise_frame_size) * e.channels
        = e.rnnoise_frame_size * e.channels := by
      rw [← Nat.add_mul]; congr 1; omega
    have e3 : min ((j + 1) * e.rnnoise_frame_size) e.input_frames * e.channels
        = min (j * e.rnnoise_frame_size) e.input_frames * e.channels
          + min e.rnnoise_frame_size (e.input_frames - j * e.rnnoise_frame_size)
            * e.channels := by
      rw [← Nat.add_mul]; congr 1
      rw [Nat.succ_mul]; omega
    have e4 : min (j * e.rnnoise_frame_size) e.input_frames = j * e.rnnoise_frame_size := by
      omega
    rw [Function.iterate_succ_apply', body_normal e _ hd.phase (hw _ _)]
    simp only [ih (by omega), hwf, hfrom, e3, List.range_add, List.map_append,
      List.map_map]
    congr 1
    unfold written_samples
    apply List.map_congr_left
    intro t ht
    rw [List.mem_range] at ht
    have hN : 0 < e.channels := by
      rcases Nat.eq_zero_or_pos e.channels with h | h
      · rw [h] at ht; omega
      · exact h
    have htN : t / e.channels
        < min e.rnnoise_frame_size (e.input_frames - j * e.rnnoise_frame_size) :=
      Nat.div_lt_of_lt_mul (by rw [Nat.mul_comm]; exact ht)
    have hb := body_denoised e _ hd.phase (hdata j (by omega)) hcnt0
      ((e.rnnoise_frame_size
          - min e.rnnoise_frame_size (e.input_frames - j * e.rnnoise_frame_size)) * e.channels
        + t) (by omega)
    rw [body_full_frame e, hd.phase] at hb
    simp only [write_op_at, Function.comp_apply]
    rw [hb, hr, hd.windows, e4]
    have m1 : ((e.rnnoise_frame_size
          - min e.rnnoise_frame_size (e.input_frames - j * e.rnnoise_frame_size)) * e.channels
        + t) % e.channels = t % e.channels := by
      rw [Nat.add_comm, Nat.add_mul_mod_self_right]
    have d1 : ((e.rnnoise_frame_size
          - min e.rnnoise_frame_size (e.input_frames - j * e.rnnoise_frame_size)) * e.channels
        + t) / e.channels = t / e.channels + (e.rnnoise_frame_size
          - min e.rnnoise_frame_size (e.input_frames - j * e.rnnoise_frame_size)) := by
      rw [Nat.add_comm, Nat.add_mul_div_right _ _ hN]
    have m2 : (j * e.rnnoise_frame_size * e.channels + t) % e.channels = t % e.channels := by
      rw [Nat.add_comm, Nat.add_mul_mod_self_right]
    have d2 : (j * e.rnnoise_frame_size * e.channels + t) / e.channels
        = t / e.channels + j * e.rnnoise_frame_size := by
      rw [Nat.add_comm, Nat.add_mul_div_right _ _ hN]
    have d3 : (t / e.channels + j * e.rnnoise_frame_size) / e.rnnoise_frame_size = j := by
      rw [Nat.add_mul_div_right _ _ hF, Nat.div_eq_of_lt (by omega)]
      omega
    unfold denoised_sample
    have hslot : ∀ q : Nat, q + (e.rnnoise_frame_size
          - min e.rnnoise_frame_size (e.input_frames - j * e.rnnoise_frame_size))
        = q + j * e.rnnoise_frame_size - window_at e (j * e.rnnoise_frame_size) := by
      intro q
      clear hb m1 d1 m2 d2 d3 htN ht e1 e3 e4 hr hwf hfrom hcnt hcnt0 hcur hd ih hdata h0
      unfold window_at
      split_ifs <;> omega
    rw [m1, d1, m2, d2, d3, hslot]

/-- The slot of the mono frame that iteration `k / F` of a pass hands to the
engine for source sample-frame `k`: it holds the source sample of that frame
and channel, scaled by `32768` and by the amplification factor. -/
theorem mono_frame_slot (hF : 0 < e.rnnoise_frame_size)
    (hL : e.rnnoise_frame_size ≤ e.input_frames) (k i : Nat) (hk : k < e.input_frames) :
    mono_frame e (window_at e (k / e.rnnoise_frame_size * e.rnnoise_frame_size)) i
        (k - window_at e (k / e.rnnoise_frame_size * e.rnnoise_frame_size))
      = e.input_data (k * e.channels + i) * 32768 * e.amplify_factor := by
  have hdm : k / e.rnnoise_frame_size * e.rnnoise_frame_size + k % e.rnnoise_frame_size = k :=
    Nat.div_add_mod' _ _
  have hmod : k % e.rnnoise_frame_size < e.rnnoise_frame_size := Nat.mod_lt _ hF
  generalize k / e.rnnoise_frame_size * e.rnnoise_frame_size = c at hdm
  have hpos : window_at e c ≤ k := by unfold window_at; split_ifs <;> omega
  have hslot : k - window_at e c < e.rnnoise_frame_size := by
    unfold window_at; split_ifs <;> omega
  unfold mono_frame
  rw [if_pos hslot]
  have hidx : window_at e c * e.channels + (i + (k - window_at e c) * e.channels)
      = k * e.channels + i := by
    rw [Nat.add_comm i, ← Nat.add_assoc, ← Nat.add_mul, Nat.add_sub_cancel' hpos]
  rw [hidx]

end final

end DenoiseIt

namespace DenoiseIt

/-! ## The conversion of line 171 -/

/-- A product of `2^63` or more is out of the range of `sf_count_t`: the
counter is left with the least 64-bit value. -/
theorem to_sf_count_overflow (x : ℚ) (h : (2 : ℚ) ^ 63 ≤ x) : to_sf_count x = SF_COUNT_MIN := by
  have hd : (0 : ℚ) < x.den := by exact_mod_cast x.den_pos
  have hden : (0 : Int) < x.den := by exact_mod_cast x.den_pos
  have hx : x = x.num / x.den := (Rat.num_div_den x).symm
  have hnum : (2 : Int) ^ 63 * x.den ≤ x.num := by
    rw [hx, le_div_iff₀ hd] at h
    exact_mod_cast h
  have h0 : 0 ≤ x.num := le_trans (by positivity) hnum
  have hge : (2 : Int) ^ 63 ≤ Int.tdiv x.num x.den := by
    rw [Int.tdiv_eq_ediv h0 (le_of_lt hden), Int.le_ediv_iff_mul_le hden]
    exact hnum
  unfold to_sf_count
  rw [if_neg]
  omega

section heads

variable {σ : Type} (e : Env σ)

/-- The iteration of the main loop in the normal phase when the write is
short: the window is read and processed, the write is logged, and `main`
returns without moving the cursor. -/
theorem body_short (s : LoopState σ) (hp : s.is_prefeeding = false)
    (hs : e.sf_writef_float s.writes.length (write_frames e s) ≠ (write_frames e s : Int)) :
    (body e s).failed = true ∧
    (body e s).current_frame = s.current_frame ∧
    (body e s).is_prefeeding = false ∧
    (body e s).windows = s.windows ++ [⟨false, read_pos e s,
      sf_read_count e (read_pos e s) e.rnnoise_frame_size⟩] ∧
    (body e s).writes = s.writes ++ [⟨write_from e s, write_frames e s, read_pos e s⟩] := by
  simp [body, hp, hs]

/-- The NORMAL phase is never left: an iteration entered in it ends in it. -/
theorem body_phase_normal (s : LoopState σ) (hp : s.is_prefeeding = false) :
    (body e s).is_prefeeding = false := by
  unfold body
  simp only [hp, if_true]
  split_ifs <;> rfl

/-- The output after a NORMAL iteration, whatever the write returns. -/
theorem body_output (s : LoopState σ) (hp : s.is_prefeeding = false) :
    (body e s).output_file = s.output_file ++
      written_samples e (body e s).full_frame (write_from e s)
        (min (write_frames e s)
          (e.sf_writef_float s.writes.length (write_frames e s)).toNat) := by
  unfold body
  simp only [hp, if_true]
  split_ifs <;> rfl

/-- At every loop head of a run that has not failed, the read position of the
input is the cursor, and the cursor is not beyond the end of the stream. -/
theorem loop_head_pos (hL : e.rnnoise_frame_size ≤ e.input_frames) (pf : Bool) (P : Int)
    (s : LoopState σ) (h : LoopHead e pf P s) (hok : s.failed = false) :
    s.input_pos = s.current_frame ∧ s.current_frame ≤ e.input_frames := by
  induction h with
  | entry => exact ⟨rfl, Nat.zero_le _⟩
  | next s _ hc ih =>
    simp only [loop_cond, Bool.and_eq_true, Bool.not_eq_true', decide_eq_true_eq] at hc
    obtain ⟨hpos, -⟩ := ih hc.1
    obtain ⟨hr, hcnt, hwf, -⟩ := schedule_at e s hL hpos hc.2
    rw [hr] at hcnt
    have hwin : window_at e s.current_frame + e.rnnoise_frame_size
        = s.current_frame + min e.rnnoise_frame_size (e.input_frames - s.current_frame) := by
      unfold window_at; split_ifs <;> omega
    cases hp : s.is_prefeeding with
    | true =>
      rw [body_prefeed e s hp]
      by_cases hstop : wrap64 (s.prefeed_frames_left - (write_frames e s : Int)) ≤ 0
      · simp only [if_pos hstop]
        exact ⟨trivial, Nat.zero_le _⟩
      · simp only [if_neg hstop]
        simp only [hr, hcnt, hwf]
        omega
    | false =>
      by_cases hw : e.sf_writef_float s.writes.length (write_frames e s)
          = (write_frames e s : Int)
      · rw [body_normal e s hp hw]
        simp only [hr, hcnt, hwf]
        omega
      · rw [(body_short e s hp hw).1] at hok
        exact absurd hok (by decide)

/-- The states a run passes through while the loop condition holds are loop
heads. -/
theorem loop_head_reached (pf : Bool) (P : Int) (j : Nat)
    (h : ∀ i, i < j → loop_cond e (loop_head e pf P i) = true) :
    LoopHead e pf P (loop_head e pf P j) := by
  induction j with
  | zero => exact LoopHead.entry
  | succ j ih =>
    have hstep : loop_head e pf P (j + 1) = body e (loop_head e pf P j) :=
      Function.iterate_succ_apply' _ _ _
    rw [hstep]
    exact LoopHead.next _ (ih (fun i hi => h i (by omega))) (h j (by omega))

/-- The loop head after one more iteration. -/
theorem loop_head_succ (pf : Bool) (P : Int) (j : Nat) :
    loop_head e pf P (j + 1) = body e (loop_head e pf P j) :=
  Function.iterate_succ_apply' _ _ _

/-- What the loop condition says. -/
theorem loop_cond_iff (s : LoopState σ) :
    loop_cond e s = true ↔ s.failed = false ∧ s.current_frame < e.input_frames := by
  simp [loop_cond]

/-- At every loop head, for every stored budget and whatever the writes
return, the staging buffers are zero and each engine holds the fold over the
windows read so far. -/
theorem loop_head_data (hL : e.rnnoise_frame_size ≤ e.input_frames) (pf : Bool) (P : Int)
    (s : LoopState σ) (h : LoopHead e pf P s) : DataInv e s := by
  induction h with
  | entry => exact init_data e pf P
  | next s hs hc ih =>
    have hc2 := (loop_cond_iff e s).1 hc
    exact body_data e hL s (loop_head_pos e hL pf P s hs hc2.1).1 hc2.2 ih

/-- At every loop head in the PREFEEDING phase, for every stored budget,
nothing has been written. -/
theorem loop_head_quiet (pf : Bool) (P : Int) (s : LoopState σ) (h : LoopHead e pf P s)
    (hp : s.is_prefeeding = true) : s.writes = [] ∧ s.output_file = [] := by
  induction h with
  | entry => exact ⟨rfl, rfl⟩
  | next s _ _ ih =>
    cases hps : s.is_prefeeding with
    | false =>
      rw [body_phase_normal e s hps] at hp
      exact absurd hp (by decide)
    | true =>
      rw [body_prefeed e s hps]
      exact ih hps

/-- With all writes succeeding no loop head is a failed one. -/
theorem loop_head_ok (hw : writes_succeed e) (pf : Bool) (P : Int) (s : LoopState σ)
    (h : LoopHead e pf P s) : s.failed = false := by
  induction h with
  | entry => rfl
  | next s _ _ ih =>
    cases hps : s.is_prefeeding with
    | false => rw [body_normal e s hps (hw _ _)]; exact ih
    | true => rw [body_prefeed e s hps]; exact ih

/-- One more window of `F` frames, or the rest of the stream, leaves fewer
iterations to go. -/
theorem ceil_div_step {F : Nat} (hF : 0 < F) (n : Nat) (hn : 0 < n) :
    ceil_div (n - min F n) F < ceil_div n F := by
  rw [lt_ceil_div_iff hF]
  rcases Nat.eq_zero_or_pos (ceil_div (n - min F n) F) with h0 | hpos
  · rw [h0]; omega
  · obtain ⟨k, hk⟩ : ∃ k, ceil_div (n - min F n) F = k + 1 :=
      ⟨ceil_div (n - min F n) F - 1, by omega⟩
    have h := (lt_ceil_div_iff hF k (n - min F n)).1 (by omega)
    rw [hk, Nat.succ_mul]
    omega

/-- Every iteration entered at a loop head with the loop condition true, with
its write succeeding, leaves fewer iterations to go, whatever the budget. -/
theorem body_decreases (hF : 0 < e.rnnoise_frame_size)
    (hL : e.rnnoise_frame_size ≤ e.input_frames) (hw : writes_succeed e)
    (s : LoopState σ) (hpos : s.input_pos = s.current_frame)
    (hc : s.current_frame < e.input_frames) :
    iterations_left e (body e s) < iterations_left e s := by
  obtain ⟨-, -, hwf, -⟩ := schedule_at e s hL hpos hc
  have hstep := ceil_div_step hF (e.input_frames - s.current_frame) (by omega)
  have hsub : e.input_frames - (s.current_frame
      + min e.rnnoise_frame_size (e.input_frames - s.current_frame))
      = e.input_frames - s.current_frame
        - min e.rnnoise_frame_size (e.input_frames - s.current_frame) := by omega
  unfold iterations_left
  cases hp : s.is_prefeeding with
  | false =>
    rw [body_normal e s hp (hw _ _)]
    simp only [hwf, hsub, Bool.false_eq_true, if_false]
    omega
  | true =>
    rw [body_prefeed e s hp]
    by_cases hstop : wrap64 (s.prefeed_frames_left - (write_frames e s : Int)) ≤ 0
    · simp only [if_pos hstop, Bool.false_eq_true, if_false, if_true, Nat.sub_zero]
      unfold normal_iterations
      omega
    · simp only [if_neg hstop, if_true]
      rw [hwf, hsub]
      omega

/-- The loop returns from every loop head, for every stored budget, when all
writes succeed: with more fuel than `iterations_left` it ends at a loop head at
which the loop condition is false. -/
theorem main_loop_returns (hF : 0 < e.rnnoise_frame_size)
    (hL : e.rnnoise_frame_size ≤ e.input_frames) (hw : writes_succeed e)
    (pf : Bool) (P : Int) (fuel : Nat) (s : LoopState σ) (h : LoopHead e pf P s)
    (hfuel : iterations_left e s < fuel) :
    ∃ s1, main_loop e fuel s = some s1 ∧ LoopHead e pf P s1 ∧ loop_cond e s1 = false := by
  induction fuel generalizing s with
  | zero => omega
  | succ fuel ih =>
    cases hc : loop_cond e s with
    | false => exact ⟨s, by simp [main_loop, hc], h, hc⟩
    | true =>
      have hc2 := (loop_cond_iff e s).1 hc
      have hdec := body_decreases e hF hL hw s (loop_head_pos e hL pf P s h hc2.1).1 hc2.2
      obtain ⟨s1, h1, h2, h3⟩ := ih (body e s) (LoopHead.next s h hc) (by omega)
      exact ⟨s1, by simp [main_loop, hc, h1], h2, h3⟩

/-- Every run returns when all writes succeed, for every prefeed setting and
every stored budget: with more fuel than twice the iterations of a pass, plus
one, it ends at a loop head that has not failed, with the cursor at the end of
the stream. -/
theorem run_returns (hF : 0 < e.rnnoise_frame_size)
    (hL : e.rnnoise_frame_size ≤ e.input_frames) (hw : writes_succeed e)
    (pf : Bool) (P : Int) (fuel : Nat) (hfuel : 2 * normal_iterations e + 1 < fuel) :
    ∃ s, run e pf P fuel = some s ∧ LoopHead e pf P s ∧ s.failed = false ∧
      s.current_frame = e.input_frames := by
  have h0 : iterations_left e (init e pf P) < fuel := by
    have hle : iterations_left e (init e pf P) ≤ 2 * normal_iterations e + 1 := by
      unfold iterations_left
      have hcur : (init e pf P).current_frame = 0 := rfl
      rw [hcur, Nat.sub_zero]
      unfold normal_iterations
      split_ifs <;> omega
    omega
  obtain ⟨s, hs, hh, hc⟩ := main_loop_returns e hF hL hw pf P fuel _ LoopHead.entry h0
  have hok := loop_head_ok e hw pf P s hh
  have hle := (loop_head_pos e hL pf P s hh hok).2
  refine ⟨s, hs, hh, hok, ?_⟩
  have hn : ¬ (s.failed = false ∧ s.current_frame < e.input_frames) := by
    rw [← loop_cond_iff, hc]; decide
  have hge : ¬ s.current_frame < e.input_frames := fun hlt => hn ⟨hok, hlt⟩
  omega

/-- The decrement of an already wrapped counter. -/
theorem wrap64_sub (x y : Int) : wrap64 (wrap64 x - y) = wrap64 (x - y) := by
  unfold wrap64; omega

/-- The counter started at `SF_COUNT_MIN` is above zero once `c` frames, at
least one and at most `2^63 - 1`, have been taken off. -/
theorem wrap64_min_sub (c : Int) (h1 : 0 < c) (h2 : c < 2 ^ 63) :
    wrap64 (SF_COUNT_MIN - c) = 2 ^ 63 - c := by
  unfold wrap64 SF_COUNT_MIN; omega

/-- The loop heads of the run whose counter starts at `SF_COUNT_MIN`: the
first decrement wraps to a value above zero, the cap of line 174 has not
fired, and the budget never reaches zero, so every iteration of the pass is a
PREFEEDING one. -/
theorem overflow_head (hF : 0 < e.rnnoise_frame_size)
    (hL : e.rnnoise_frame_size ≤ e.input_frames)
    (hL64 : (e.input_frames : Int) < 2 ^ 63) (j : Nat) (hj : j ≤ normal_iterations e) :
    OverflowHead e (loop_head e true SF_COUNT_MIN j) j := by
  induction j with
  | zero =>
    refine ⟨rfl, rfl, by simp [loop_head, init], rfl, ?_, rfl, rfl, rfl⟩
    have hcap : ¬ (SF_COUNT_MIN > (e.input_frames : Int)) := by
      unfold SF_COUNT_MIN; omega
    simp only [loop_head, init, Function.iterate_zero, id_eq, if_neg hcap]
    unfold wrap64 SF_COUNT_MIN; omega
  | succ j ih =>
    have ih := ih (by omega)
    have hlt : j * e.rnnoise_frame_size < e.input_frames :=
      (lt_ceil_div_iff hF j _).1 (by unfold normal_iterations at hj; omega)
    have hcur : (loop_head e true SF_COUNT_MIN j).current_frame
        = j * e.rnnoise_frame_size := by rw [ih.cursor]; omega
    obtain ⟨hr, hcnt, hwf, -⟩ := schedule_at e _ hL ih.pos (by rw [hcur]; exact hlt)
    rw [hcur] at hr hwf
    rw [hr] at hcnt
    have hleft : wrap64 ((loop_head e true SF_COUNT_MIN j).prefeed_frames_left
        - (write_frames e (loop_head e true SF_COUNT_MIN j) : Int))
        = 2 ^ 63 - ((j * e.rnnoise_frame_size
            + min e.rnnoise_frame_size (e.input_frames - j * e.rnnoise_frame_size) : Nat)
            : Int) := by
      rw [ih.budget, wrap64_sub, hcur, hwf, Int.sub_sub, ← Int.ofNat_add]
      exact wrap64_min_sub _ (by omega) (by omega)
    have hgo : ¬ (wrap64 ((loop_head e true SF_COUNT_MIN j).prefeed_frames_left
        - (write_frames e (loop_head e true SF_COUNT_MIN j) : Int)) ≤ 0) := by
      rw [hleft]; omega
    have hnew : (j + 1) * e.rnnoise_frame_size ⊓ e.input_frames
        = j * e.rnnoise_frame_size
          + min e.rnnoise_frame_size (e.input_frames - j * e.rnnoise_frame_size) := by
      rw [Nat.succ_mul]; omega
    rw [loop_head_succ, body_prefeed e _ ih.phase]
    simp only [if_neg hgo]
    refine ⟨rfl, ih.ok, ?_, ?_, ?_, ih.writes, ih.output, ?_⟩
    · simp only [hcur, hwf, hnew]
    · simp only [hr, hcnt, hcur, hwf]
      unfold window_at; split_ifs <;> omega
    · show wrap64 _ = _
      rw [hleft]
      simp only [hcur, hwf]
      rw [wrap64_min_sub _ (by omega) (by omega)]
    · simp only [ih.windows, pass_windows_succ, hr, hcnt]

/-- The run whose counter starts at `SF_COUNT_MIN` returns after one pass over
the stream: it leaves the loop with the cursor at the end of the stream, still
in the PREFEEDING phase, without having rewound and without having written
anything. -/
theorem overflow_run (hF : 0 < e.rnnoise_frame_size)
    (hL : e.rnnoise_frame_size ≤ e.input_frames)
    (hL64 : (e.input_frames : Int) < 2 ^ 63) (fuel : Nat)
    (hfuel : normal_iterations e < fuel) :
    run e true SF_COUNT_MIN fuel = some (loop_head e true SF_COUNT_MIN (normal_iterations e)) ∧
    OverflowHead e (loop_head e true SF_COUNT_MIN (normal_iterations e))
      (normal_iterations e) ∧
    (loop_head e true SF_COUNT_MIN (normal_iterations e)).current_frame = e.input_frames := by
  have hlast := overflow_head e hF hL hL64 (normal_iterations e) (le_refl _)
  have hend : (loop_head e true SF_COUNT_MIN (normal_iterations e)).current_frame
      = e.input_frames := by rw [hlast.cursor, min_last e hF]
  refine ⟨?_, hlast, hend⟩
  apply main_loop_iterate e (normal_iterations e) _ _ _ fuel hfuel
  · intro j hj
    have hd := overflow_head e hF hL hL64 j (by omega)
    have hlt : j * e.rnnoise_frame_size < e.input_frames :=
      (lt_ceil_div_iff hF j _).1 hj
    change loop_cond e (loop_head e true SF_COUNT_MIN j) = true
    rw [loop_cond_iff, hd.cursor]
    exact ⟨hd.ok, by omega⟩
  · change loop_cond e (loop_head e true SF_COUNT_MIN (normal_iterations e)) = false
    simp [loop_cond, hend]

/-- With an identity engine and all writes succeeding, at every loop head in
the NORMAL phase, for every stored budget, the output holds the source samples
of the frames before the cursor, each times the amplification factor. -/
theorem loop_head_identity (hL : e.rnnoise_frame_size ≤ e.input_frames)
    (hN : 1 ≤ e.channels) (hw : writes_succeed e) (hid : identity_engine e)
    (pf : Bool) (P : Int) (s : LoopState σ) (h : LoopHead e pf P s)
    (hp : s.is_prefeeding = false) :
    s.output_file = (List.range (s.current_frame * e.channels)).map
      (fun t => e.amplify_factor * e.input_data t) := by
  induction h with
  | entry => simp [init]
  | next s hs hc ih =>
    have hc2 := (loop_cond_iff e s).1 hc
    obtain ⟨hr, hcnt, hwf, hfrom⟩ :=
      schedule_at e s hL (loop_head_pos e hL pf P s hs hc2.1).1 hc2.2
    rw [hr] at hcnt
    cases hps : s.is_prefeeding with
    | true =>
      have hq := loop_head_quiet e pf P s hs hps
      rw [body_prefeed e s hps] at hp ⊢
      by_cases hstop : wrap64 (s.prefeed_frames_left - (write_frames e s : Int)) ≤ 0
      · simp only [if_pos hstop, hq.2]
        simp
      · simp only [if_neg hstop] at hp
        exact absurd hp (by decide)
    | false =>
      have e2 : window_at e s.current_frame * e.channels
          + (e.rnnoise_frame_size
            - min e.rnnoise_frame_size (e.input_frames - s.current_frame)) * e.channels
          = s.current_frame * e.channels := by
        rw [← Nat.add_mul]; congr 1
        unfold window_at; split_ifs <;> omega
      have e1 : (e.rnnoise_frame_size
            - min e.rnnoise_frame_size (e.input_frames - s.current_frame)) * e.channels
          + min e.rnnoise_frame_size (e.input_frames - s.current_frame) * e.channels
          = e.rnnoise_frame_size * e.channels := by
        rw [← Nat.add_mul]; congr 1; omega
      rw [body_normal e s hps (hw _ _)]
      simp only [ih hps, hr, hwf, hfrom, Nat.add_mul, List.range_add, List.map_append,
        List.map_map]
      congr 1
      unfold written_samples
      apply List.map_congr_left
      intro t ht
      rw [List.mem_range] at ht
      simp only [write_op_at, Function.comp_apply]
      rw [frame_identity e hid _ _ _ hN hcnt _ (by omega), ← Nat.add_assoc, e2]

/-- The prefeed phase takes at most as many iterations as one pass. -/
theorem prefeed_count_le (hF : 0 < e.rnnoise_frame_size)
    (hL : e.rnnoise_frame_size ≤ e.input_frames) (pf : Bool) (P : Int) :
    prefeed_count e pf P ≤ normal_iterations e := by
  have hT : 0 < normal_iterations e := by
    unfold normal_iterations
    rw [lt_ceil_div_iff hF]; omega
  unfold prefeed_count
  split_ifs
  · unfold prefeed_iterations
    have hle : ceil_div (min P (e.input_frames : Int)).toNat e.rnnoise_frame_size
        ≤ normal_iterations e := by
      by_contra hn
      have h1 := (lt_ceil_div_iff hF (normal_iterations e)
        (min P (e.input_frames : Int)).toNat).1 (by omega)
      have h2 : ¬ (normal_iterations e * e.rnnoise_frame_size < e.input_frames) := by
        rw [← lt_ceil_div_iff hF]; unfold normal_iterations; omega
      omega
    omega
  · omega

/-- In a run whose budget is in range the loop is left in the NORMAL phase. -/
theorem run_exit_normal (hF : 0 < e.rnnoise_frame_size)
    (hL : e.rnnoise_frame_size ≤ e.input_frames) (hw : writes_succeed e)
    (pf : Bool) (P : Int) (hB : budget_in_range e pf P) (fuel : Nat)
    (hfuel : 2 * normal_iterations e + 1 < fuel) (s : LoopState σ)
    (hs : run e pf P fuel = some s) : s.is_prefeeding = false := by
  have hle := prefeed_count_le e hF hL pf P
  obtain ⟨s1, hs1, -, hph, -⟩ := run_final e hF hL hw pf P hB fuel (by omega)
  rw [hs] at hs1
  rw [Option.some.inj hs1]
  exact hph

/-- The state in which the loop is left is a loop head at which the loop
condition is false. -/
theorem main_loop_result (pf : Bool) (P : Int) (fuel : Nat) (s s1 : LoopState σ)
    (h : LoopHead e pf P s) (hs : main_loop e fuel s = some s1) :
    LoopHead e pf P s1 ∧ loop_cond e s1 = false := by
  induction fuel generalizing s with
  | zero => simp [main_loop] at hs
  | succ fuel ih =>
    cases hc : loop_cond e s with
    | false =>
      simp only [main_loop, hc, Bool.false_eq_true, if_false, Option.some.injEq] at hs
      rw [← hs]
      exact ⟨h, hc⟩
    | true =>
      simp only [main_loop, hc, if_true] at hs
      exact ih (body e s) (LoopHead.next s h hc) hs

end heads

end DenoiseIt

/-! ## The claims -/

namespace DenoiseIt

section claims

variable {σ : Type} (e : Env σ)

/-- C1 (frame coverage).  With prefeed disabled and all writes succeeding, for
a stream of `L ≥ F > 0` sample-frames and `N ≥ 1` channels the run returns,
and the source sample-frames of the frames it has written, taken write by
write in the order written, are exactly `0, 1, ..., L-1`: the frame at output
position `k` comes from the buffer slot that held source frame `k`, none is
skipped and none is written twice.  The output holds `L * N` samples: it is
the concatenation, over the iterations, of the written range of `full_frame`
as the channel loop of that iteration has left it.  Sample by sample, the
output at position `k * N + i` is the engine-processed slot: the output of the
engine of channel `i`, in the state it has after the windows read before, for
the mono frame of the window of iteration `k / F`, at the slot `k - pos` of
that window, divided by `32768`; and that slot of the mono frame is the source
sample of frame `k`, channel `i`, scaled by `32768` and the amplification
factor. -/
theorem C1_frame_coverage (hF : 0 < e.rnnoise_frame_size)
    (hL : e.rnnoise_frame_size ≤ e.input_frames) (hN : 1 ≤ e.channels)
    (hw : writes_succeed e) (P : Int) (fuel : Nat) (hfuel : normal_iterations e < fuel) :
    ∃ s, run e false P fuel = some s ∧
      s.writes.flatMap (source_frames e) = List.range e.input_frames ∧
      s.output_file.length = e.input_frames * e.channels ∧
      s.writes = pass_writes e (normal_iterations e) ∧
      s.output_file =
        (List.range (normal_iterations e)).flatMap (fun k =>
          written_samples e ((body e)^[k + 1] (init e false P)).full_frame
            (write_op_at e (k * e.rnnoise_frame_size)).write_from
            (write_op_at e (k * e.rnnoise_frame_size)).write_frames) ∧
      s.output_file =
        (List.range (e.input_frames * e.channels)).map (denoised_sample e []) ∧
      ∀ k i, k < e.input_frames → i < e.channels →
        mono_frame e (window_at e (k / e.rnnoise_frame_size * e.rnnoise_frame_size)) i
            (k - window_at e (k / e.rnnoise_frame_size * e.rnnoise_frame_size))
          = e.input_data (k * e.channels + i) * 32768 * e.amplify_factor := by
  obtain ⟨s, hs, hsd, -, -, -, -, hwr, -, hlen⟩ :=
    run_final e hF hL hw false P (budget_off e P) fuel (by simpa [prefeed_count] using hfuel)
  have h0 : NormalStart (init e false P) := ⟨rfl, rfl, rfl, rfl, rfl, rfl⟩
  refine ⟨s, hs, ?_, hlen, hwr, ?_, ?_, fun k i hk _ => mono_frame_slot e hF hL k i hk⟩
  · rw [hwr, pass_writes_cover e hF hL hN _ (le_refl _), min_last e hF]
  · rw [hsd]
    simp only [prefeed_count, Bool.false_eq_true, if_false, Nat.zero_add]
    exact normal_output_chunks e hF hL hw _ h0 _ (le_refl _)
  · rw [hsd]
    simp only [prefeed_count, Bool.false_eq_true, if_false, Nat.zero_add]
    have hd : ∀ k : Nat, k ≤ normal_iterations e →
        DataInv e ((body e)^[k] (init e false P)) := fun k hk =>
      run_data e hF hL hw false P (budget_off e P) k
        (by simpa [prefeed_count] using hk)
    have h := normal_output_denoised e hF hL hw _ h0 hd _ (le_refl _)
    rw [min_last e hF] at h
    exact h

/-- The scenario of the specification satisfies the hypotheses of C1, and its
three writes cover source frames `0 .. 999` in order. -/
theorem C1_frame_coverage_witness :
    (0 < scenario.rnnoise_frame_size ∧ scenario.rnnoise_frame_size ≤ scenario.input_frames ∧
      1 ≤ scenario.channels ∧ writes_succeed scenario ∧ normal_iterations scenario < 4) ∧
    ∃ s, run scenario false 0 4 = some s ∧
      s.writes.flatMap (source_frames scenario) = List.range 1000 ∧
      s.output_file.length = 1000 :=
  ⟨⟨by decide, by decide, by decide, fun _ _ => rfl, by decide⟩,
    (C1_frame_coverage scenario (by decide) (by decide) (by decide) (fun _ _ => rfl) 0 4
      (by decide)).imp (fun _ h => ⟨h.1, h.2.1, h.2.2.1⟩)⟩

end claims

end DenoiseIt

namespace DenoiseIt

section claims

variable {σ : Type} (e : Env σ)

/-- The `k`-th write of a pass, when there is one. -/
theorem pass_writes_get (n k : Nat) (w : WriteOp) (h : (pass_writes e n)[k]? = some w) :
    k < n ∧ w = write_op_at e (k * e.rnnoise_frame_size) := by
  unfold pass_writes at h
  rw [List.getElem?_map] at h
  by_cases hk : k < n
  · rw [List.getElem?_range hk] at h
    simp only [Option.map_some', Option.some.injEq] at h
    exact ⟨hk, h.symm⟩
  · rw [List.getElem?_eq_none (by simp; omega)] at h
    simp at h

/-- C2 (tail correctness, write schedule).  With prefeed disabled and all
writes succeeding, for `L ≥ F > 0` the run returns after issuing exactly
`ceil(L/F)` writes: one write of `F` frames from buffer offset 0 for each
whole engine frame of the stream, the window of the `k`-th read at `k * F`,
followed, when `L mod F ≠ 0`, by one write of `L mod F` frames from buffer
offset `(F - L mod F) * N` of the window read at `L - F`.  Every write but
the last has size `F`; the last has size `L mod F`, or `F` when `F` divides
`L`. -/
theorem C2_write_schedule (hF : 0 < e.rnnoise_frame_size)
    (hL : e.rnnoise_frame_size ≤ e.input_frames) (hw : writes_succeed e)
    (P : Int) (fuel : Nat) (hfuel : normal_iterations e < fuel) :
    ∃ s, run e false P fuel = some s ∧
      s.writes.length = ceil_div e.input_frames e.rnnoise_frame_size ∧
      s.writes =
        (List.range (e.input_frames / e.rnnoise_frame_size)).map
          (fun k => (⟨0, e.rnnoise_frame_size, k * e.rnnoise_frame_size⟩ : WriteOp)) ++
        (if e.input_frames % e.rnnoise_frame_size = 0 then []
         else [⟨(e.rnnoise_frame_size - e.input_frames % e.rnnoise_frame_size) * e.channels,
            e.input_frames % e.rnnoise_frame_size,
            e.input_frames - e.rnnoise_frame_size⟩]) ∧
      ∀ k w, s.writes[k]? = some w →
        (k + 1 < ceil_div e.input_frames e.rnnoise_frame_size →
          w.write_frames = e.rnnoise_frame_size) ∧
        (k + 1 = ceil_div e.input_frames e.rnnoise_frame_size →
          w.write_frames = (if e.input_frames % e.rnnoise_frame_size = 0
            then e.rnnoise_frame_size else e.input_frames % e.rnnoise_frame_size) ∧
          (e.input_frames % e.rnnoise_frame_size ≠ 0 →
            w.window_pos = e.input_frames - e.rnnoise_frame_size ∧
            w.write_from =
              (e.rnnoise_frame_size - e.input_frames % e.rnnoise_frame_size)
                * e.channels)) := by
  obtain ⟨s, hs, -, -, -, -, -, hwr, -, -⟩ :=
    run_final e hF hL hw false P (budget_off e P) fuel (by simpa [prefeed_count] using hfuel)
  have hdm : e.input_frames / e.rnnoise_frame_size * e.rnnoise_frame_size
      + e.input_frames % e.rnnoise_frame_size = e.input_frames := Nat.div_add_mod' _ _
  have hmod : e.input_frames % e.rnnoise_frame_size < e.rnnoise_frame_size :=
    Nat.mod_lt _ hF
  have hT := normal_iterations_eq e hF
  refine ⟨s, hs, ?_, ?_, ?_⟩
  · rw [hwr]; simp [pass_writes, normal_iterations]
  · rw [hwr]; exact pass_writes_closed e hF
  · intro k w hk
    rw [hwr] at hk
    obtain ⟨hkT, rfl⟩ := pass_writes_get e _ k w hk
    change _ ∧ (k + 1 = normal_iterations e → _)
    constructor
    · intro hlt
      have h1 : (k + 1) * e.rnnoise_frame_size < e.input_frames :=
        (lt_ceil_div_iff hF _ _).1 hlt
      rw [Nat.succ_mul] at h1
      rw [write_op_at_full e _ (by omega)]
    · intro heq
      by_cases hr : e.input_frames % e.rnnoise_frame_size = 0
      · rw [if_pos hr] at hT
        have h1 : (k + 1) * e.rnnoise_frame_size
            = e.input_frames / e.rnnoise_frame_size * e.rnnoise_frame_size := by
          rw [heq, hT]; rfl
        rw [Nat.succ_mul] at h1
        rw [write_op_at_full e _ (by omega)]
        simp [hr]
      · rw [if_neg hr] at hT
        have h1 : k * e.rnnoise_frame_size
            = e.input_frames / e.rnnoise_frame_size * e.rnnoise_frame_size := by
          congr 1; omega
        rw [write_op_at_tail e _ (by omega) (by omega)]
        rw [if_neg hr]
        refine ⟨by show e.input_frames - _ = _; omega, fun _ => ⟨rfl, ?_⟩⟩
        show (e.rnnoise_frame_size - (e.input_frames - _)) * e.channels = _
        congr 1; omega

/-- The scenario of the specification (`L = 1000`, `F = 480`, `N = 1`): exactly
three writes, of 480, 480 and 40 frames, the last from buffer offset 440 of
the window read at sample-frame 520. -/
theorem C2_write_schedule_witness :
    (0 < scenario.rnnoise_frame_size ∧ scenario.rnnoise_frame_size ≤ scenario.input_frames ∧
      writes_succeed scenario ∧ normal_iterations scenario < 4) ∧
    ∃ s, run scenario false 0 4 = some s ∧ s.writes.length = 3 ∧
      s.writes = [⟨0, 480, 0⟩, ⟨0, 480, 480⟩, ⟨440, 40, 520⟩] := by
  refine ⟨⟨by decide, by decide, fun _ _ => rfl, by decide⟩, ?_⟩
  obtain ⟨s, hs, hlen, hlist, -⟩ :=
    C2_write_schedule scenario (by decide) (by decide) (fun _ _ => rfl) 0 4 (by decide)
  refine ⟨s, hs, ?_, ?_⟩
  · rw [hlen]; decide
  · rw [hlist]; decide

end claims

end DenoiseIt

namespace DenoiseIt

section claims

variable {σ : Type} (e : Env σ)

end claims

end DenoiseIt

namespace DenoiseIt

section claims

variable {σ : Type} (e : Env σ)

/-- Each iteration logs exactly one window. -/
theorem iterate_windows_length (s : LoopState σ) (j : Nat) :
    ((body e)^[j] s).windows.length = s.windows.length + j := by
  induction j with
  | zero => rfl
  | succ j ih =>
    rw [Function.iterate_succ_apply', body_windows, List.length_append, ih]
    rfl

/-- At a loop head in the PREFEEDING phase every window read so far is a
prefeed window, whatever the stored budget. -/
theorem loop_head_prefeed_windows (pf : Bool) (P : Int) (s : LoopState σ)
    (h : LoopHead e pf P s) (hp : s.is_prefeeding = true) :
    ∀ w, w ∈ s.windows → w.prefeeding = true := by
  induction h with
  | entry => intro w hw; simp [init] at hw
  | next s _ _ ih =>
    cases hps : s.is_prefeeding with
    | false =>
      rw [body_phase_normal e s hps] at hp
      exact absurd hp (by decide)
    | true =>
      intro w hw
      rw [body_windows, hps, List.mem_append] at hw
      rcases hw with hw | hw
      · exact ih hps w hw
      · rw [List.mem_singleton] at hw
        rw [hw]

/-- At the loop head at which the normal pass starts every window read so far
is a prefeed window, whatever the stored budget and whatever the writes
return. -/
theorem loop_head_first_normal (hF : 0 < e.rnnoise_frame_size)
    (hL : e.rnnoise_frame_size ≤ e.input_frames) (pf : Bool) (P : Int) (s : LoopState σ)
    (h : LoopHead e pf P s) (hok : s.failed = false) (hp : s.is_prefeeding = false)
    (hc : s.current_frame = 0) : ∀ w, w ∈ s.windows → w.prefeeding = true := by
  cases h with
  | entry => intro w hw; simp [init] at hw
  | next s hs hcond =>
    have hc2 := (loop_cond_iff e s).1 hcond
    cases hps : s.is_prefeeding with
    | true =>
      intro w hw
      rw [body_windows, hps, List.mem_append] at hw
      rcases hw with hw | hw
      · exact loop_head_prefeed_windows e pf P s hs hps w hw
      · rw [List.mem_singleton] at hw
        rw [hw]
    | false =>
      by_cases hwr : e.sf_writef_float s.writes.length (write_frames e s)
          = (write_frames e s : Int)
      · obtain ⟨-, -, hwf, -⟩ :=
          schedule_at e s hL (loop_head_pos e hL pf P s hs hc2.1).1 hc2.2
        rw [body_normal e s hps hwr] at hc
        simp only [hwf] at hc
        omega
      · rw [(body_short e s hps hwr).1] at hok
        exact absurd hok (by decide)

/-- C5 (engine state is carried from prefeed into the normal pass, never
reset).  Take `L ≥ F > 0` and a channel `i < N`.  For every value `Q` the
64-bit counter may be started with and whatever the writes return: at every
loop head the state of the engine of channel `i` is the fold of the engine,
from the freshly created state, over the frames of channel `i` in the windows
read so far, in order; in the iteration entered there, when the channel loop
reaches channel `i` the engine is still in that state, the frame it is given
is the mono frame of channel `i` in the window just read, and the state it
returns is the one stored for the next iteration; and at the loop head at
which the first window of the NORMAL pass is processed (NORMAL phase, cursor
zero) the windows read so far are all prefeed windows, so the state is the
fold over the prefeed windows.  With all writes succeeding and a prefeed
setting whose budget `P ≥ 0` the counter holds, in closed form: the `j`-th
iteration has read `j` windows before; the loop head at which the normal pass
starts holds, for channel `i`, the fold over the `K` prefeed windows, and the
run ends with the fold over the prefeed windows followed by the windows of
the normal pass. -/
theorem C5_engine_state_carried (hF : 0 < e.rnnoise_frame_size)
    (hL : e.rnnoise_frame_size ≤ e.input_frames) (i : Nat) (hi : i < e.channels) :
    (∀ (pf : Bool) (Q : Int) (s : LoopState σ), LoopHead e pf Q s →
      (s.state i).ds = engine_fold e i s.windows ∧
      (loop_cond e s = true →
        ((channel_entry e s i).2 i).ds = engine_fold e i s.windows ∧
        engine_input e i (channel_entry e s i) = mono_frame e (read_pos e s) i ∧
        (body e s).windows = s.windows ++
          [⟨s.is_prefeeding, read_pos e s, e.rnnoise_frame_size⟩] ∧
        ((body e s).state i).ds =
          (e.rnnoise_process_frame (engine_fold e i s.windows)
            (mono_frame e (read_pos e s) i)).1 ∧
        (s.is_prefeeding = false → s.current_frame = 0 →
          ∀ x, x ∈ s.windows → x.prefeeding = true))) ∧
    (writes_succeed e → ∀ (pf : Bool) (P : Int), budget_in_range e pf P →
      ∀ fuel : Nat, prefeed_count e pf P + normal_iterations e < fuel →
      (∀ j, j < prefeed_count e pf P + normal_iterations e →
        ((body e)^[j] (init e pf P)).windows.length = j ∧
        ((channel_entry e ((body e)^[j] (init e pf P)) i).2 i).ds =
          engine_fold e i ((body e)^[j] (init e pf P)).windows ∧
        engine_input e i (channel_entry e ((body e)^[j] (init e pf P)) i) =
          mono_frame e (read_pos e ((body e)^[j] (init e pf P))) i ∧
        ((body e)^[j + 1] (init e pf P)).windows =
          ((body e)^[j] (init e pf P)).windows ++
            [⟨((body e)^[j] (init e pf P)).is_prefeeding,
              read_pos e ((body e)^[j] (init e pf P)), e.rnnoise_frame_size⟩] ∧
        (((body e)^[j + 1] (init e pf P)).state i).ds =
          (e.rnnoise_process_frame
            (engine_fold e i ((body e)^[j] (init e pf P)).windows)
            (mono_frame e (read_pos e ((body e)^[j] (init e pf P))) i)).1) ∧
      ((body e)^[prefeed_count e pf P] (init e pf P)).is_prefeeding = false ∧
      ((body e)^[prefeed_count e pf P] (init e pf P)).current_frame = 0 ∧
      (((body e)^[prefeed_count e pf P] (init e pf P)).state i).ds =
        engine_fold e i (pass_windows e true (prefeed_count e pf P)) ∧
      ∃ s, run e pf P fuel = some s ∧
        s.windows = pass_windows e true (prefeed_count e pf P)
          ++ pass_windows e false (normal_iterations e) ∧
        (s.state i).ds = engine_fold e i (pass_windows e true (prefeed_count e pf P)
          ++ pass_windows e false (normal_iterations e))) := by
  refine ⟨fun pf Q s hs => ?_, fun hw pf P hB fuel hfuel => ⟨fun j hj => ?_, ?_⟩⟩
  · have hd := loop_head_data e hL pf Q s hs
    refine ⟨hd.engine i hi, fun hc => ?_⟩
    have hc2 := (loop_cond_iff e s).1 hc
    obtain ⟨hpos, -⟩ := loop_head_pos e hL pf Q s hs hc2.1
    obtain ⟨-, hcnt, -, -⟩ := schedule_at e s hL hpos hc2.2
    have hd1 := body_data e hL s hpos hc2.2 hd
    have hwin : (body e s).windows = s.windows ++
        [⟨s.is_prefeeding, read_pos e s, e.rnnoise_frame_size⟩] := by
      rw [body_windows, hcnt]
    refine ⟨?_, ?_, hwin, ?_, fun hp h0 => loop_head_first_normal e hF hL pf Q s hs
      hc2.1 hp h0⟩
    · unfold channel_entry
      rw [channel_prefix_state e _ _ i i (le_refl _)]
      exact hd.engine i hi
    · unfold channel_entry
      rw [engine_input_fresh e _ _ i hi]
      exact engine_input_mono e _ _ _ i hi hcnt (hd.staging i)
    · rw [hd1.engine i hi, hwin]
      simp [engine_fold, List.foldl_append]
  · have hd := run_data e hF hL hw pf P hB j (by omega)
    have hd1 := run_data e hF hL hw pf P hB (j + 1) (by omega)
    obtain ⟨hp, hc⟩ := run_head_inside e hF hL hw pf P hB j hj
    obtain ⟨-, hcnt, -, -⟩ := schedule_at e _ hL hp hc
    have hwin : ((body e)^[j + 1] (init e pf P)).windows =
        ((body e)^[j] (init e pf P)).windows ++
          [⟨((body e)^[j] (init e pf P)).is_prefeeding,
            read_pos e ((body e)^[j] (init e pf P)), e.rnnoise_frame_size⟩] := by
      rw [Function.iterate_succ_apply', body_windows, hcnt]
    refine ⟨by simpa [init] using iterate_windows_length e (init e pf P) j, ?_, ?_, hwin, ?_⟩
    · unfold channel_entry
      rw [channel_prefix_state e _ _ i i (le_refl _)]
      exact hd.engine i hi
    · unfold channel_entry
      rw [engine_input_fresh e _ _ i hi]
      exact engine_input_mono e _ _ _ i hi hcnt (hd.staging i)
    · rw [hd1.engine i hi, hwin]
      simp [engine_fold, List.foldl_append]
  · obtain ⟨hstart, hwin⟩ := normal_start e hF hL pf P hB
    have hd := run_data e hF hL hw pf P hB (prefeed_count e pf P) (by omega)
    refine ⟨hstart.phase, hstart.cursor, by rw [hd.engine i hi, hwin], ?_⟩
    obtain ⟨s, hs, hsd, -, -, -, -, -, hws, -⟩ := run_final e hF hL hw pf P hB fuel hfuel
    refine ⟨s, hs, hws, ?_⟩
    have hdf := run_data e hF hL hw pf P hB _ (le_refl _)
    rw [← hsd] at hdf
    rw [hdf.engine i hi, hws]

/-- The scenario of the specification with a prefeed budget of 480 frames and
an engine that counts its invocations: channel 0 enters the normal pass with
the count 1 of the prefeed window, and ends the run with the count 4. -/
theorem C5_engine_state_carried_witness :
    (0 < scenario.rnnoise_frame_size ∧ scenario.rnnoise_frame_size ≤ scenario.input_frames ∧
      0 < scenario.channels ∧ writes_succeed scenario ∧ budget_in_range scenario true 480 ∧
      prefeed_count scenario true 480 + normal_iterations scenario < 5) ∧
    prefeed_count scenario true 480 = 1 ∧
    (((body scenario)^[1] (init scenario true 480)).state 0).ds = 1 ∧
    ∃ s, run scenario true 480 5 = some s ∧ (s.state 0).ds = 4 := by
  have hK : prefeed_count scenario true 480 = 1 := by decide
  obtain ⟨-, -, -, hds, s, hs, -, hfin⟩ :=
    (C5_engine_state_carried scenario (by decide) (by decide) 0 (by decide)).2
      (fun _ _ => rfl) true 480 (fun _ => by decide) 5 (by decide)
  rw [hK] at hds
  refine ⟨⟨by decide, by decide, by decide, fun _ _ => rfl, fun _ => by decide, by decide⟩,
    hK, ?_, s, hs, ?_⟩
  · rw [hds]; rfl
  · rw [hfin]; rfl

end claims

end DenoiseIt

namespace DenoiseIt

section claims

variable {σ : Type} (e : Env σ)

/-- A budget equal to the stream length makes the prefeed phase one whole
pass. -/
theorem prefeed_iterations_full (hF : 0 < e.rnnoise_frame_size)
    (hL : e.rnnoise_frame_size ≤ e.input_frames) :
    prefeed_iterations e (e.input_frames : Int) = normal_iterations e := by
  have h1 : 0 < normal_iterations e := by
    unfold normal_iterations
    rw [lt_ceil_div_iff hF]; omega
  unfold prefeed_iterations
  have h2 : (min (e.input_frames : Int) (e.input_frames : Int)).toNat = e.input_frames := by
    omega
  rw [h2]
  unfold normal_iterations at h1 ⊢
  omega

/-- The windows of a whole pass cover every sample-frame of the stream. -/
theorem pass_windows_cover (hF : 0 < e.rnnoise_frame_size)
    (hL : e.rnnoise_frame_size ≤ e.input_frames) (pf : Bool) (k : Nat)
    (hk : k < e.input_frames) :
    ∃ w, w ∈ pass_windows e pf (normal_iterations e) ∧ w.prefeeding = pf ∧
      w.frames = e.rnnoise_frame_size ∧ w.pos ≤ k ∧ k < w.pos + w.frames := by
  have hdm : k / e.rnnoise_frame_size * e.rnnoise_frame_size + k % e.rnnoise_frame_size = k :=
    Nat.div_add_mod' _ _
  have hmod : k % e.rnnoise_frame_size < e.rnnoise_frame_size := Nat.mod_lt _ hF
  have hlt : k / e.rnnoise_frame_size < normal_iterations e := by
    unfold normal_iterations
    rw [lt_ceil_div_iff hF]; omega
  refine ⟨⟨pf, window_at e (k / e.rnnoise_frame_size * e.rnnoise_frame_size),
    e.rnnoise_frame_size⟩, ?_, rfl, rfl, ?_, ?_⟩
  · unfold pass_windows
    exact List.mem_map.2 ⟨k / e.rnnoise_frame_size, List.mem_range.2 hlt, rfl⟩
  · show window_at e _ ≤ k
    unfold window_at; split_ifs <;> omega
  · show k < window_at e _ + e.rnnoise_frame_size
    unfold window_at; split_ifs <;> omega

/-- The entry state for a requested duration whose product with the sample
rate is `2^63` or more: prefeed is on and the counter holds `SF_COUNT_MIN`. -/
theorem entry_overflow (secs : ℚ) (h : (2 : ℚ) ^ 63 ≤ secs * 48000) :
    prefeed_budget secs = SF_COUNT_MIN ∧ entry e secs = init e true SF_COUNT_MIN := by
  have hb : prefeed_budget secs = SF_COUNT_MIN := to_sf_count_overflow _ h
  have hpos : 0 < secs := by
    by_contra hn
    have h1 : secs * 48000 ≤ 0 := mul_nonpos_of_nonpos_of_nonneg (not_lt.1 hn) (by norm_num)
    have h2 : (0 : ℚ) < 2 ^ 63 := by positivity
    linarith
  refine ⟨hb, ?_⟩
  unfold entry
  rw [hb, decide_eq_true hpos]

/-- C6 (prefeed clamp), evaluated on the code.  Take `L ≥ F > 0` (`L` an
`sf_count_t`), `N ≥ 1` and all writes succeeding.  When the value stored by
line 171 is a budget `P > L`, the cap of line 174 fires: the loop is entered in
the same state as with `P = L`, so every loop head and the result of the run,
with every engine state, every window read and every write, are the same as
with `P = L`; in that run the prefeed phase is one whole pass, whose windows
cover every sample-frame index below `L` before the rewind, and the normal
pass then writes all `L` frames, each once and in order.  But when the
requested duration times the sample rate is `2^63` or more, a requested budget
far above `L`, line 171 stores `SF_COUNT_MIN` instead, the cap does not fire,
and the run is not the run with `P = L`: it reads the windows of one pass in
the PREFEEDING phase and leaves the loop still prefeeding, without rewinding
and without a single write, whereas the run with `P = L` goes on to a normal
pass that writes `L * N` samples. -/
theorem C6_prefeed_clamp_overflow (hF : 0 < e.rnnoise_frame_size)
    (hL : e.rnnoise_frame_size ≤ e.input_frames)
    (hL64 : (e.input_frames : Int) < 2 ^ 63) (hN : 1 ≤ e.channels)
    (hw : writes_succeed e) (fuel : Nat)
    (hfuel : normal_iterations e + normal_iterations e < fuel) :
    (∀ P : Int, (e.input_frames : Int) < P → P < 2 ^ 63 →
      (∀ pf, init e pf P = init e pf (e.input_frames : Int)) ∧
      (∀ pf j, (body e)^[j] (init e pf P) = (body e)^[j] (init e pf (e.input_frames : Int))) ∧
      (∀ pf n, run e pf P n = run e pf (e.input_frames : Int) n)) ∧
    prefeed_iterations e (e.input_frames : Int) = normal_iterations e ∧
    (∀ k, k < e.input_frames →
      ∃ w, w ∈ ((body e)^[prefeed_iterations e (e.input_frames : Int)]
          (init e true (e.input_frames : Int))).windows ∧
        w.prefeeding = true ∧ w.frames = e.rnnoise_frame_size ∧
        w.pos ≤ k ∧ k < w.pos + w.frames) ∧
    ((body e)^[prefeed_iterations e (e.input_frames : Int)]
      (init e true (e.input_frames : Int))).writes = [] ∧
    (∃ s, run e true (e.input_frames : Int) fuel = some s ∧
      s.writes.flatMap (source_frames e) = List.range e.input_frames ∧
      s.output_file.length = e.input_frames * e.channels) ∧
    (∀ secs : ℚ, (2 : ℚ) ^ 63 ≤ secs * 48000 →
      (e.input_frames : ℚ) < secs * 48000 ∧
      prefeed_budget secs = SF_COUNT_MIN ∧
      (entry e secs).is_prefeeding = true ∧
      (entry e secs).prefeed_frames_left = SF_COUNT_MIN ∧
      ∃ s1 s0, main_run e secs fuel = some s1 ∧
        run e true (e.input_frames : Int) fuel = some s0 ∧
        s1.is_prefeeding = true ∧ s1.current_frame = e.input_frames ∧
        s1.writes = [] ∧ s1.output_file = [] ∧
        s1.windows = pass_windows e true (normal_iterations e) ∧
        s0.is_prefeeding = false ∧ s0.current_frame = e.input_frames ∧
        s0.writes = pass_writes e (normal_iterations e) ∧
        s0.output_file.length = e.input_frames * e.channels ∧
        s0.windows = pass_windows e true (normal_iterations e)
          ++ pass_windows e false (normal_iterations e) ∧
        s1.writes ≠ s0.writes) := by
  have hK := prefeed_iterations_full e hF hL
  have hBL : budget_in_range e true (e.input_frames : Int) :=
    budget_on e _ (by omega) hL64 hL64
  obtain ⟨hstart, hwin, -⟩ := prefeed_done e hF hL (e.input_frames : Int) (by omega) hL64
  have hT : 0 < normal_iterations e := by
    unfold normal_iterations
    rw [lt_ceil_div_iff hF]; omega
  obtain ⟨s0, hs0, -, hph0, -, hcur0, -, hwr0, hws0, hlen0⟩ :=
    run_final e hF hL hw true (e.input_frames : Int) hBL fuel
      (by simp only [prefeed_count, if_true, hK]; exact hfuel)
  simp only [prefeed_count, if_true, hK] at hws0
  refine ⟨fun P hP _ => ?_, hK, fun k hk => ?_, hstart.writes, ⟨s0, hs0, ?_, hlen0⟩,
    fun secs hsecs => ?_⟩
  · have hinit : ∀ pf, init e pf P = init e pf (e.input_frames : Int) := by
      intro pf
      simp [init, hP]
    exact ⟨hinit, fun pf j => by rw [hinit], fun pf n => by unfold run; rw [hinit]⟩
  · rw [hwin, hK]
    exact pass_windows_cover e hF hL true k hk
  · rw [hwr0, pass_writes_cover e hF hL hN _ (le_refl _), min_last e hF]
  · obtain ⟨hb, hentry⟩ := entry_overflow e secs hsecs
    obtain ⟨hrun, hhead, hcur⟩ := overflow_run e hF hL hL64 fuel (by omega)
    have hreq : (e.input_frames : ℚ) < secs * 48000 := by
      have h1 : (e.input_frames : ℚ) < 2 ^ 63 := by exact_mod_cast hL64
      linarith
    have hcap : ¬ (SF_COUNT_MIN > (e.input_frames : Int)) := by
      unfold SF_COUNT_MIN; omega
    refine ⟨hreq, hb, by rw [hentry]; rfl, by rw [hentry]; simp [init, hcap], _, s0, ?_, hs0,
      hhead.phase, hcur, hhead.writes, hhead.output, hhead.windows, hph0, hcur0, hwr0, hlen0,
      hws0, ?_⟩
    · unfold main_run
      rw [hentry]
      exact hrun
    · rw [hhead.writes, hwr0]
      intro hnil
      have hlen := congrArg List.length hnil
      simp [pass_writes] at hlen
      omega

/-- The scenario of the specification, a stream of 1000 frames.  With a stored
budget of 5000 frames the run is the run with budget 1000.  With `--prefeed
2e14` the product `2e14 * 48000 = 9.6e18` is above `2^63`: the counter holds
`SF_COUNT_MIN`, the run leaves the loop still prefeeding after the three
windows of one pass, with the cursor at 1000 and nothing written, whereas the
run with budget 1000 issues three writes. -/
theorem C6_prefeed_clamp_overflow_witness :
    (0 < scenario.rnnoise_frame_size ∧ scenario.rnnoise_frame_size ≤ scenario.input_frames ∧
      (scenario.input_frames : Int) < 2 ^ 63 ∧ 1 ≤ scenario.channels ∧
      writes_succeed scenario ∧
      normal_iterations scenario + normal_iterations scenario < 7 ∧
      (2 : ℚ) ^ 63 ≤ 200000000000000 * 48000) ∧
    run scenario true 5000 7 = run scenario true 1000 7 ∧
    prefeed_budget 200000000000000 = SF_COUNT_MIN ∧
    ∃ s1 s0, main_run scenario 200000000000000 7 = some s1 ∧
      run scenario true 1000 7 = some s0 ∧
      s1.is_prefeeding = true ∧ s1.current_frame = 1000 ∧ s1.writes = [] ∧
      s1.windows = [⟨true, 0, 480⟩, ⟨true, 480, 480⟩, ⟨true, 520, 480⟩] ∧
      s0.is_prefeeding = false ∧
      s0.writes = [⟨0, 480, 0⟩, ⟨0, 480, 480⟩, ⟨440, 40, 520⟩] := by
  have hsecs : (2 : ℚ) ^ 63 ≤ 200000000000000 * 48000 := by norm_num
  obtain ⟨hclamp, -, -, -, -, hover⟩ :=
    C6_prefeed_clamp_overflow scenario (by decide) (by decide) (by decide) (by decide)
      (fun _ _ => rfl) 7 (by decide)
  obtain ⟨-, hb, -, -, s1, s0, h1, h0, hp1, hc1, hw1, -, hwin1, hp0, -, hw0, -, -, -⟩ :=
    hover 200000000000000 hsecs
  refine ⟨⟨by decide, by decide, by decide, by decide, fun _ _ => rfl, by decide, hsecs⟩,
    (hclamp 5000 (by decide) (by decide)).2.2 true 7, hb, s1, s0, h1, h0, hp1, hc1, hw1, ?_,
    hp0, ?_⟩
  · rw [hwin1]; decide
  · rw [hw0]; decide

end claims

end DenoiseIt

namespace DenoiseIt

section claims

variable {σ : Type} (e : Env σ)

/-- C7 (split).  In the iteration entered in any state `s`, for every channel
`i < N` and every `sample < F`, the frame handed to the engine of channel `i`
has at `sample` the value `W[i + sample * N] * amplify * 32768`, where `W` is
the interleaved window as read from the source in this iteration, although
channels `0 .. i-1` have already been merged back into the same buffer: when
the channel loop reaches channel `i` the buffer still holds `W` at the
positions of channel `i`, because merging a channel `j` changes no position
other than `j + t * N` with `t < F`, hence none of another channel. -/
theorem C7_split (s : LoopState σ) (i sample : Nat) (hi : i < e.channels)
    (hs : sample < e.rnnoise_frame_size) :
    engine_input e i (channel_entry e s i) sample =
      sf_readf_float e (read_pos e s) s.full_frame e.rnnoise_frame_size
        (i + sample * e.channels) * e.amplify_factor * 32768 ∧
    (channel_entry e s i).1 (i + sample * e.channels) =
      sf_readf_float e (read_pos e s) s.full_frame e.rnnoise_frame_size
        (i + sample * e.channels) ∧
    (∀ (out ff : Nat → ℚ) (j idx : Nat),
      (∀ t, t < e.rnnoise_frame_size → idx ≠ j + t * e.channels) →
      merge_channel e out j ff idx = ff idx) ∧
    (∀ (out ff : Nat → ℚ) (j t : Nat), j < e.channels → j ≠ i →
      merge_channel e out j ff (i + t * e.channels) = ff (i + t * e.channels)) := by
  refine ⟨?_, ?_, fun out ff j idx h => merge_channel_other e out ff j idx h, ?_⟩
  · unfold channel_entry
    rw [engine_input_fresh e _ _ i hi, engine_input, split_channel_apply, if_pos hs]
    ring
  · unfold channel_entry
    exact channel_prefix_frame e _ _ i i sample (le_refl _) hi
  · intro out ff j t hj hji
    apply merge_channel_other
    intro u _ hc
    exact hji (interleave_inj hi hj hc).1.symm

/-- The stereo stream, first normal iteration, channel 1, sample 2: the window
holds the source sample 6 at position `1 + 2 * 2`, and the engine of channel 1
is given `6 * 2 * 32768`. -/
theorem C7_split_witness :
    (1 < stereo.channels ∧ 2 < stereo.rnnoise_frame_size) ∧
    sf_readf_float stereo (read_pos stereo (init stereo false 0))
      (init stereo false 0).full_frame stereo.rnnoise_frame_size (1 + 2 * stereo.channels)
      = 6 ∧
    engine_input stereo 1 (channel_entry stereo (init stereo false 0) 1) 2 = 393216 := by
  have hW : sf_readf_float stereo (read_pos stereo (init stereo false 0))
      (init stereo false 0).full_frame stereo.rnnoise_frame_size (1 + 2 * stereo.channels)
      = 6 := by
    simp [sf_readf_float, sf_read_count, read_pos, is_tail, init, stereo]
    norm_num
  refine ⟨⟨by decide, by decide⟩, hW, ?_⟩
  rw [(C7_split stereo (init stereo false 0) 1 2 (by decide) (by decide)).1, hW]
  simp [stereo]
  norm_num

/-- What a normal iteration leaves in `full_frame`: the engine output of each
channel, scaled back by `32768`, at that channel's positions. -/
theorem body_merged (s : LoopState σ) (hp : s.is_prefeeding = false) (i sample : Nat)
    (hi : i < e.channels) (hs : sample < e.rnnoise_frame_size) :
    (body e s).full_frame (i + sample * e.channels) =
      engine_output e i (channel_entry e s i) sample / 32768 := by
  rw [body_full_frame]
  unfold channel_loop channel_entry
  rw [hp, channel_done_frame e _ _ i sample (le_refl _) hi hs,
    engine_output_fresh e false _ i hi]

/-- C8 (merge and amplification asymmetry).  After a NORMAL iteration the
interleaved buffer holds at every position `i + sample * N` (`i < N`,
`sample < F`) the value `out_i[sample] / 32768`, where `out_i` is the output
of channel `i`'s engine; the amplification factor is not divided out.  So for
`L ≥ F > 0`, `N ≥ 1`, all writes succeeding and an engine that hands back the
frame it is given, whatever the prefeed setting and whatever value the 64-bit
counter is started with: at every loop head in the NORMAL phase the output
holds, for the frames before the cursor, the amplification factor times the
source sample at the same position, and at every loop head in the PREFEEDING
phase it is empty; the run returns, and every sample it has written is the
amplification factor times the source sample at the same position; with
amplification 1 the samples written are those of the input.  When the counter
holds a budget `P ≥ 0` the output is the whole stream, `L * N` samples. -/
theorem C8_merge_asymmetry (hF : 0 < e.rnnoise_frame_size)
    (hL : e.rnnoise_frame_size ≤ e.input_frames) (hN : 1 ≤ e.channels)
    (hw : writes_succeed e) (hid : identity_engine e) (pf : Bool) (P : Int) (fuel : Nat)
    (hfuel : 2 * normal_iterations e + 1 < fuel) :
    (∀ (s : LoopState σ) (i sample : Nat), s.is_prefeeding = false → i < e.channels →
      sample < e.rnnoise_frame_size →
      (body e s).full_frame (i + sample * e.channels) =
        engine_output e i (channel_entry e s i) sample / 32768) ∧
    (∀ s : LoopState σ, LoopHead e pf P s →
      (s.is_prefeeding = false →
        s.output_file = (List.range (s.current_frame * e.channels)).map
          (fun t => e.amplify_factor * e.input_data t)) ∧
      (s.is_prefeeding = true → s.output_file = [])) ∧
    ∃ s, run e pf P fuel = some s ∧
      s.output_file = (List.range s.output_file.length).map
        (fun t => e.amplify_factor * e.input_data t) ∧
      (e.amplify_factor = 1 →
        s.output_file = (List.range s.output_file.length).map e.input_data) ∧
      (budget_in_range e pf P →
        s.output_file = (List.range (e.input_frames * e.channels)).map
          (fun t => e.amplify_factor * e.input_data t) ∧
        (e.amplify_factor = 1 →
          s.output_file = (List.range (e.input_frames * e.channels)).map e.input_data)) := by
  refine ⟨fun s i sample hp hi hs => body_merged e s hp i sample hi hs,
    fun s hs => ⟨fun hp => loop_head_identity e hL hN hw hid pf P s hs hp,
      fun hp => (loop_head_quiet e pf P s hs hp).2⟩, ?_⟩
  obtain ⟨s, hs, hh, -, hcur⟩ := run_returns e hF hL hw pf P fuel hfuel
  have hnormal : s.is_prefeeding = false →
      s.output_file = (List.range (e.input_frames * e.channels)).map
        (fun t => e.amplify_factor * e.input_data t) := by
    intro hp
    rw [loop_head_identity e hL hN hw hid pf P s hh hp, hcur]
  have hout : s.output_file = (List.range s.output_file.length).map
      (fun t => e.amplify_factor * e.input_data t) := by
    cases hp : s.is_prefeeding with
    | true => rw [(loop_head_quiet e pf P s hh hp).2]; rfl
    | false =>
      have h := hnormal hp
      have hlen : s.output_file.length = e.input_frames * e.channels := by
        rw [h]; simp
      rw [hlen]
      exact h
  refine ⟨s, hs, hout, fun ha => ?_, fun hB => ?_⟩
  · rw [ha] at hout
    simpa using hout
  · have h := hnormal (run_exit_normal e hF hL hw pf P hB fuel hfuel s hs)
    refine ⟨h, fun ha => ?_⟩
    rw [ha] at h
    simpa using h

/-- The stereo stream (amplification 2, identity engine, prefeed on with a
budget of 5 frames): every written sample is twice the source sample. -/
theorem C8_merge_asymmetry_witness :
    (0 < stereo.rnnoise_frame_size ∧ stereo.rnnoise_frame_size ≤ stereo.input_frames ∧
      1 ≤ stereo.channels ∧ writes_succeed stereo ∧ identity_engine stereo ∧
      2 * normal_iterations stereo + 1 < 8 ∧ budget_in_range stereo true 5) ∧
    ∃ s, run stereo true 5 8 = some s ∧
      s.output_file = (List.range 16).map (fun t => 2 * ((t : ℚ) + 1)) :=
  ⟨⟨by decide, by decide, by decide, fun _ _ => rfl, fun _ _ _ _ => rfl, by decide,
      fun _ => by decide⟩,
    (C8_merge_asymmetry stereo (by decide) (by decide) (by decide) (fun _ _ => rfl)
      (fun _ _ _ _ => rfl) true 5 8 (by decide)).2.2.imp
        (fun _ h => ⟨h.1, (h.2.2.2 (fun _ => by decide)).1⟩)⟩

end claims

end DenoiseIt

namespace DenoiseIt

section claims

variable {σ : Type} (e : Env σ)

theorem pass_windows_length (pf : Bool) (n : Nat) : (pass_windows e pf n).length = n := by
  simp [pass_windows]

theorem pass_windows_filter_same (pf : Bool) (n : Nat) :
    (pass_windows e pf n).filter (fun w => w.prefeeding == pf) = pass_windows e pf n := by
  apply List.filter_eq_self.2
  intro w hw
  unfold pass_windows at hw
  obtain ⟨k, -, rfl⟩ := List.mem_map.1 hw
  simp

theorem pass_windows_filter_other (pf other : Bool) (h : pf ≠ other) (n : Nat) :
    (pass_windows e pf n).filter (fun w => w.prefeeding == other) = [] := by
  apply List.filter_eq_nil_iff.2
  intro w hw
  unfold pass_windows at hw
  obtain ⟨k, -, rfl⟩ := List.mem_map.1 hw
  simpa using h

/-- C9 (termination), evaluated on the code.  Take `L ≥ F > 0` (`L` an
`sf_count_t`), any channel count and amplification factor, and all writes
succeeding.  The main loop terminates for every prefeed setting and every
value the 64-bit counter may be started with: with more fuel than
`2 * ceil(L/F) + 1` the run returns, and on exit no write has failed and the
cursor equals `L`.  When the counter holds a budget `P ≥ 0`, the loop goes
round at each of the first `K + ceil(L/F)` loop heads, where `K` is the number
of prefeed iterations (zero when prefeed is off), and stops at the next one;
on exit the phase is NORMAL, and exactly `ceil(L/F)` of the iterations were
NORMAL and `K` were PREFEEDING.  But when the requested duration times the
sample rate is `2^63` or more, line 171 stores `SF_COUNT_MIN`, the first
decrement of line 232 wraps to a value above zero and the budget never reaches
zero: the loop exits while still prefeeding, after `ceil(L/F)` PREFEEDING
iterations and no NORMAL one. -/
theorem C9_termination_overflow (hF : 0 < e.rnnoise_frame_size)
    (hL : e.rnnoise_frame_size ≤ e.input_frames)
    (hL64 : (e.input_frames : Int) < 2 ^ 63) (hw : writes_succeed e) (fuel : Nat)
    (hfuel : 2 * ceil_div e.input_frames e.rnnoise_frame_size + 1 < fuel) :
    (∀ (pf : Bool) (P : Int), ∃ s, run e pf P fuel = some s ∧
      loop_cond e s = false ∧ s.failed = false ∧ s.current_frame = e.input_frames) ∧
    (∀ (pf : Bool) (P : Int), budget_in_range e pf P →
      (∀ j, j < prefeed_count e pf P + ceil_div e.input_frames e.rnnoise_frame_size →
        loop_cond e ((body e)^[j] (init e pf P)) = true) ∧
      ∃ s, run e pf P fuel = some s ∧
        s = (body e)^[prefeed_count e pf P + ceil_div e.input_frames e.rnnoise_frame_size]
          (init e pf P) ∧
        loop_cond e s = false ∧
        s.current_frame = e.input_frames ∧ s.is_prefeeding = false ∧ s.failed = false ∧
        s.windows.length =
          prefeed_count e pf P + ceil_div e.input_frames e.rnnoise_frame_size ∧
        (s.windows.filter (fun w => w.prefeeding == false)).length =
          ceil_div e.input_frames e.rnnoise_frame_size ∧
        (s.windows.filter (fun w => w.prefeeding == true)).length = prefeed_count e pf P) ∧
    (∀ secs : ℚ, (2 : ℚ) ^ 63 ≤ secs * 48000 →
      (∀ j, j < ceil_div e.input_frames e.rnnoise_frame_size →
        loop_cond e ((body e)^[j] (entry e secs)) = true ∧
        ((body e)^[j] (entry e secs)).is_prefeeding = true) ∧
      ∃ s, main_run e secs fuel = some s ∧
        s = (body e)^[ceil_div e.input_frames e.rnnoise_frame_size] (entry e secs) ∧
        loop_cond e s = false ∧
        s.current_frame = e.input_frames ∧ s.is_prefeeding = true ∧ s.failed = false ∧
        s.windows.length = ceil_div e.input_frames e.rnnoise_frame_size ∧
        (s.windows.filter (fun w => w.prefeeding == false)).length = 0 ∧
        (s.windows.filter (fun w => w.prefeeding == true)).length =
          ceil_div e.input_frames e.rnnoise_frame_size) := by
  change 2 * normal_iterations e + 1 < fuel at hfuel
  change (∀ (pf : Bool) (P : Int), _) ∧
    (∀ (pf : Bool) (P : Int), budget_in_range e pf P →
      (∀ j, j < prefeed_count e pf P + normal_iterations e → _) ∧
      ∃ s, _ ∧ s = (body e)^[prefeed_count e pf P + normal_iterations e] (init e pf P) ∧ _ ∧ _
        ∧ _ ∧ _ ∧ s.windows.length = prefeed_count e pf P + normal_iterations e ∧
        (s.windows.filter (fun w => w.prefeeding == false)).length = normal_iterations e ∧ _) ∧
    (∀ secs : ℚ, _ →
      (∀ j, j < normal_iterations e → _) ∧
      ∃ s, _ ∧ s = (body e)^[normal_iterations e] (entry e secs) ∧ _ ∧ _ ∧ _ ∧ _ ∧
        s.windows.length = normal_iterations e ∧ _ ∧
        (s.windows.filter (fun w => w.prefeeding == true)).length = normal_iterations e)
  refine ⟨fun pf P => ?_, fun pf P hB => ⟨fun j hj => run_loop_cond e hF hL hw pf P hB j hj, ?_⟩,
    fun secs hsecs => ?_⟩
  · obtain ⟨s, hs, -, hok, hcur⟩ := run_returns e hF hL hw pf P fuel hfuel
    exact ⟨s, hs, by simp [loop_cond, hcur], hok, hcur⟩
  · have hle := prefeed_count_le e hF hL pf P
    obtain ⟨s, hs, hsd, hph, hok, hcur, -, -, hws, -⟩ :=
      run_final e hF hL hw pf P hB fuel (by omega)
    refine ⟨s, hs, hsd, by simp [loop_cond, hcur], hcur, hph, hok, ?_, ?_, ?_⟩
    · rw [hws, List.length_append, pass_windows_length, pass_windows_length]
    · rw [hws, List.filter_append, pass_windows_filter_same e false,
        pass_windows_filter_other e true false (by decide), List.nil_append,
        pass_windows_length]
    · rw [hws, List.filter_append, pass_windows_filter_same e true,
        pass_windows_filter_other e false true (by decide), List.append_nil,
        pass_windows_length]
  · obtain ⟨-, hentry⟩ := entry_overflow e secs hsecs
    obtain ⟨hrun, hhead, hcur⟩ := overflow_run e hF hL hL64 fuel (by omega)
    have hlh : ∀ j, (body e)^[j] (init e true SF_COUNT_MIN)
        = loop_head e true SF_COUNT_MIN j := fun _ => rfl
    rw [hentry]
    simp only [hlh]
    refine ⟨fun j hj => ?_, _, by unfold main_run; rw [hentry]; exact hrun, rfl,
      by simp [loop_cond, hcur], hcur, hhead.phase, hhead.ok, ?_, ?_, ?_⟩
    · have hd := overflow_head e hF hL hL64 j (by omega)
      have hlt : j * e.rnnoise_frame_size < e.input_frames :=
        (lt_ceil_div_iff hF j _).1 hj
      refine ⟨?_, hd.phase⟩
      rw [loop_cond_iff, hd.cursor]
      exact ⟨hd.ok, by omega⟩
    · rw [hhead.windows, pass_windows_length]
    · rw [hhead.windows, pass_windows_filter_other e true false (by decide)]
      rfl
    · rw [hhead.windows, pass_windows_filter_same e true, pass_windows_length]

/-- The scenario of the specification.  With a prefeed budget of 480 frames
the loop is left after `1 + 3` iterations with the cursor at 1000 in the
NORMAL phase.  With `--prefeed 2e14`, whose product with the sample rate is
above `2^63`, the loop is left after 3 iterations with the cursor at 1000,
still in the PREFEEDING phase: no iteration was a NORMAL one. -/
theorem C9_termination_overflow_witness :
    (0 < scenario.rnnoise_frame_size ∧ scenario.rnnoise_frame_size ≤ scenario.input_frames ∧
      (scenario.input_frames : Int) < 2 ^ 63 ∧ writes_succeed scenario ∧
      2 * ceil_div scenario.input_frames scenario.rnnoise_frame_size + 1 < 8 ∧
      budget_in_range scenario true 480 ∧
      (2 : ℚ) ^ 63 ≤ 200000000000000 * 48000) ∧
    (∃ s, run scenario true 480 8 = some s ∧ s.current_frame = 1000 ∧
      s.is_prefeeding = false ∧ s.windows.length = 4) ∧
    ∃ s, main_run scenario 200000000000000 8 = some s ∧ s.current_frame = 1000 ∧
      s.is_prefeeding = true ∧ s.windows.length = 3 ∧
      (s.windows.filter (fun w => w.prefeeding == false)).length = 0 := by
  have hsecs : (2 : ℚ) ^ 63 ≤ 200000000000000 * 48000 := by norm_num
  obtain ⟨-, hin, hover⟩ :=
    C9_termination_overflow scenario (by decide) (by decide) (by decide) (fun _ _ => rfl) 8
      (by decide)
  obtain ⟨-, s, hs, -, -, hcur, hph, -, hlen, -⟩ := hin true 480 (fun _ => by decide)
  obtain ⟨-, s1, hs1, -, -, hcur1, hph1, -, hlen1, hnorm1, -⟩ := hover 200000000000000 hsecs
  exact ⟨⟨by decide, by decide, by decide, fun _ _ => rfl, by decide, fun _ => by decide, hsecs⟩,
    ⟨s, hs, hcur, hph, by rw [hlen]; decide⟩,
    s1, hs1, hcur1, hph1, by rw [hlen1]; decide, hnorm1⟩

end claims

end DenoiseIt

namespace DenoiseIt

section claims

/-- C10, as stated, fails: with a seekable input at 48000 Hz of valid format
and 1000 sample-frames (engine frame size 480) all four checks pass, yet when
the output cannot be opened the program returns -1 and the loop does not
run. -/
theorem C10_input_validation_counterexample :
    (∃ info, unwritable_output.input_open = some info ∧ info.seekable ≠ 0 ∧
      info.samplerate = RNNOISE_SAMPLE_RATE ∧ unwritable_output.sf_format_check ≠ 0 ∧
      ¬ unwritable_output.seek_end < 480) ∧
    startup 480 unwritable_output = Startup.exit (-1) true ∧
    ¬ ∃ L, startup 480 unwritable_output = Startup.enter_loop L := by
  refine ⟨⟨_, rfl, by decide, by decide, by decide, by decide⟩, by decide, ?_⟩
  rintro ⟨L, h⟩
  have h2 : startup 480 unwritable_output = Startup.exit (-1) true := by decide
  rw [h2] at h
  exact Startup.noConfusion h

/-- C10 (input validation), amended.  For an input that has been opened: if
it is not seekable, or its sample rate differs from 48000, or the format check
fails, or its length in sample-frames is less than the engine frame size `F`,
the program returns -1 without having called `sf_open` on the output path.
When all four checks pass, `sf_open` is called on the output path; if it
succeeds the main loop is entered with `L ≥ F`, and if it fails the program
returns -1. -/
theorem C10_input_validation (F : Int) (f : Files) (info : SF_INFO)
    (hopen : f.input_open = some info) :
    ((info.seekable = 0 ∨ info.samplerate ≠ 48000 ∨ f.sf_format_check = 0 ∨ f.seek_end < F) →
      startup F f = Startup.exit (-1) false ∧ (-1 : Int) ≠ 0) ∧
    (¬ (info.seekable = 0 ∨ info.samplerate ≠ 48000 ∨ f.sf_format_check = 0
        ∨ f.seek_end < F) →
      startup F f ≠ Startup.exit (-1) false ∧
      (f.output_open = true → startup F f = Startup.enter_loop f.seek_end ∧ F ≤ f.seek_end) ∧
      (f.output_open = false → startup F f = Startup.exit (-1) true)) := by
  constructor
  · intro h
    refine ⟨?_, by decide⟩
    simp only [startup, hopen, RNNOISE_SAMPLE_RATE]
    rcases h with h | h | h | h
    · simp [h]
    · by_cases h1 : info.seekable = 0 <;> simp [h, h1]
    · by_cases h1 : info.seekable = 0 <;> by_cases h2 : info.samplerate = 48000 <;>
        simp [h, h1, h2]
    · by_cases h1 : info.seekable = 0 <;> by_cases h2 : info.samplerate = 48000 <;>
        by_cases h3 : f.sf_format_check = 0 <;> simp [h, h1, h2, h3]
  · intro h
    simp only [not_or, not_not, not_lt] at h
    obtain ⟨h1, h2, h3, h4⟩ := h
    have h5 : ¬ f.seek_end < F := by omega
    cases ho : f.output_open with
    | true => simp [startup, hopen, RNNOISE_SAMPLE_RATE, h1, h2, h3, h4, h5, ho]
    | false => simp [startup, hopen, RNNOISE_SAMPLE_RATE, h1, h2, h3, h5, ho]

/-- A valid input with an output that opens enters the loop with `L = 1000`
for `F = 480`; the same input at 44100 Hz returns -1 before the output is
opened. -/
theorem C10_input_validation_witness :
    (good_files.input_open = some ⟨48000, 1, 1⟩ ∧
      startup 480 good_files = Startup.enter_loop 1000 ∧ (480 : Int) ≤ 1000) ∧
    (wrong_rate.input_open = some ⟨44100, 1, 1⟩ ∧
      startup 480 wrong_rate = Startup.exit (-1) false) :=
  ⟨⟨rfl, ((C10_input_validation 480 good_files ⟨48000, 1, 1⟩ rfl).2 (by decide)).2.1 rfl⟩,
    ⟨rfl, ((C10_input_validation 480 wrong_rate ⟨44100, 1, 1⟩ rfl).1
      (Or.inr (Or.inl (by decide)))).1⟩⟩

end claims

end DenoiseIt

namespace DenoiseIt

section claims

variable {σ : Type} (e : Env σ)

/-- An iteration whose write succeeds, or that is in the prefeed phase, does
not depend on what other writes would return. -/
theorem body_good_writes (s : LoopState σ)
    (h : s.is_prefeeding = true ∨
      e.sf_writef_float s.writes.length (write_frames e s) = (write_frames e s : Int)) :
    body e s = body (with_good_writes e) s := by
  rcases h with h | h
  · rw [body_prefeed e s h, body_prefeed (with_good_writes e) s h]
    rfl
  · cases hp : s.is_prefeeding with
    | true =>
      rw [body_prefeed e s hp, body_prefeed (with_good_writes e) s hp]
      rfl
    | false =>
      rw [body_normal e s hp h, body_normal (with_good_writes e) s hp rfl]
      rfl

theorem pass_writes_length (n : Nat) : (pass_writes e n).length = n := by
  simp [pass_writes]

/-- While the writes so far have succeeded, the loop heads are those of the
run on an output where every write succeeds. -/
theorem loop_head_good_writes (hF : 0 < e.rnnoise_frame_size)
    (hL : e.rnnoise_frame_size ≤ e.input_frames) (pf : Bool) (P : Int)
    (hB : budget_in_range e pf P) (m : Nat)
    (hm : m ≤ normal_iterations e)
    (hgood : ∀ k n : Nat, k < m → e.sf_writef_float k n = (n : Int)) (j : Nat)
    (hj : j ≤ prefeed_count e pf P + m) :
    loop_head e pf P j = loop_head (with_good_writes e) pf P j := by
  induction j with
  | zero => rfl
  | succ j ih =>
    have ih := ih (by omega)
    have hstep : loop_head e pf P (j + 1) = body e (loop_head e pf P j) :=
      Function.iterate_succ_apply' _ _ _
    have hstepg : loop_head (with_good_writes e) pf P (j + 1)
        = body (with_good_writes e) (loop_head (with_good_writes e) pf P j) :=
      Function.iterate_succ_apply' _ _ _
    rw [hstep, hstepg, ih]
    apply body_good_writes
    by_cases hjk : j < prefeed_count e pf P
    · left
      cases pf with
      | false => simp [prefeed_count] at hjk
      | true =>
        exact (prefeed_head (with_good_writes e) hF hL P (hB rfl).1 (hB rfl).2.2 j
          (by simpa [prefeed_count] using hjk)).phase
    · right
      obtain ⟨i, rfl⟩ : ∃ i, j = prefeed_count e pf P + i :=
        ⟨j - prefeed_count e pf P, by omega⟩
      have h := run_normal_head (with_good_writes e) hF hL (fun _ _ => rfl) pf P hB i
        (by show i ≤ normal_iterations e; omega)
      have hlen : (loop_head (with_good_writes e) pf P (prefeed_count e pf P + i)).writes.length
          = i := by
        show ((body (with_good_writes e))^[prefeed_count (with_good_writes e) pf P + i]
          (init (with_good_writes e) pf P)).writes.length = i
        rw [h.writes, pass_writes_length]
      rw [hlen]
      exact hgood i _ (by omega)

/-- C11 (a short write is fatal).  In any state, a NORMAL iteration whose
write returns a frame count different from `write_frames` sets the failure
flag: the loop is left at once and `main` returns -1.  So, for every prefeed
setting and every value the 64-bit counter is started with: when the loop has
gone round at the loop heads `0 .. j`, the head `j` is in the NORMAL phase and
the write of its iteration is short, the run returns right after that
iteration, with exit code -1; of that iteration it has logged the window and
the write, and no later window is read, handed to an engine, or written.  In
closed form, for a run with `L ≥ F > 0` and a budget in range, whose writes
`0 .. m-1` succeed and whose `m`-th write (one the normal pass issues,
`m < ceil(L/F)`) is short: the write log is that of the first `m + 1` normal
iterations, the window log that of the prefeed phase and the first `m + 1`
normal iterations, and the cursor is where iteration `m` found it. -/
theorem C11_short_write_fatal (hF : 0 < e.rnnoise_frame_size)
    (hL : e.rnnoise_frame_size ≤ e.input_frames) (pf : Bool) (P : Int) (m : Nat)
    (hm : m < normal_iterations e)
    (hgood : ∀ k n : Nat, k < m → e.sf_writef_float k n = (n : Int))
    (hshort : e.sf_writef_float m (write_op_at e (m * e.rnnoise_frame_size)).write_frames
      ≠ ((write_op_at e (m * e.rnnoise_frame_size)).write_frames : Int))
    (fuel : Nat) (hfuel : prefeed_count e pf P + m + 1 < fuel) :
    (∀ s : LoopState σ, s.is_prefeeding = false →
      e.sf_writef_float s.writes.length (write_frames e s) ≠ (write_frames e s : Int) →
      (body e s).failed = true ∧ loop_cond e (body e s) = false ∧
      exit_code (body e s) = -1) ∧
    (budget_in_range e pf P →
      ∃ s, run e pf P fuel = some s ∧
        s = body e (loop_head e pf P (prefeed_count e pf P + m)) ∧
        s.failed = true ∧ exit_code s = -1 ∧ exit_code s ≠ 0 ∧
        s.writes = pass_writes e (m + 1) ∧
        s.windows = pass_windows e true (prefeed_count e pf P)
          ++ pass_windows e false (m + 1) ∧
        s.current_frame = m * e.rnnoise_frame_size) ∧
    (∀ (Q : Int) (j n : Nat), (∀ i, i ≤ j → loop_cond e (loop_head e pf Q i) = true) →
      (loop_head e pf Q j).is_prefeeding = false →
      e.sf_writef_float (loop_head e pf Q j).writes.length
          (write_frames e (loop_head e pf Q j))
        ≠ (write_frames e (loop_head e pf Q j) : Int) →
      j + 1 < n →
      ∃ s, run e pf Q n = some s ∧ s = body e (loop_head e pf Q j) ∧
        s.failed = true ∧ exit_code s = -1 ∧
        s.current_frame = (loop_head e pf Q j).current_frame ∧
        s.windows = (loop_head e pf Q j).windows ++
          [⟨false, read_pos e (loop_head e pf Q j),
            sf_read_count e (read_pos e (loop_head e pf Q j)) e.rnnoise_frame_size⟩] ∧
        s.writes = (loop_head e pf Q j).writes ++
          [⟨write_from e (loop_head e pf Q j), write_frames e (loop_head e pf Q j),
            read_pos e (loop_head e pf Q j)⟩]) := by
  refine ⟨?_, fun hB => ?_, fun Q j n hgo hp hs hn => ?_⟩
  · intro s hp hs
    have h := (body_short e s hp hs).1
    simp [loop_cond, exit_code, h]
  · have hagree := loop_head_good_writes e hF hL pf P hB m (by omega) hgood
    have hd := run_normal_head (with_good_writes e) hF hL (fun _ _ => rfl) pf P hB m
      (by show m ≤ normal_iterations e; omega)
    have hwin0 := (normal_start (with_good_writes e) hF hL pf P hB).2
    change NormalHead (with_good_writes e) _
      (loop_head (with_good_writes e) pf P (prefeed_count e pf P + m)) m at hd
    rw [← hagree _ (le_refl _)] at hd
    have hlt : m * e.rnnoise_frame_size < e.input_frames :=
      (lt_ceil_div_iff hF m _).1 hm
    have hcur : (loop_head e pf P (prefeed_count e pf P + m)).current_frame
        = m * e.rnnoise_frame_size := by
      rw [hd.cursor]; show min (m * e.rnnoise_frame_size) e.input_frames = _; omega
    obtain ⟨hr, hcnt, hwf, hfrom⟩ := schedule_at e _ hL hd.pos (by rw [hcur]; exact hlt)
    rw [hcur] at hr hwf hfrom
    rw [hr] at hcnt
    have hlen : (loop_head e pf P (prefeed_count e pf P + m)).writes.length = m := by
      rw [hd.writes]; exact pass_writes_length e m
    obtain ⟨hfail, hc, -, hws, hwr⟩ := body_short e _ hd.phase
      (by rw [hlen, hwf]; exact hshort)
    have hlast : (body e)^[prefeed_count e pf P + m + 1] (init e pf P)
        = body e (loop_head e pf P (prefeed_count e pf P + m)) :=
      Function.iterate_succ_apply' _ _ _
    refine ⟨_, ?_, rfl, hfail, by simp [exit_code, hfail], by simp [exit_code, hfail], ?_, ?_,
      by rw [hc, hcur]⟩
    · rw [← hlast]
      unfold run
      refine main_loop_iterate e _ _ (fun j hj => ?_) ?_ fuel hfuel
      · have h1 : (body e)^[j] (init e pf P) = loop_head (with_good_writes e) pf P j :=
          hagree j (by omega)
        rw [h1]
        exact run_loop_cond (with_good_writes e) hF hL (fun _ _ => rfl) pf P hB j
          (by show j < prefeed_count e pf P + normal_iterations e; omega)
      · rw [hlast]; simp [loop_cond, hfail]
    · rw [hwr, hd.writes, pass_writes_succ, hfrom, hwf, hr]
      rfl
    · rw [hws, hd.windows, hwin0, pass_windows_succ, hr, hcnt, List.append_assoc]
      rfl
  · obtain ⟨hfail, hc, -, hws, hwr⟩ := body_short e _ hp hs
    have hlast : (body e)^[j + 1] (init e pf Q) = body e (loop_head e pf Q j) :=
      Function.iterate_succ_apply' _ _ _
    refine ⟨_, ?_, rfl, hfail, by simp [exit_code, hfail], hc, hws, hwr⟩
    rw [← hlast]
    unfold run
    refine main_loop_iterate e _ _ (fun i hi => hgo i (by omega)) ?_ n hn
    rw [hlast]; simp [loop_cond, hfail]

/-- The scenario of the specification on a full disk, the second write short:
the run returns -1 after two windows and two writes, with the cursor still at
480. -/
theorem C11_short_write_fatal_witness :
    (0 < short_write.rnnoise_frame_size ∧
      short_write.rnnoise_frame_size ≤ short_write.input_frames ∧
      1 < normal_iterations short_write ∧
      (∀ k n : Nat, k < 1 → short_write.sf_writef_float k n = (n : Int)) ∧
      short_write.sf_writef_float 1
        (write_op_at short_write (1 * short_write.rnnoise_frame_size)).write_frames
        ≠ ((write_op_at short_write (1 * short_write.rnnoise_frame_size)).write_frames : Int) ∧
      prefeed_count short_write false 0 + 1 + 1 < 5) ∧
    ∃ s, run short_write false 0 5 = some s ∧ exit_code s = -1 ∧
      s.writes = [⟨0, 480, 0⟩, ⟨0, 480, 480⟩] ∧
      s.windows = [⟨false, 0, 480⟩, ⟨false, 480, 480⟩] ∧
      s.current_frame = 480 := by
  have hg : ∀ k n : Nat, k < 1 → short_write.sf_writef_float k n = (n : Int) := by
    intro k n hk
    have : k = 0 := by omega
    subst this
    rfl
  obtain ⟨s, hs, -, -, hx, -, hwr, hws, hcur⟩ :=
    (C11_short_write_fatal short_write (by decide) (by decide) false 0 1 (by decide) hg
      (by decide) 5 (by decide)).2.1 (budget_off short_write 0)
  refine ⟨⟨by decide, by decide, by decide, hg, by decide, by decide⟩, s, hs, hx, ?_, ?_, ?_⟩
  · rw [hwr]; decide
  · rw [hws]; decide
  · rw [hcur]; decide

end claims

end DenoiseIt

namespace DenoiseIt

section claims

/-- C12 (invalid option values), evaluated on the code.  The text `abc` has no
subject sequence, so `strtof` returns zero and leaves `errno` at the zero found
on entry; the test `errno != 0` of lines 71 and 81 then does not fire: the case
of `--amplify` goes on with an amplification factor of zero, the case of
`--prefeed` with zero seconds, and neither returns.  The same holds for every
text without a subject sequence; the test fires only when the value is out of
range. -/
theorem C12_invalid_option_accepted (m : Strtof) :
    has_subject "abc" = false ∧
    option_amplify m "abc" default_options =
      Except.ok { amplify_factor := 0, prefeed_seconds := 0, errno := 0 } ∧
    option_prefeed m "abc" default_options =
      Except.ok { amplify_factor := 1, prefeed_seconds := 0, errno := 0 } ∧
    (∀ (arg : String) (o : Options), has_subject arg = false → o.errno = 0 →
      option_amplify m arg o = Except.ok { o with amplify_factor := 0 } ∧
      option_prefeed m arg o = Except.ok { o with prefeed_seconds := 0 }) ∧
    (∀ (arg : String) (o : Options), has_subject arg = true → m.out_of_range arg = true →
      option_amplify m arg o = Except.error (-1) ∧
      option_prefeed m arg o = Except.error (-1)) := by
  have habc : has_subject "abc" = false := by decide
  refine ⟨habc, ?_, ?_, ?_, ?_⟩
  · simp [option_amplify, strtof, habc, default_options]
  · simp [option_prefeed, strtof, habc, default_options]
  · intro arg o h1 h2
    simp [option_amplify, option_prefeed, strtof, h1, h2]
  · intro arg o h1 h2
    simp [option_amplify, option_prefeed, strtof, h1, h2, ERANGE]

end claims

end DenoiseIt

namespace DenoiseIt

section claims

variable {σ : Type} (e : Env σ)

/-- On a silent stream a zero engine leaves zero in every slot of `full_frame`
after a normal iteration whose window was read in full. -/
theorem frame_silent (hsil : silent_input e) (hz : zero_engine e) (s : LoopState σ)
    (hp : s.is_prefeeding = false)
    (hcnt : sf_read_count e (read_pos e s) e.rnnoise_frame_size = e.rnnoise_frame_size)
    (j : Nat) (hj : j < e.rnnoise_frame_size * e.channels) :
    (body e s).full_frame j = 0 := by
  have hN : 0 < e.channels := by
    rcases Nat.eq_zero_or_pos e.channels with h | h
    · rw [h] at hj; omega
    · exact h
  have hi : j % e.channels < e.channels := Nat.mod_lt _ hN
  have hs : j / e.channels < e.rnnoise_frame_size :=
    Nat.div_lt_of_lt_mul (by rw [Nat.mul_comm]; exact hj)
  have hdec : j % e.channels + j / e.channels * e.channels = j := by
    rw [Nat.add_comm]; exact Nat.div_add_mod' _ _
  have h := body_merged e s hp (j % e.channels) (j / e.channels) hi hs
  rw [hdec] at h
  rw [h, engine_output, hz _ _ _ _ hs]
  · simp
  · intro t ht
    unfold channel_entry
    rw [engine_input_fresh e _ _ _ hi, engine_input, split_channel_apply, if_pos ht]
    show sf_readf_float e (read_pos e s) s.full_frame e.rnnoise_frame_size _ * 32768
      * e.amplify_factor = 0
    rw [sf_readf_float_full e _ _ _ hcnt (interleave_lt hi ht), hsil]
    simp

/-- On a silent stream with a zero engine, every sample in the output is zero
at every loop head, for every prefeed setting, every stored budget and
whatever the writes return. -/
theorem loop_head_silent (hL : e.rnnoise_frame_size ≤ e.input_frames)
    (hsil : silent_input e) (hz : zero_engine e) (pf : Bool) (P : Int) (s : LoopState σ)
    (h : LoopHead e pf P s) : ∀ x, x ∈ s.output_file → x = 0 := by
  induction h with
  | entry => intro x hx; simp [init] at hx
  | next s hs hc ih =>
    have hc2 := (loop_cond_iff e s).1 hc
    obtain ⟨-, hcnt, hwf, hfrom⟩ :=
      schedule_at e s hL (loop_head_pos e hL pf P s hs hc2.1).1 hc2.2
    cases hps : s.is_prefeeding with
    | true =>
      rw [body_prefeed e s hps]
      exact ih
    | false =>
      intro x hx
      rw [body_output e s hps, List.mem_append] at hx
      rcases hx with hx | hx
      · exact ih x hx
      · unfold written_samples at hx
        obtain ⟨t, ht, rfl⟩ := List.mem_map.1 hx
        rw [List.mem_range] at ht
        apply frame_silent e hsil hz s hps hcnt
        have e1 : (e.rnnoise_frame_size
              - min e.rnnoise_frame_size (e.input_frames - s.current_frame)) * e.channels
            + min e.rnnoise_frame_size (e.input_frames - s.current_frame) * e.channels
            = e.rnnoise_frame_size * e.channels := by
          rw [← Nat.add_mul]; congr 1; omega
        have hle : min (write_frames e s)
              (e.sf_writef_float s.writes.length (write_frames e s)).toNat * e.channels
            ≤ min e.rnnoise_frame_size (e.input_frames - s.current_frame) * e.channels := by
          apply Nat.mul_le_mul_right
          rw [← hwf]
          exact Nat.min_le_left _ _
        rw [hfrom]
        simp only [write_op_at]
        omega

/-- C13 (silence in, silence out).  Take a stream of `L ≥ F > 0` sample-frames
whose samples are all zero, an engine that answers a zero frame with a zero
frame, any channel count, any amplification factor, any prefeed setting and
any value of the 64-bit counter.  At every loop head every sample written so
far is zero, whatever the writes return; so every sample written by a run
that returns is zero.  With all writes succeeding the run does return, and
when the counter holds a budget `P ≥ 0` it has then written `L * N` samples,
every one of them zero. -/
theorem C13_silence (hF : 0 < e.rnnoise_frame_size)
    (hL : e.rnnoise_frame_size ≤ e.input_frames)
    (hsil : silent_input e) (hz : zero_engine e) (pf : Bool) (P : Int) :
    (∀ s : LoopState σ, LoopHead e pf P s → ∀ x, x ∈ s.output_file → x = 0) ∧
    (∀ (fuel : Nat) (s : LoopState σ), run e pf P fuel = some s →
      ∀ x, x ∈ s.output_file → x = 0) ∧
    (writes_succeed e → ∀ fuel : Nat, 2 * normal_iterations e + 1 < fuel →
      ∃ s, run e pf P fuel = some s ∧
        (∀ x, x ∈ s.output_file → x = 0) ∧
        s.output_file = List.replicate s.output_file.length 0 ∧
        (budget_in_range e pf P →
          s.output_file.length = e.input_frames * e.channels ∧
          s.output_file = List.replicate (e.input_frames * e.channels) 0)) := by
  have hinv := loop_head_silent e hL hsil hz pf P
  refine ⟨hinv, fun fuel s hs => ?_, fun hw fuel hfuel => ?_⟩
  · exact hinv s (main_loop_result e pf P fuel _ s LoopHead.entry hs).1
  · obtain ⟨s, hs, hh, -, -⟩ := run_returns e hF hL hw pf P fuel hfuel
    have hzero := hinv s hh
    refine ⟨s, hs, hzero, List.eq_replicate_iff.2 ⟨rfl, hzero⟩, fun hB => ?_⟩
    have hle := prefeed_count_le e hF hL pf P
    obtain ⟨s1, hs1, -, -, -, -, -, -, -, hlen⟩ :=
      run_final e hF hL hw pf P hB fuel (by omega)
    rw [hs] at hs1
    rw [← Option.some.inj hs1] at hlen
    refine ⟨hlen, ?_⟩
    rw [← hlen]
    exact List.eq_replicate_iff.2 ⟨rfl, hzero⟩

/-- The silent stereo stream with amplification 3 and prefeed on with a budget
of 5 frames: 16 samples are written, all zero. -/
theorem C13_silence_witness :
    (0 < silence.rnnoise_frame_size ∧ silence.rnnoise_frame_size ≤ silence.input_frames ∧
      silent_input silence ∧ zero_engine silence ∧ writes_succeed silence ∧
      2 * normal_iterations silence + 1 < 8 ∧ budget_in_range silence true 5) ∧
    ∃ s, run silence true 5 8 = some s ∧ s.output_file = List.replicate 16 0 :=
  ⟨⟨by decide, by decide, fun _ => rfl, fun _ _ h s hs => h s hs, fun _ _ => rfl, by decide,
      fun _ => by decide⟩,
    ((C13_silence silence (by decide) (by decide) (fun _ => rfl)
      (fun _ _ h s hs => h s hs) true 5).2.2 (fun _ _ => rfl) 8 (by decide)).imp
        (fun _ h => ⟨h.1, (h.2.2.2 (fun _ => by decide)).2⟩)⟩

end claims

end DenoiseIt

namespace DenoiseIt

section claims

variable {σ : Type} (e : Env σ)

/-- C14 (writes are trailing sub-ranges inside the buffer).  In any iteration,
that is in any state with the cursor before the end of a stream of
`L ≥ F > 0` sample-frames with `N ≥ 1` channels: `1 ≤ write_frames ≤ F`;
`write_from` is `(F - write_frames) * N` computed without going below zero,
and `write_from + write_frames * N = F * N`, so the slice written lies in the
buffer of `F * N` samples and ends at its end; the tail window is read at
`L - F ≥ 0`.  In the NORMAL phase, when the write succeeds, the cursor
advances by `write_frames` and `write_frames * N` samples are appended to the
output: the last that many of `full_frame`. -/
theorem C14_write_range (s : LoopState σ) (hF : 0 < e.rnnoise_frame_size)
    (hL : e.rnnoise_frame_size ≤ e.input_frames) (hN : 1 ≤ e.channels)
    (hc : s.current_frame < e.input_frames) :
    1 ≤ write_frames e s ∧ write_frames e s ≤ e.rnnoise_frame_size ∧
    (write_from e s : Int) =
      ((e.rnnoise_frame_size : Int) - (write_frames e s : Int)) * (e.channels : Int) ∧
    0 ≤ (e.rnnoise_frame_size : Int) - (write_frames e s : Int) ∧
    write_from e s + write_frames e s * e.channels = e.rnnoise_frame_size * e.channels ∧
    write_from e s < e.rnnoise_frame_size * e.channels ∧
    0 ≤ (e.input_frames : Int) - (e.rnnoise_frame_size : Int) ∧
    (is_tail e s = true →
      (read_pos e s : Int) = (e.input_frames : Int) - (e.rnnoise_frame_size : Int)) ∧
    (s.is_prefeeding = false →
      e.sf_writef_float s.writes.length (write_frames e s) = (write_frames e s : Int) →
      (body e s).current_frame = s.current_frame + write_frames e s ∧
      (body e s).output_file.length = s.output_file.length + write_frames e s * e.channels ∧
      (body e s).output_file = s.output_file ++
        (List.range (write_frames e s * e.channels)).map (fun t =>
          (body e s).full_frame
            (e.rnnoise_frame_size * e.channels - write_frames e s * e.channels + t))) := by
  have hwf1 : 1 ≤ write_frames e s := by
    unfold write_frames is_tail; split_ifs <;> omega
  have hwf2 : write_frames e s ≤ e.rnnoise_frame_size := by
    unfold write_frames is_tail
    split_ifs with h
    · simp only [gt_iff_lt, decide_eq_true_eq] at h; omega
    · omega
  have hfrom : write_from e s = (e.rnnoise_frame_size - write_frames e s) * e.channels := by
    unfold write_from
    split_ifs with h
    · rfl
    · have : write_frames e s = e.rnnoise_frame_size := by
        unfold write_frames; rw [if_neg h]
      rw [this]; simp
  have hsum : write_from e s + write_frames e s * e.channels
      = e.rnnoise_frame_size * e.channels := by
    rw [hfrom, ← Nat.add_mul]; congr 1; omega
  have hpos : 0 < write_frames e s * e.channels := Nat.mul_pos (by omega) (by omega)
  refine ⟨hwf1, hwf2, ?_, by omega, hsum, by omega, by omega, ?_, ?_⟩
  · rw [hfrom]; push_cast [Nat.cast_sub hwf2]; ring
  · intro ht
    simp only [read_pos, ht, if_true, sf_seek_end, if_pos hL]
    omega
  · intro hp hw
    rw [body_normal e s hp hw]
    refine ⟨rfl, by simp [written_samples], ?_⟩
    simp only [written_samples]
    congr 1
    apply List.map_congr_left
    intro t _
    show (channel_loop e false
      (sf_readf_float e (read_pos e s) s.full_frame e.rnnoise_frame_size, s.state)).1
        (write_from e s + t) = (channel_loop e false
      (sf_readf_float e (read_pos e s) s.full_frame e.rnnoise_frame_size, s.state)).1
        (e.rnnoise_frame_size * e.channels - write_frames e s * e.channels + t)
    have hidx : write_from e s + t
        = e.rnnoise_frame_size * e.channels - write_frames e s * e.channels + t := by
      omega
    rw [hidx]

/-- The scenario of the specification at its tail iteration (cursor and read
position at 960): 40 frames are written, from offset 440 of the window read at
520. -/
theorem C14_write_range_witness :
    (0 < scenario.rnnoise_frame_size ∧ scenario.rnnoise_frame_size ≤ scenario.input_frames ∧
      1 ≤ scenario.channels ∧
      ({ init scenario false 0 with current_frame := 960, input_pos := 960 } :
        LoopState Nat).current_frame < scenario.input_frames) ∧
    write_frames scenario { init scenario false 0 with current_frame := 960, input_pos := 960 }
      = 40 ∧
    write_from scenario { init scenario false 0 with current_frame := 960, input_pos := 960 }
      = 440 ∧
    read_pos scenario { init scenario false 0 with current_frame := 960, input_pos := 960 }
      = 520 ∧
    write_from scenario { init scenario false 0 with current_frame := 960, input_pos := 960 }
      + write_frames scenario
          { init scenario false 0 with current_frame := 960, input_pos := 960 }
        * scenario.channels
      = scenario.rnnoise_frame_size * scenario.channels :=
  ⟨⟨by decide, by decide, by decide, by decide⟩, by decide, by decide, by decide,
    (C14_write_range scenario
      { init scenario false 0 with current_frame := 960, input_pos := 960 }
      (by decide) (by decide) (by decide) (by decide)).2.2.2.2.1⟩

end claims

end DenoiseIt

namespace DenoiseIt

section claims

variable {σ : Type} (e : Env σ)

/-- C15, as stated, fails: in the scenario of the specification with a prefeed
budget of 480 frames the first iteration runs in the PREFEEDING phase with the
cursor at 0 and processes 480 frames, and it leaves the cursor at 0, not at
480. -/
theorem C15_prefeed_cursor_counterexample :
    (init scenario true 480).is_prefeeding = true ∧
    loop_cond scenario (init scenario true 480) = true ∧
    (init scenario true 480).current_frame = 0 ∧
    write_frames scenario (init scenario true 480) = 480 ∧
    (body scenario (init scenario true 480)).current_frame = 0 ∧
    (body scenario (init scenario true 480)).current_frame ≠
      (init scenario true 480).current_frame
        + write_frames scenario (init scenario true 480) := by
  have h := body_prefeed scenario (init scenario true 480) rfl
  have hwf : write_frames scenario (init scenario true 480) = 480 := by decide
  have hstop : wrap64 ((init scenario true 480).prefeed_frames_left
      - (write_frames scenario (init scenario true 480) : Int)) ≤ 0 := by
    rw [hwf]; decide
  have hcur : (body scenario (init scenario true 480)).current_frame = 0 := by
    rw [h]; simp only [if_pos hstop]
  refine ⟨rfl, by decide, rfl, hwf, hcur, ?_⟩
  rw [hcur, hwf]
  decide

/-- C15 (prefeed cursor advance), amended.  An iteration executed in the
PREFEEDING phase writes nothing: write log and output are left as they are.
It takes `write_frames` off the remaining budget, a signed 64-bit counter.
While the budget stays above zero the cursor advances by `write_frames` and
the phase stays PREFEEDING; in the iteration in which the budget reaches zero
or below, the cursor and the read position are instead set back to zero, the
budget is set to zero and the phase becomes NORMAL.  The same is stated twice:
for the difference as the counter holds it, and, when the difference is in the
64-bit range, for the plain difference. -/
theorem C15_prefeed_cursor (s : LoopState σ) (hp : s.is_prefeeding = true) :
    (body e s).writes = s.writes ∧ (body e s).output_file = s.output_file ∧
    (body e s).full_frame =
      sf_readf_float e (read_pos e s) s.full_frame e.rnnoise_frame_size ∧
    (0 < wrap64 (s.prefeed_frames_left - (write_frames e s : Int)) →
      (body e s).current_frame = s.current_frame + write_frames e s ∧
      (body e s).is_prefeeding = true ∧
      (body e s).prefeed_frames_left =
        wrap64 (s.prefeed_frames_left - (write_frames e s : Int))) ∧
    (wrap64 (s.prefeed_frames_left - (write_frames e s : Int)) ≤ 0 →
      (body e s).current_frame = 0 ∧ (body e s).input_pos = 0 ∧
      (body e s).is_prefeeding = false ∧ (body e s).prefeed_frames_left = 0) ∧
    (-(2 ^ 63) ≤ s.prefeed_frames_left - (write_frames e s : Int) →
      s.prefeed_frames_left - (write_frames e s : Int) < 2 ^ 63 →
      (0 < s.prefeed_frames_left - (write_frames e s : Int) →
        (body e s).current_frame = s.current_frame + write_frames e s ∧
        (body e s).is_prefeeding = true ∧
        (body e s).prefeed_frames_left =
          s.prefeed_frames_left - (write_frames e s : Int)) ∧
      (s.prefeed_frames_left - (write_frames e s : Int) ≤ 0 →
        (body e s).current_frame = 0 ∧ (body e s).input_pos = 0 ∧
        (body e s).is_prefeeding = false ∧ (body e s).prefeed_frames_left = 0)) := by
  have hgo : 0 < wrap64 (s.prefeed_frames_left - (write_frames e s : Int)) →
      (body e s).current_frame = s.current_frame + write_frames e s ∧
      (body e s).is_prefeeding = true ∧
      (body e s).prefeed_frames_left =
        wrap64 (s.prefeed_frames_left - (write_frames e s : Int)) := by
    intro h
    have hn : ¬ (wrap64 (s.prefeed_frames_left - (write_frames e s : Int)) ≤ 0) := by omega
    rw [body_prefeed e s hp]
    simp only [if_neg hn]
    exact ⟨trivial, trivial, trivial⟩
  have hstop : wrap64 (s.prefeed_frames_left - (write_frames e s : Int)) ≤ 0 →
      (body e s).current_frame = 0 ∧ (body e s).input_pos = 0 ∧
      (body e s).is_prefeeding = false ∧ (body e s).prefeed_frames_left = 0 := by
    intro h
    rw [body_prefeed e s hp]
    simp only [if_pos h]
    exact ⟨trivial, trivial, trivial, trivial⟩
  refine ⟨?_, ?_, ?_, hgo, hstop, fun h1 h2 => ?_⟩
  · rw [body_prefeed e s hp]
  · rw [body_prefeed e s hp]
  · rw [body_prefeed e s hp]
  · have hw64 := wrap64_eq _ h1 h2
    rw [hw64] at hgo hstop
    exact ⟨hgo, hstop⟩

/-- The scenario of the specification with a prefeed budget of 1000 frames: the
first PREFEEDING iteration writes nothing and moves the cursor from 0 to
480. -/
theorem C15_prefeed_cursor_witness :
    (init scenario true 1000).is_prefeeding = true ∧
    (body scenario (init scenario true 1000)).writes = [] ∧
    (body scenario (init scenario true 1000)).current_frame = 480 := by
  obtain ⟨hwr, -, -, hgo, -, -⟩ := C15_prefeed_cursor scenario (init scenario true 1000) rfl
  have hwf : write_frames scenario (init scenario true 1000) = 480 := by decide
  refine ⟨rfl, hwr, ?_⟩
  rw [(hgo (by rw [hwf]; decide)).1, hwf]
  rfl

end claims

end DenoiseIt

namespace DenoiseIt

section claims

variable {σ : Type} (e : Env σ)

/-- C16 (window read positions).  For a stream that holds at least one engine
frame, at every loop head at which the loop goes round, in both phases and
whatever the writes return, the read position of the input equals the cursor.
So the window of a non-tail iteration (`current_frame + F ≤ L`) is read, without
any seek, from the `F` source frames starting at `current_frame`; the window of
a tail iteration (`current_frame + F > L`) is read from the `F` source frames
starting at `L - F`; in either case all `F` frames are delivered and the buffer
holds the source samples of that window.  The state `loop_head j` is such a
loop head whenever the loop has gone round at the heads before it; with all
writes succeeding and a budget in range these are the states `loop_head j` for
`j` up to the number of iterations of the run. -/
theorem C16_window_positions (hL : e.rnnoise_frame_size ≤ e.input_frames) (pf : Bool)
    (P : Int) (s : LoopState σ) (h : LoopHead e pf P s) (hc : loop_cond e s = true) :
    s.input_pos = s.current_frame ∧
    sf_read_count e (read_pos e s) e.rnnoise_frame_size = e.rnnoise_frame_size ∧
    (s.current_frame + e.rnnoise_frame_size ≤ e.input_frames →
      is_tail e s = false ∧ read_pos e s = s.input_pos ∧ read_pos e s = s.current_frame) ∧
    (e.input_frames < s.current_frame + e.rnnoise_frame_size →
      is_tail e s = true ∧ read_pos e s = e.input_frames - e.rnnoise_frame_size) ∧
    (∀ j, j < e.rnnoise_frame_size * e.channels →
      sf_readf_float e (read_pos e s) s.full_frame e.rnnoise_frame_size j =
        e.input_data (read_pos e s * e.channels + j)) ∧
    (body e s).windows = s.windows ++
      [⟨s.is_prefeeding, window_at e s.current_frame, e.rnnoise_frame_size⟩] ∧
    (0 < e.rnnoise_frame_size → writes_succeed e → budget_in_range e pf P →
      ∀ j, j ≤ prefeed_count e pf P + normal_iterations e →
        LoopHead e pf P (loop_head e pf P j)) ∧
    (∀ j, (∀ i, i < j → loop_cond e (loop_head e pf P i) = true) →
      LoopHead e pf P (loop_head e pf P j)) := by
  have hc2 := hc
  simp only [loop_cond, Bool.and_eq_true, Bool.not_eq_true', decide_eq_true_eq] at hc2
  obtain ⟨hpos, -⟩ := loop_head_pos e hL pf P s h hc2.1
  obtain ⟨hr, hcnt, -, -⟩ := schedule_at e s hL hpos hc2.2
  refine ⟨hpos, hcnt, fun hfit => ?_, fun htail => ?_, fun j hj => ?_, ?_,
    fun hF hw hB j hj => ?_, fun j hj => loop_head_reached e pf P j hj⟩
  · have ht : is_tail e s = false := by simp [is_tail]; omega
    refine ⟨ht, by simp [read_pos, ht], ?_⟩
    rw [hr, window_at, if_pos hfit]
  · have ht : is_tail e s = true := by simp [is_tail]; omega
    refine ⟨ht, ?_⟩
    rw [hr, window_at, if_neg (by omega)]
  · exact sf_readf_float_full e _ _ j hcnt hj
  · rw [body_windows, hcnt, hr]
  · exact loop_head_reached e pf P j
      (fun i hi => run_loop_cond e hF hL hw pf P hB i (by omega))

/-- The scenario of the specification with a prefeed budget of 480 frames: the
state after the prefeed iteration is a loop head at which the loop goes round,
with read position and cursor both rewound to 0. -/
theorem C16_window_positions_witness :
    (scenario.rnnoise_frame_size ≤ scenario.input_frames ∧
      LoopHead scenario true 480 (body scenario (init scenario true 480)) ∧
      loop_cond scenario (body scenario (init scenario true 480)) = true) ∧
    (body scenario (init scenario true 480)).input_pos =
      (body scenario (init scenario true 480)).current_frame ∧
    (body scenario (init scenario true 480)).current_frame = 0 := by
  have hhead : LoopHead scenario true 480 (body scenario (init scenario true 480)) :=
    LoopHead.next _ LoopHead.entry (by decide)
  have hcur : (body scenario (init scenario true 480)).current_frame = 0 := by
    have h := body_prefeed scenario (init scenario true 480) rfl
    have hstop : wrap64 ((init scenario true 480).prefeed_frames_left
        - (write_frames scenario (init scenario true 480) : Int)) ≤ 0 := by decide
    rw [h]; simp only [if_pos hstop]
  have hcond : loop_cond scenario (body scenario (init scenario true 480)) = true := by
    have hok : (body scenario (init scenario true 480)).failed = false := by
      rw [body_prefeed scenario (init scenario true 480) rfl]; rfl
    simp only [loop_cond, hok, hcur]
    decide
  exact ⟨⟨by decide, hhead, hcond⟩,
    (C16_window_positions scenario (by decide) true 480 _ hhead hcond).1, hcur⟩

end claims

end DenoiseIt

namespace DenoiseIt

section claims

variable {σ : Type} (e : Env σ)

/-- A PREFEEDING iteration ends the prefeed phase exactly when the budget it
leaves is zero or below. -/
theorem prefeed_step_phase (s : LoopState σ) (hp : s.is_prefeeding = true) :
    (body e s).is_prefeeding = false ↔
      wrap64 (s.prefeed_frames_left - (write_frames e s : Int)) ≤ 0 := by
  rw [body_prefeed e s hp]
  by_cases h : wrap64 (s.prefeed_frames_left - (write_frames e s : Int)) ≤ 0
  · simp [h]
  · simp [h]

/-- The loop heads of the prefeed phase. -/
theorem loop_head_prefeed (hF : 0 < e.rnnoise_frame_size)
    (hL : e.rnnoise_frame_size ≤ e.input_frames) (pf : Bool) (P : Int)
    (hB : budget_in_range e pf P) (j : Nat)
    (hj : j < prefeed_count e pf P) :
    PrefeedHead e P (loop_head e pf P j) j := by
  cases pf with
  | false => simp [prefeed_count] at hj
  | true =>
    exact prefeed_head e hF hL P (hB rfl).1 (hB rfl).2.2 j (by simpa [prefeed_count] using hj)

/-- The loop heads of the normal pass. -/
theorem loop_head_normal (hF : 0 < e.rnnoise_frame_size)
    (hL : e.rnnoise_frame_size ≤ e.input_frames) (hw : writes_succeed e)
    (pf : Bool) (P : Int) (hB : budget_in_range e pf P) (i : Nat)
    (hi : i ≤ normal_iterations e) :
    (loop_head e pf P (prefeed_count e pf P + i)).is_prefeeding = false ∧
    (loop_head e pf P (prefeed_count e pf P + i)).current_frame
      = min (i * e.rnnoise_frame_size) e.input_frames := by
  have h := run_normal_head e hF hL hw pf P hB i hi
  exact ⟨h.phase, h.cursor⟩

/-- Cursor discipline of a run whose budget is in range.  Let `K` be the
number of prefeed iterations (at least one when prefeed is enabled, zero when
it is disabled) and `T = ceil(L/F)`.  The loop goes round at the loop heads
`0 .. K+T-1` and is left at head `K+T`.  At every loop head the cursor is at
most `L`.  The cursor is strictly larger after every iteration, except the
iteration `K-1` that exists only when prefeed is enabled: it is the first in
which the remaining budget becomes zero or below, and after it the cursor is
zero.  The heads before `K` are PREFEEDING, every head from `K` on is
NORMAL. -/
theorem cursor_discipline_in_range (hF : 0 < e.rnnoise_frame_size)
    (hL : e.rnnoise_frame_size ≤ e.input_frames) (hw : writes_succeed e)
    (pf : Bool) (P : Int) (hB : budget_in_range e pf P) :
    (∀ j, j ≤ prefeed_count e pf P + normal_iterations e →
      (loop_head e pf P j).current_frame ≤ e.input_frames) ∧
    (∀ j, j < prefeed_count e pf P + normal_iterations e →
      loop_cond e (loop_head e pf P j) = true) ∧
    loop_cond e (loop_head e pf P (prefeed_count e pf P + normal_iterations e)) = false ∧
    (∀ j, j < prefeed_count e pf P + normal_iterations e → j + 1 ≠ prefeed_count e pf P →
      (loop_head e pf P j).current_frame < (loop_head e pf P (j + 1)).current_frame) ∧
    (∀ j, j + 1 = prefeed_count e pf P →
      (loop_head e pf P j).is_prefeeding = true ∧
      wrap64 ((loop_head e pf P j).prefeed_frames_left
        - (write_frames e (loop_head e pf P j) : Int)) ≤ 0 ∧
      (loop_head e pf P (j + 1)).current_frame = 0 ∧
      (loop_head e pf P (j + 1)).is_prefeeding = false) ∧
    (∀ j, j + 1 < prefeed_count e pf P →
      0 < wrap64 ((loop_head e pf P j).prefeed_frames_left
        - (write_frames e (loop_head e pf P j) : Int))) ∧
    (pf = true → 1 ≤ prefeed_count e pf P) ∧
    (pf = false → prefeed_count e pf P = 0) ∧
    (∀ j, j < prefeed_count e pf P → (loop_head e pf P j).is_prefeeding = true) ∧
    (∀ j, prefeed_count e pf P ≤ j → j ≤ prefeed_count e pf P + normal_iterations e →
      (loop_head e pf P j).is_prefeeding = false) := by
  have hnormal : ∀ j, prefeed_count e pf P ≤ j →
      j ≤ prefeed_count e pf P + normal_iterations e →
      (loop_head e pf P j).is_prefeeding = false ∧
      (loop_head e pf P j).current_frame
        = min ((j - prefeed_count e pf P) * e.rnnoise_frame_size) e.input_frames := by
    intro j h1 h2
    obtain ⟨i, rfl⟩ : ∃ i, j = prefeed_count e pf P + i :=
      ⟨j - prefeed_count e pf P, by omega⟩
    have h := loop_head_normal e hF hL hw pf P hB i (by omega)
    rw [Nat.add_sub_cancel_left]
    exact h
  refine ⟨fun j hj => ?_, fun j hj => run_loop_cond e hF hL hw pf P hB j hj, ?_,
    fun j hj hne => ?_, fun j hj => ?_, fun j hj => ?_, fun h => ?_, fun h => ?_,
    fun j hj => (loop_head_prefeed e hF hL pf P hB j hj).phase,
    fun j h1 h2 => (hnormal j h1 h2).1⟩
  · by_cases hjk : j < prefeed_count e pf P
    · exact Nat.le_of_lt (loop_head_prefeed e hF hL pf P hB j hjk).inside
    · rw [(hnormal j (by omega) hj).2]; omega
  · have hlast := run_last_head e hF hL hw pf P hB
    change (loop_head e pf P (prefeed_count e pf P + normal_iterations e)).current_frame
      = e.input_frames at hlast
    simp [loop_cond, hlast]
  · by_cases hjk : j + 1 < prefeed_count e pf P
    · rw [(loop_head_prefeed e hF hL pf P hB j (by omega)).cursor,
        (loop_head_prefeed e hF hL pf P hB (j + 1) hjk).cursor, Nat.succ_mul]
      omega
    · have hlt : (j - prefeed_count e pf P) * e.rnnoise_frame_size < e.input_frames :=
        (lt_ceil_div_iff hF _ _).1 (by unfold normal_iterations at hj; omega)
      rw [(hnormal j (by omega) (by omega)).2, (hnormal (j + 1) (by omega) (by omega)).2]
      have hsub : j + 1 - prefeed_count e pf P = (j - prefeed_count e pf P) + 1 := by omega
      rw [hsub, Nat.succ_mul]
      omega
  · have hd := loop_head_prefeed e hF hL pf P hB j (by omega)
    have hn := hnormal (j + 1) (by omega) (by omega)
    have hsub : j + 1 - prefeed_count e pf P = 0 := by omega
    rw [hsub] at hn
    refine ⟨hd.phase, ?_, by rw [hn.2]; simp, hn.1⟩
    rw [← prefeed_step_phase e _ hd.phase, ← loop_head_succ]
    exact hn.1
  · have hd := loop_head_prefeed e hF hL pf P hB j (by omega)
    have hd1 := loop_head_prefeed e hF hL pf P hB (j + 1) hj
    by_contra hneg
    have hstop : wrap64 ((loop_head e pf P j).prefeed_frames_left
        - (write_frames e (loop_head e pf P j) : Int)) ≤ 0 := by omega
    rw [← prefeed_step_phase e _ hd.phase, ← loop_head_succ, hd1.phase] at hstop
    exact absurd hstop (by decide)
  · subst h
    simp only [prefeed_count, if_true, prefeed_iterations]
    omega
  · subst h
    simp [prefeed_count]

/-- With prefeed disabled every loop head is in the NORMAL phase. -/
theorem loop_head_off (P : Int) (s : LoopState σ) (h : LoopHead e false P s) :
    s.is_prefeeding = false := by
  induction h with
  | entry => rfl
  | next s _ _ ih => exact body_phase_normal e s ih

/-- One iteration from a loop head, with its write succeeding: the cursor
becomes zero exactly when the iteration is a PREFEEDING one that leaves a
budget of zero or below, and is strictly larger otherwise. -/
theorem body_cursor (hF : 0 < e.rnnoise_frame_size)
    (hL : e.rnnoise_frame_size ≤ e.input_frames) (hw : writes_succeed e)
    (s : LoopState σ) (hpos : s.input_pos = s.current_frame)
    (hc : s.current_frame < e.input_frames) :
    ((body e s).current_frame = 0 ↔
      s.is_prefeeding = true ∧
        wrap64 (s.prefeed_frames_left - (write_frames e s : Int)) ≤ 0) ∧
    ((body e s).current_frame ≠ 0 →
      s.current_frame < (body e s).current_frame) := by
  obtain ⟨-, -, hwf, -⟩ := schedule_at e s hL hpos hc
  have hpos1 : 0 < write_frames e s := by rw [hwf]; omega
  cases hp : s.is_prefeeding with
  | false =>
    rw [body_normal e s hp (hw _ _)]
    refine ⟨⟨fun h => ?_, fun h => absurd h.1 (by decide)⟩, fun _ => ?_⟩
    · simp only at h; omega
    · simp only; omega
  | true =>
    rw [body_prefeed e s hp]
    by_cases hstop : wrap64 (s.prefeed_frames_left - (write_frames e s : Int)) ≤ 0
    · simp only [if_pos hstop]
      exact ⟨⟨fun _ => ⟨trivial, hstop⟩, fun _ => trivial⟩, fun h => absurd rfl h⟩
    · simp only [if_neg hstop]
      refine ⟨⟨fun h => ?_, fun h => absurd h.2 hstop⟩, fun _ => ?_⟩
      · omega
      · omega

/-- C17 (cursor discipline), evaluated on the code.  Take `L ≥ F > 0` (`L` an
`sf_count_t`) and all writes succeeding.  For every prefeed setting and every
value the 64-bit counter may be started with: at every loop head the cursor
is at most `L`; an iteration entered in the NORMAL phase ends in it, so
PREFEEDING is never re-entered; after an iteration the cursor is zero exactly
when the iteration was a PREFEEDING one that left a budget of zero or below,
and is strictly larger than before otherwise; with prefeed disabled every loop
head is NORMAL, so there is no rewind.  When the counter holds a budget
`P ≥ 0`, with `K` the number of prefeed iterations and `T = ceil(L/F)`: the
loop goes round at the heads `0 .. K+T-1` and is left at head `K+T`; the
cursor is strictly larger after every iteration except iteration `K-1`, which
exists only when prefeed is enabled, is the first in which the remaining
budget becomes zero or below, and leaves the cursor at zero: one rewind; the
heads before `K` are PREFEEDING, every head from `K` on is NORMAL.  But when
the requested duration times the sample rate is `2^63` or more, line 171
stores `SF_COUNT_MIN`: prefeed is enabled, yet the budget left by every
iteration is above zero, the cursor strictly increases at every iteration up
to `L`, and the loop is left at head `T`, still PREFEEDING, with no rewind at
all. -/
theorem C17_cursor_discipline_overflow (hF : 0 < e.rnnoise_frame_size)
    (hL : e.rnnoise_frame_size ≤ e.input_frames)
    (hL64 : (e.input_frames : Int) < 2 ^ 63) (hw : writes_succeed e) :
    (∀ (pf : Bool) (P : Int) (s : LoopState σ), LoopHead e pf P s →
      s.current_frame ≤ e.input_frames ∧
      (loop_cond e s = true →
        ((body e s).current_frame = 0 ↔
          s.is_prefeeding = true ∧
            wrap64 (s.prefeed_frames_left - (write_frames e s : Int)) ≤ 0) ∧
        ((body e s).current_frame ≠ 0 → s.current_frame < (body e s).current_frame) ∧
        (s.is_prefeeding = false → (body e s).is_prefeeding = false))) ∧
    (∀ (P : Int) (s : LoopState σ), LoopHead e false P s → s.is_prefeeding = false) ∧
    (∀ (pf : Bool) (P : Int), budget_in_range e pf P →
      (∀ j, j ≤ prefeed_count e pf P + normal_iterations e →
        (loop_head e pf P j).current_frame ≤ e.input_frames) ∧
      (∀ j, j < prefeed_count e pf P + normal_iterations e →
        loop_cond e (loop_head e pf P j) = true) ∧
      loop_cond e (loop_head e pf P (prefeed_count e pf P + normal_iterations e)) = false ∧
      (∀ j, j < prefeed_count e pf P + normal_iterations e → j + 1 ≠ prefeed_count e pf P →
        (loop_head e pf P j).current_frame < (loop_head e pf P (j + 1)).current_frame) ∧
      (∀ j, j + 1 = prefeed_count e pf P →
        (loop_head e pf P j).is_prefeeding = true ∧
        wrap64 ((loop_head e pf P j).prefeed_frames_left
          - (write_frames e (loop_head e pf P j) : Int)) ≤ 0 ∧
        (loop_head e pf P (j + 1)).current_frame = 0 ∧
        (loop_head e pf P (j + 1)).is_prefeeding = false) ∧
      (∀ j, j + 1 < prefeed_count e pf P →
        0 < wrap64 ((loop_head e pf P j).prefeed_frames_left
          - (write_frames e (loop_head e pf P j) : Int))) ∧
      (pf = true → 1 ≤ prefeed_count e pf P) ∧
      (pf = false → prefeed_count e pf P = 0) ∧
      (∀ j, j < prefeed_count e pf P → (loop_head e pf P j).is_prefeeding = true) ∧
      (∀ j, prefeed_count e pf P ≤ j → j ≤ prefeed_count e pf P + normal_iterations e →
        (loop_head e pf P j).is_prefeeding = false)) ∧
    (∀ secs : ℚ, (2 : ℚ) ^ 63 ≤ secs * 48000 →
      (entry e secs).is_prefeeding = true ∧
      (∀ j, j < normal_iterations e →
        loop_cond e ((body e)^[j] (entry e secs)) = true ∧
        ((body e)^[j] (entry e secs)).is_prefeeding = true ∧
        0 < wrap64 (((body e)^[j] (entry e secs)).prefeed_frames_left
          - (write_frames e ((body e)^[j] (entry e secs)) : Int)) ∧
        ((body e)^[j] (entry e secs)).current_frame
          < ((body e)^[j + 1] (entry e secs)).current_frame) ∧
      (∀ j, j ≤ normal_iterations e → 0 < j →
        ((body e)^[j] (entry e secs)).current_frame ≠ 0) ∧
      loop_cond e ((body e)^[normal_iterations e] (entry e secs)) = false ∧
      ((body e)^[normal_iterations e] (entry e secs)).is_prefeeding = true ∧
      ((body e)^[normal_iterations e] (entry e secs)).current_frame = e.input_frames) := by
  refine ⟨fun pf P s hs => ?_, fun P s hs => loop_head_off e P s hs,
    fun pf P hB => cursor_discipline_in_range e hF hL hw pf P hB, fun secs hsecs => ?_⟩
  · have hok := loop_head_ok e hw pf P s hs
    obtain ⟨hpos, hle⟩ := loop_head_pos e hL pf P s hs hok
    refine ⟨hle, fun hc => ?_⟩
    have hc2 := (loop_cond_iff e s).1 hc
    obtain ⟨h1, h2⟩ := body_cursor e hF hL hw s hpos hc2.2
    exact ⟨h1, h2, fun hp => body_phase_normal e s hp⟩
  · obtain ⟨-, hentry⟩ := entry_overflow e secs hsecs
    have hlh : ∀ j, (body e)^[j] (init e true SF_COUNT_MIN)
        = loop_head e true SF_COUNT_MIN j := fun _ => rfl
    have hcurs : ∀ j, j ≤ normal_iterations e →
        (loop_head e true SF_COUNT_MIN j).current_frame
          = min (j * e.rnnoise_frame_size) e.input_frames :=
      fun j hj => (overflow_head e hF hL hL64 j hj).cursor
    have hlast := overflow_head e hF hL hL64 (normal_iterations e) (le_refl _)
    have hend : (loop_head e true SF_COUNT_MIN (normal_iterations e)).current_frame
        = e.input_frames := by rw [hlast.cursor, min_last e hF]
    rw [hentry]
    simp only [hlh]
    refine ⟨rfl, fun j hj => ?_, fun j hj hpos => ?_, by simp [loop_cond, hend], hlast.phase,
      hend⟩
    · have hd := overflow_head e hF hL hL64 j (by omega)
      have hd1 := overflow_head e hF hL hL64 (j + 1) (by omega)
      have hlt : j * e.rnnoise_frame_size < e.input_frames :=
        (lt_ceil_div_iff hF j _).1 hj
      refine ⟨?_, hd.phase, ?_, ?_⟩
      · rw [loop_cond_iff, hd.cursor]
        exact ⟨hd.ok, by omega⟩
      · by_contra hneg
        have hstop : wrap64 ((loop_head e true SF_COUNT_MIN j).prefeed_frames_left
            - (write_frames e (loop_head e true SF_COUNT_MIN j) : Int)) ≤ 0 := by omega
        rw [← prefeed_step_phase e _ hd.phase, ← loop_head_succ, hd1.phase] at hstop
        exact absurd hstop (by decide)
      · rw [hd.cursor, hd1.cursor, Nat.succ_mul]
        omega
    · rw [hcurs j hj]
      have h1 : 1 * e.rnnoise_frame_size ≤ j * e.rnnoise_frame_size :=
        Nat.mul_le_mul_right _ hpos
      omega

/-- The scenario of the specification.  With a prefeed budget of 480 frames:
one prefeed iteration, after which the cursor is 0 in the NORMAL phase; the
loop is left at head 4 with the cursor at 1000.  With `--prefeed 2e14`, whose
product with the sample rate is above `2^63`: the cursor goes 0, 480, 960,
1000 without a rewind and the loop is left at head 3, still PREFEEDING. -/
theorem C17_cursor_discipline_overflow_witness :
    (0 < scenario.rnnoise_frame_size ∧ scenario.rnnoise_frame_size ≤ scenario.input_frames ∧
      (scenario.input_frames : Int) < 2 ^ 63 ∧ writes_succeed scenario ∧
      budget_in_range scenario true 480 ∧
      (2 : ℚ) ^ 63 ≤ 200000000000000 * 48000) ∧
    (prefeed_count scenario true 480 = 1 ∧ normal_iterations scenario = 3 ∧
      (loop_head scenario true 480 0).is_prefeeding = true ∧
      (loop_head scenario true 480 1).current_frame = 0 ∧
      (loop_head scenario true 480 1).is_prefeeding = false ∧
      (loop_head scenario true 480 1).current_frame
        < (loop_head scenario true 480 2).current_frame ∧
      loop_cond scenario (loop_head scenario true 480 4) = false) ∧
    (entry scenario 200000000000000).is_prefeeding = true ∧
    ((body scenario)^[0] (entry scenario 200000000000000)).current_frame
      < ((body scenario)^[1] (entry scenario 200000000000000)).current_frame ∧
    ((body scenario)^[1] (entry scenario 200000000000000)).current_frame
      < ((body scenario)^[2] (entry scenario 200000000000000)).current_frame ∧
    ((body scenario)^[2] (entry scenario 200000000000000)).current_frame
      < ((body scenario)^[3] (entry scenario 200000000000000)).current_frame ∧
    ((body scenario)^[3] (entry scenario 200000000000000)).current_frame = 1000 ∧
    ((body scenario)^[3] (entry scenario 200000000000000)).is_prefeeding = true ∧
    loop_cond scenario ((body scenario)^[3] (entry scenario 200000000000000)) = false := by
  have hsecs : (2 : ℚ) ^ 63 ≤ 200000000000000 * 48000 := by norm_num
  have hK : prefeed_count scenario true 480 = 1 := by decide
  have hT : normal_iterations scenario = 3 := by decide
  obtain ⟨-, -, hin, hover⟩ :=
    C17_cursor_discipline_overflow scenario (by decide) (by decide) (by decide)
      (fun _ _ => rfl)
  obtain ⟨-, -, hexit, hinc, hrew, -, -, -, -, -⟩ := hin true 480 (fun _ => by decide)
  rw [hK, hT] at hexit
  have h0 := hrew 0 (by rw [hK])
  have h1 := hinc 1 (by rw [hK, hT]; decide) (by rw [hK]; decide)
  obtain ⟨hph, hstep, -, hcond, hphT, hcurT⟩ := hover 200000000000000 hsecs
  rw [hT] at hcond hphT hcurT
  exact ⟨⟨by decide, by decide, by decide, fun _ _ => rfl, fun _ => by decide, hsecs⟩,
    ⟨hK, hT, h0.1, h0.2.2.1, h0.2.2.2, h1, hexit⟩, hph,
    (hstep 0 (by rw [hT]; decide)).2.2.2, (hstep 1 (by rw [hT]; decide)).2.2.2,
    (hstep 2 (by rw [hT]; decide)).2.2.2, hcurT, hphT, hcond⟩

end claims

end DenoiseIt

namespace DenoiseIt

section claims

variable {σ : Type} (e : Env σ)

end claims

end DenoiseIt

namespace DenoiseIt

section claims

variable {σ : Type} (e : Env σ)

/-- An iteration entered with all input staging buffers zero leaves them all
zero. -/
theorem body_staging (s : LoopState σ) (h : ∀ i, (s.state i).input = fun _ => 0) (i : Nat) :
    ((body e s).state i).input = fun _ => 0 := by
  rw [body_state]
  unfold channel_loop
  by_cases hi : i < e.channels
  · rw [channel_done_state e _ _ _ i (le_refl _) hi, process_channel_snd,
      Function.update_same]
    funext j
    simp only [bzero, engine_input, split_channel_apply, h i]
    split_ifs <;> rfl
  · rw [channel_prefix_state e _ _ _ i (by omega)]
    exact h i

/-- C19 (input staging is zeroed).  Every channel's input staging buffer is
all zeros in the state in which the loop is entered, and an iteration that
finds the staging buffers zero leaves them zero; so they are zero at every loop
head of every run, that is at the head and at the end of every iteration, in
both phases and whatever the writes return.  Within an iteration the buffer of
channel `ch` is zero in its `F` samples right after the engine call for
`ch`. -/
theorem C19_staging_zeroed (pf : Bool) (P : Int) :
    (∀ i, ((init e pf P).state i).input = fun _ => 0) ∧
    (∀ s : LoopState σ, (∀ i, (s.state i).input = fun _ => 0) →
      ∀ i, ((body e s).state i).input = fun _ => 0) ∧
    (∀ j i, ((loop_head e pf P j).state i).input = fun _ => 0) ∧
    (∀ s : LoopState σ, LoopHead e pf P s → ∀ i, (s.state i).input = fun _ => 0) ∧
    (∀ (is_pf : Bool) (ch : Nat) (p : (Nat → ℚ) × (Nat → channel_state σ)) (sample : Nat),
      sample < e.rnnoise_frame_size →
      ((process_channel e is_pf ch p).2 ch).input sample = 0) := by
  refine ⟨fun _ => rfl, fun s h i => body_staging e s h i, fun j => ?_, fun s hs => ?_,
    fun is_pf ch p sample hs => ?_⟩
  · induction j with
    | zero => exact fun _ => rfl
    | succ j ih =>
      intro i
      rw [loop_head_succ]
      exact body_staging e _ ih i
  · induction hs with
    | entry => exact fun _ => rfl
    | next s _ _ ih => exact fun i => body_staging e s ih i
  · rw [process_channel_snd, Function.update_same]
    simp [bzero, hs]

end claims

end DenoiseIt
